import Mathlib

/-!
Folia: bootstrap and request dispatch.

A shallow embedding of `src/FoliaServer.js` and `src/ConsoleProgressBar.js`.

Conventions of the embedding.

* A JavaScript statement sequence that may throw is a function into `Completion σ`:
  either `normal s` (ran to the end, state `s`) or `throw err s` (threw the error
  `err`, leaving the state `s`), so the state reached at a throw stays observable.
* An error is represented by its message.
* `await` is sequencing: every awaited call completes before the next statement.
* Observers registered on the event bus are callbacks acting on a world `ω` of their
  own; they may throw. Observers that write into the data object they receive are
  outside the model.
* The object `#eventsObservers` is given by its own properties; `on` and `emit` read an
  event name that it inherits from `Object.prototype` as JavaScript does.
-/

namespace Folia

/-! ## Completions -/

/-- Outcome of running statements on a state: normal completion or a thrown error. -/
inductive Completion (σ : Type) where
  | normal (s : σ)
  | throw (err : String) (s : σ)
  deriving Repr, DecidableEq

namespace Completion

/-- Sequencing: the continuation runs only after a normal completion. -/
def bind {σ τ : Type} (c : Completion σ) (lift : σ → τ) (k : σ → Completion τ) : Completion τ :=
  match c with
  | normal s => k s
  | throw err s => throw err (lift s)

/-- State reached, whether by normal completion or by a throw. -/
def state {σ : Type} : Completion σ → σ
  | normal s => s
  | throw _ s => s

/-- Error thrown, if any. -/
def error? {σ : Type} : Completion σ → Option String
  | normal _ => none
  | throw err _ => some err

/-- Normal completion. -/
def isNormal {σ : Type} : Completion σ → Bool
  | normal _ => true
  | throw _ _ => false

end Completion

/-! ## EventBus: `FoliaServer.on`, `FoliaServer.emit` (FoliaServer.js 552-577) -/

/-- An observer: called with the emitted data, acts on the observers' world. -/
abbrev Callback (δ ω : Type) := δ → ω → Completion ω

/-- The object `#eventsObservers`, by its own properties: event name to array of callbacks
(`none`: the object has no own property of that name). -/
abbrev EventsObservers (δ ω : Type) := String → Option (List (Callback δ ω))

/-- `#eventsObservers = \x7b\x7d` (line 552): an object literal without own properties. -/
def EventsObservers.empty {δ ω : Type} : EventsObservers δ ω := fun _ => none

/-- The names of the properties an object literal inherits from `Object.prototype`: reading
`#eventsObservers[name]` for such a name, when the object has no own property `name`, gives
a function (for `__proto__`: the prototype object), which is truthy, is not iterable and
has no `push` member. -/
def objectPrototypeKeys : List String :=
  ["constructor", "__defineGetter__", "__defineSetter__", "hasOwnProperty",
   "__lookupGetter__", "__lookupSetter__", "isPrototypeOf", "propertyIsEnumerable",
   "toString", "valueOf", "__proto__", "toLocaleString"]

/-- The assignment `#eventsObservers[event] = callbacks`. -/
def EventsObservers.set {δ ω : Type} (obs : EventsObservers δ ω) (event : String)
    (callbacks : List (Callback δ ω)) : EventsObservers δ ω :=
  fun e => if e = event then some callbacks else obs e

/-- `on(event, callback)` (lines 559-564): create the array for a first callback, push
otherwise; for an inherited name the value read is truthy and has no `push`, and the call
throws, leaving the object as it was. -/
def FoliaServer.on {δ ω : Type} (obs : EventsObservers δ ω) (event : String) (callback : Callback δ ω) :
    Completion (EventsObservers δ ω) :=
  match obs event with
  | some callbacks => .normal (obs.set event (callbacks ++ [callback]))
  | none =>
    if event ∈ objectPrototypeKeys then
      .throw "TypeError: this.#eventsObservers[event].push is not a function" obs
    else .normal (obs.set event [callback])

/-- The loop `for (const callback of callbacks) await callback(data)`. -/
def runCallbacks {δ ω : Type} : List (Callback δ ω) → δ → ω → Completion ω
  | [], _, w => .normal w
  | callback :: rest, data, w =>
    match callback data w with
    | .normal w1 => runCallbacks rest data w1
    | .throw err w1 => .throw err w1

/-- `emit(event, data)` (lines 571-577): for an inherited name the value read is truthy and
the loop over it throws. -/
def emit {δ ω : Type} (obs : EventsObservers δ ω) (event : String) (data : δ) (w : ω) :
    Completion ω :=
  match obs event with
  | some callbacks => runCallbacks callbacks data w
  | none =>
    if event ∈ objectPrototypeKeys then
      .throw "TypeError: this.#eventsObservers[event] is not iterable" w
    else .normal w

/-- A sequence of `on` calls, made in order; the sequence stops at the first call that
throws. -/
def registerAll {δ ω : Type} (obs : EventsObservers δ ω) :
    List (String × Callback δ ω) → Completion (EventsObservers δ ω)
  | [] => .normal obs
  | (event, callback) :: rest =>
    match FoliaServer.on obs event callback with
    | .normal obs1 => registerAll obs1 rest
    | .throw err obs1 => .throw err obs1

/-- No observer registered for `event` throws. -/
def QuietOn {δ ω : Type} (obs : EventsObservers δ ω) (event : String) : Prop :=
  ∀ callbacks, obs event = some callbacks →
    ∀ callback ∈ callbacks, ∀ data w, (callback data w).isNormal = true

/-! ## `ConsoleProgressBar.forEach` (ConsoleProgressBar.js 74-80) -/

/-- The loop `while (this.current < this.items.length) { await callback(items[current], current);
this.next() }`; `next` increments `current` and redraws the bar. -/
def ConsoleProgressBar.forEach {α σ : Type} (items : List α)
    (callback : α → Nat → σ → Completion σ) (current : Nat) (s : σ) : Completion σ :=
  if h : current < items.length then
    match callback (items.get ⟨current, h⟩) current s with
    | .normal s1 => ConsoleProgressBar.forEach items callback (current + 1) s1
    | .throw err s1 => .throw err s1
  else .normal s
termination_by items.length - current

/-! ## Extensions: `FoliaServer.#loadExtensions` (FoliaServer.js 249-280) -/

/-- The `init` member of an extension descriptor. -/
inductive InitField where
  | notFunction
  | returns
  | throws (err : String)
  deriving Repr, DecidableEq

/-- An extension descriptor `{ init, name, dependencies? }`. `name = none` is an absent
name; `dependencies = none` is an absent `dependencies` or one that is not an array. -/
structure Extension where
  name : Option String
  init : InitField
  dependencies : Option (List String)
  deriving Repr, DecidableEq

/-- JavaScript truthiness of an optional string. -/
def truthy : Option String → Bool
  | none => false
  | some s => s != ""

/-- Data passed with the extension events. -/
inductive ExtensionsData where
  | all (extensions : List Extension)
  | one (extension : Extension)
  deriving Repr, DecidableEq

/-- The part of the server `#loadExtensions` acts on: the registry `this.extensions`, the
extensions whose `init` was invoked (in order) and the observers' world. -/
structure ExtensionsState (ω : Type) where
  extensions : List Extension
  initialised : List Extension
  world : ω

/-- Run `emit` on the observers' world of an extensions state. -/
def emitExt {ω : Type} (obs : EventsObservers ExtensionsData ω) (event : String)
    (data : ExtensionsData) (s : ExtensionsState ω) : Completion (ExtensionsState ω) :=
  (emit obs event data s.world).bind (fun w => { s with world := w })
    (fun w => .normal { s with world := w })

/-- Message of the error thrown for an extension without name. -/
def noNameError : String :=
  "Incorrect extension passed to FoliaServer !\nExpected " ++
  "'\x7b init:Function, name:string, dependencies?: string[]\x7d' but no 'name' was found !"

/-- Message of the error thrown for an extension whose `init` is not a function. -/
def noInitError : String :=
  "Incorrect extension passed to FoliaServer !\nExpected " ++
  "'\x7b init:Function, name:string, dependencies?: string[]\x7d' but no 'init' function was found !"

/-- Message of the error thrown for a dependency that is not loaded. -/
def dependencyError (name : Option String) (dependency : String) : String :=
  "Extension '" ++ name.getD "undefined" ++ "' require extension '" ++ dependency ++ "' !"

/-- The loop `dependencies.forEach(dependency => { if (!this.extensions.find(...)) throw ... })`:
the first dependency that no registered extension bears as its name. -/
def missingDependency (registry : List Extension) : List String → Option String
  | [] => none
  | dependency :: rest =>
    match registry.find? (fun extension => extension.name == some dependency) with
    | none => some dependency
    | some _ => missingDependency registry rest

/-- Body of the callback given to `extensionsProgressBar.forEach` (lines 255-275). -/
def loadExtension {ω : Type} (obs : EventsObservers ExtensionsData ω) (extension : Extension)
    (s : ExtensionsState ω) : Completion (ExtensionsState ω) :=
  (emitExt obs "FoliaServerEvent_BEFORE_EXTENSION_LOADED" (.one extension) s).bind id fun s1 =>
    if !truthy extension.name then .throw noNameError s1
    else if extension.init = .notFunction then .throw noInitError s1
    else
      match missingDependency s1.extensions (extension.dependencies.getD []) with
      | some dependency => .throw (dependencyError extension.name dependency) s1
      | none =>
        let s2 := { s1 with extensions := s1.extensions ++ [extension] }
        let s3 := { s2 with initialised := s2.initialised ++ [extension] }
        match extension.init with
        | .throws err => .throw err s3
        | _ => emitExt obs "FoliaServerEvent_AFTER_EXTENSION_LOADED" (.one extension) s3

/-- `#loadExtensions`, given the default export of the extensions file. -/
def loadExtensions {ω : Type} (obs : EventsObservers ExtensionsData ω)
    (extensions : List Extension) (s : ExtensionsState ω) : Completion (ExtensionsState ω) :=
  (emitExt obs "FoliaServerEvent_BEFORE_EXTENSIONS_LOADED" (.all extensions) s).bind id fun s1 =>
    (ConsoleProgressBar.forEach extensions (fun extension _ => loadExtension obs extension) 0
      s1).bind id fun s2 =>
      emitExt obs "FoliaServerEvent_AFTER_EXTENSIONS_LOADED" (.all extensions) s2

/-- State of a fresh server: `extensions = []`, no `init` invoked yet. -/
def ExtensionsState.fresh {ω : Type} (w : ω) : ExtensionsState ω :=
  { extensions := [], initialised := [], world := w }

/-- A well-formed descriptor: truthy name, callable `init` that does not throw. -/
def Extension.WellFormed (e : Extension) : Prop :=
  truthy e.name = true ∧ e.init = .returns

/-! ## Paths and the file system

Node's `fs` module is not part of the repository. It is modelled as a finite map from
resolved paths (lists of path components) to nodes. A path string is resolved by splitting
it at `/` and dropping the empty and the `.` components; `..` and links are not modelled. -/

/-- JavaScript `split('/')`, on the characters of a string. -/
def splitSlash : List Char → List (List Char)
  | [] => [[]]
  | c :: cs =>
    if c = '/' then [] :: splitSlash cs
    else
      match splitSlash cs with
      | [] => [[c]]
      | segment :: segments => (c :: segment) :: segments

/-- The call `path.split('/')`. -/
def split (path : String) : List String := (splitSlash path.data).map String.mk

/-- A node of the file system. -/
inductive FsNode where
  | directory
  | file (content : String)
  deriving Repr, DecidableEq

/-- A file system state: resolved path to node; the first entry for a path counts. -/
abbrev FileSystem := List (List String × FsNode)

/-- Resolution of a path string, relative to the working directory. -/
def components (path : String) : List String :=
  (split path).filter (fun segment => segment != "" && segment != ".")

/-- The node at a resolved path; the working directory itself is a directory. -/
def FileSystem.nodeAt (fs : FileSystem) (key : List String) : Option FsNode :=
  if key = [] then some .directory else fs.lookup key

/-- Model of `fs.existsSync(path)`. -/
def existsSync (fs : FileSystem) (path : String) : Bool :=
  (fs.nodeAt (components path)).isSome

/-- Content of the file at `path`, if `path` is a file. -/
def readFile (fs : FileSystem) (path : String) : Option String :=
  match fs.nodeAt (components path) with
  | some (.file content) => some content
  | _ => none

/-- Model of `fs.readdirSync(path)`: the names directly under a directory, `none` when the
call throws because `path` is not a directory. -/
def readdirSync (fs : FileSystem) (path : String) : Option (List String) :=
  match fs.nodeAt (components path) with
  | some .directory =>
    some (fs.filterMap fun entry =>
      if entry.1.dropLast = components path then entry.1.getLast? else none)
  | _ => none

/-- Model of `fs.mkdirSync(path)`: fails on an existing path and on a parent that is not a
directory. -/
def mkdirSync (fs : FileSystem) (path : String) : Completion FileSystem :=
  if (fs.nodeAt (components path)).isSome then
    .throw ("EEXIST: file already exists, mkdir '" ++ path ++ "'") fs
  else if fs.nodeAt (components path).dropLast = some .directory then
    .normal (fs ++ [(components path, .directory)])
  else .throw ("ENOENT: no such file or directory, mkdir '" ++ path ++ "'") fs

/-- Replace the node stored for `key`. -/
def FileSystem.replace (fs : FileSystem) (key : List String) (node : FsNode) : FileSystem :=
  fs.map fun entry => if entry.1 = key then (key, node) else entry

/-- Model of `fs.writeFileSync(path, content)` for a string `content`: fails on a directory
and on a parent that is not a directory, replaces the content of an existing file. -/
def writeFileSync (fs : FileSystem) (path : String) (content : String) :
    Completion FileSystem :=
  match fs.nodeAt (components path) with
  | some .directory =>
    .throw ("EISDIR: illegal operation on a directory, open '" ++ path ++ "'") fs
  | some (.file _) => .normal (fs.replace (components path) (.file content))
  | none =>
    if fs.nodeAt (components path).dropLast = some .directory then
      .normal (fs ++ [(components path, .file content)])
    else .throw ("ENOENT: no such file or directory, open '" ++ path ++ "'") fs

/-! ## Architecture: `FoliaServer.#loadArchitecture` (FoliaServer.js 89-208) -/

/-- A `path` or `content` of an architecture entry: a string, or a function of the module
name (with its source text, which is what string concatenation makes of a function). -/
inductive Templated where
  | str (s : String)
  | fn (source : String) (f : String → String)

/-- String coercion, as in `parentPath + '/'`. -/
def Templated.toString : Templated → String
  | .str s => s
  | .fn source _ => source

/-- Truthiness of an optional string-or-function. -/
def Templated.truthy : Option Templated → Bool
  | none => false
  | some (.str s) => s != ""
  | some (.fn _ _) => true

/-- The steps `if (typeof x === 'function') x = x(module)`. -/
def Templated.resolve (module : String) : Templated → String
  | .str s => s
  | .fn _ f => f module

/-- An entry of `ARCHITECTURE.BASE` or `ARCHITECTURE.MODULES`; an entry without `children`
has the empty list. -/
inductive ArchitectureEntry where
  | mk (path : Templated) (content : Option Templated) (children : List ArchitectureEntry)
      (requirePath : Option Templated)

/-- An element of the list `getEntriesToCreate` returns. -/
structure EntryToCreate where
  path : Templated
  content : Option Templated
  requirePath : Option Templated

/-- Source text of the arrow function that `getEntriesToCreate` builds for a templated child
path. -/
def composedSource : String :=
  "(moduleName) => \x7b\n                            return parentPath + '/' + " ++
  "childPath(moduleName)\n                        \x7d"

/-- The `path` of an entry below `parentPath` (lines 113-122). -/
def childPath (parentPath : Option Templated) (path : Templated) : Templated :=
  match parentPath with
  | none => path
  | some parent =>
    if Templated.truthy (some parent) then
      match path with
      | .fn _ f => .fn composedSource (fun moduleName => parent.toString ++ "/" ++ f moduleName)
      | .str s => .str (parent.toString ++ "/" ++ s)
    else path

/-- The `requirePath` of an entry below `parentPath` (lines 124-125). -/
def childRequirePath (parentPath : Option Templated) (requirePath : Option Templated) :
    Option Templated :=
  if Templated.truthy parentPath && !Templated.truthy requirePath then parentPath
  else requirePath

mutual
/-- The function `getEntriesToCreate(architecture, parentPath)` (lines 108-135). -/
def getEntriesToCreate : List ArchitectureEntry → Option Templated → List EntryToCreate
  | [], _ => []
  | entry :: rest, parentPath =>
    entriesOfEntry entry parentPath ++ getEntriesToCreate rest parentPath
/-- Body of the `architecture.forEach` callback of `getEntriesToCreate`. -/
def entriesOfEntry : ArchitectureEntry → Option Templated → List EntryToCreate
  | .mk path content children requirePath, parentPath =>
    { path := childPath parentPath path, content := content,
      requirePath := childRequirePath parentPath requirePath }
      :: getEntriesToCreate children (some (childPath parentPath path))
end

/-- The object `data` of `#loadArchitecture`; `filesToCreate` keeps its keys in insertion
order. -/
structure ArchitectureData where
  modules : List String
  directoriesToCreate : List String
  filesToCreate : List (String × Templated)

/-- The assignment `data.filesToCreate[key] = content`. -/
def setFile (files : List (String × Templated)) (key : String) (content : Templated) :
    List (String × Templated) :=
  if files.any (fun entry => entry.1 == key) then
    files.map fun entry => if entry.1 == key then (key, content) else entry
  else files ++ [(key, content)]

/-- The loop over `directoriesToCreate` in `verifyArchitecture` (lines 177-183): returns the
final `path` and the updated `data.directoriesToCreate`. -/
def recordDirectories (fs : FileSystem) : List String → String → List String →
    String × List String
  | [], path, recorded => (path, recorded)
  | directoryName :: rest, path, recorded =>
    let path1 := path ++ "/" ++ directoryName
    recordDirectories fs rest path1
      (if !existsSync fs path1 && !recorded.contains path1 then recorded ++ [path1]
       else recorded)

/-- The function `verifyArchitecture(entryToCreate)` (lines 166-189). -/
def verifyArchitecture (fs : FileSystem) (path : Templated) (content : Option Templated)
    (data : ArchitectureData) : Completion ArchitectureData :=
  match path with
  | .fn _ _ => .throw "TypeError: entryData.entryToCreate.path.split is not a function" data
  | .str p =>
    let segments := split p
    let fileToCreate := if Templated.truthy content then segments.getLast? else none
    let directories := if Templated.truthy content then segments.dropLast else segments
    let (path1, recorded) := recordDirectories fs directories "." data.directoriesToCreate
    let data1 := { data with directoriesToCreate := recorded }
    match fileToCreate, content with
    | some file, some text =>
      if file != "" && !existsSync fs (path1 ++ "/" ++ file) then
        .normal { data1 with filesToCreate := setFile data1.filesToCreate (path1 ++ "/" ++ file) text }
      else .normal data1
    | _, _ => .normal data1

/-- Model of `fs.existsSync` on a value that may be a function: not a path, so `false`. -/
def existsSyncValue (fs : FileSystem) : Templated → Bool
  | .str s => existsSync fs s
  | .fn _ _ => false

/-- Callback of `baseArchitectureVerifyProgressBar.forEach` (lines 137-140). -/
def verifyBaseEntry (fs : FileSystem) (entryToCreate : EntryToCreate)
    (data : ArchitectureData) : Completion ArchitectureData :=
  match entryToCreate.requirePath with
  | none => verifyArchitecture fs entryToCreate.path entryToCreate.content data
  | some requirePath =>
    if !Templated.truthy (some requirePath) || !existsSyncValue fs requirePath then
      verifyArchitecture fs entryToCreate.path entryToCreate.content data
    else .normal data

/-- Callback of `moduleArchitectureVerifyProgressBar.forEach` (lines 147-157). -/
def verifyModuleEntry (fs : FileSystem) (module : String) (entryToCreate : EntryToCreate)
    (data : ArchitectureData) : Completion ArchitectureData :=
  let path := entryToCreate.path.resolve module
  let content := entryToCreate.content.map fun c => Templated.str (c.resolve module)
  match entryToCreate.requirePath with
  | none => verifyArchitecture fs (.str ("module/" ++ module ++ "/" ++ path)) content data
  | some requirePath =>
    if !Templated.truthy (some requirePath)
        || !existsSync fs ("module/" ++ module ++ "/" ++ requirePath.toString) then
      verifyArchitecture fs (.str ("module/" ++ module ++ "/" ++ path)) content data
    else .normal data

/-- The loop `for (let i = 0; i < data.modules.length; i++)` (lines 142-158). -/
def verifyModules (fs : FileSystem) (moduleEntriesToCreate : List EntryToCreate) :
    List String → ArchitectureData → Completion ArchitectureData
  | [], data => .normal data
  | module :: rest, data =>
    match ConsoleProgressBar.forEach moduleEntriesToCreate
        (fun entryToCreate _ => verifyModuleEntry fs module entryToCreate) 0 data with
    | .normal data1 => verifyModules fs moduleEntriesToCreate rest data1
    | .throw err data1 => .throw err data1

/-- The scan of `#loadArchitecture` (lines 101-158), which only reads the file system. -/
def scanArchitecture (fs : FileSystem) (base modules : List ArchitectureEntry)
    (data : ArchitectureData) : Completion ArchitectureData :=
  match ConsoleProgressBar.forEach (getEntriesToCreate base none)
      (fun entryToCreate _ => verifyBaseEntry fs entryToCreate) 0 data with
  | .normal data1 => verifyModules fs (getEntriesToCreate modules none) data.modules data1
  | .throw err data1 => .throw err data1

/-- A call made to the file system while updating the architecture. -/
inductive FsCall where
  | mkdir (path : String)
  | writeFile (path : String) (content : Templated)

/-- State of `#loadArchitecture`: the file system, the object `data` and the calls to
`mkdirSync` and `writeFileSync` made so far. -/
structure ArchitectureState where
  fs : FileSystem
  data : ArchitectureData
  calls : List FsCall

/-- Callback of `directoriesProgressBar.forEach` (lines 198-200). -/
def createDirectory (path : String) (s : ArchitectureState) : Completion ArchitectureState :=
  (mkdirSync s.fs path).bind
    (fun fs1 => { s with fs := fs1, calls := s.calls ++ [.mkdir path] })
    (fun fs1 => .normal { s with fs := fs1, calls := s.calls ++ [.mkdir path] })

/-- Callback of `filesProgressBar.forEach` (lines 204-206); `writeFileSync` rejects data that
is a function before it opens the file. -/
def createFile (file : String × Templated) (s : ArchitectureState) :
    Completion ArchitectureState :=
  match file.2 with
  | .fn _ _ =>
    .throw "TypeError [ERR_INVALID_ARG_TYPE]: The \"data\" argument must be of type string"
      { s with calls := s.calls ++ [.writeFile file.1 file.2] }
  | .str content =>
    (writeFileSync s.fs file.1 content).bind
      (fun fs1 => { s with fs := fs1, calls := s.calls ++ [.writeFile file.1 file.2] })
      (fun fs1 => .normal { s with fs := fs1, calls := s.calls ++ [.writeFile file.1 file.2] })

/-- The update of `#loadArchitecture` (lines 192-208): directories first, then files. -/
def updateArchitecture (s : ArchitectureState) : Completion ArchitectureState :=
  if s.data.directoriesToCreate.length > 0 || s.data.filesToCreate.length > 0 then
    (if s.data.directoriesToCreate.length > 0 then
      ConsoleProgressBar.forEach s.data.directoriesToCreate (fun path _ => createDirectory path)
        0 s
     else .normal s).bind id fun s1 =>
      if s1.data.filesToCreate.length > 0 then
        ConsoleProgressBar.forEach s1.data.filesToCreate (fun file _ => createFile file) 0 s1
      else .normal s1
  else .normal s

/-- `#loadArchitecture` up to the end of the update (lines 89-208), on the declared trees
`ARCHITECTURE.BASE` and `ARCHITECTURE.MODULES`. The check of the local configuration files
that follows does not touch the file system; the architecture events are left out. -/
def loadArchitecture (fs : FileSystem) (base modules : List ArchitectureEntry) :
    Completion ArchitectureState :=
  match readdirSync fs "./module" with
  | none =>
    .throw "ENOENT: no such file or directory, scandir './module'"
      { fs := fs, data := { modules := [], directoriesToCreate := [], filesToCreate := [] },
        calls := [] }
  | some modulesDirectories =>
    let data : ArchitectureData :=
      { modules := modulesDirectories, directoriesToCreate := [], filesToCreate := [] }
    match scanArchitecture fs base modules data with
    | .throw err data1 => .throw err { fs := fs, data := data1, calls := [] }
    | .normal data1 => updateArchitecture { fs := fs, data := data1, calls := [] }

/-! ## JavaScript values -/

/-- JavaScript values, as far as route validation and response handling tell them apart:
truthiness and `typeof`. An `object` has none of the members the code looks up. -/
inductive JsValue where
  | undefined
  | null
  | bool (b : Bool)
  | number (n : Int)
  | nan
  | string (s : String)
  | function (name : String)
  | object (tag : String)
  deriving Repr, DecidableEq

/-- Truthiness: `!v` is `false`. -/
def JsValue.truthy : JsValue → Bool
  | .undefined => false
  | .null => false
  | .bool b => b
  | .number n => n != 0
  | .nan => false
  | .string s => s != ""
  | .function _ => true
  | .object _ => true

/-- The operator `typeof`. -/
def JsValue.typeof : JsValue → String
  | .undefined => "undefined"
  | .null => "object"
  | .bool _ => "boolean"
  | .number _ => "number"
  | .nan => "number"
  | .string _ => "string"
  | .function _ => "function"
  | .object _ => "object"

/-- String conversion in a template literal, for the values that occur as route paths. -/
def JsValue.display : JsValue → String
  | .undefined => "undefined"
  | .null => "null"
  | .bool b => if b then "true" else "false"
  | .number n => toString n
  | .nan => "NaN"
  | .string s => s
  | .function name => "function " ++ name
  | .object _ => "[object Object]"

/-- The text `JSON.stringify` gives, for the values that occur as hooks; the tag of an
object stands for its JSON text. -/
def JsValue.json : JsValue → String
  | .undefined => "undefined"
  | .null => "null"
  | .bool b => if b then "true" else "false"
  | .number n => toString n
  | .nan => "null"
  | .string s => "\"" ++ s ++ "\""
  | .function _ => "undefined"
  | .object tag => tag

/-! ## Routes: `FoliaServer.#loadRoutes` (FoliaServer.js 376-530) -/

/-- An entry of `middlewares`: a function without `invoke` member, a value with a truthy
`invoke` member (with what calling it does), or any other value. -/
inductive Hook where
  | function (name : String)
  | invokable (result : Except String JsValue)
  | other (v : JsValue)

/-- The `middlewares` member of a route. -/
inductive MiddlewaresField where
  | falsy
  | notArray (v : JsValue)
  | array (hooks : List Hook)

/-- The `controller` member of a route: a value that cannot be constructed, or a class with
its name and what `new controller(\x7b\x7d)` does: throw, or build an instance whose members
are given by name (`undefined` for an absent member). -/
inductive ControllerField where
  | value (v : JsValue)
  | klass (name : String) (probe : Except String (String → JsValue))

/-- Truthiness of the `controller` member. -/
def ControllerField.truthy : ControllerField → Bool
  | .value v => v.truthy
  | .klass _ _ => true

/-- The operator `typeof` on the `controller` member. -/
def ControllerField.typeof : ControllerField → String
  | .value v => v.typeof
  | .klass _ _ => "function"


/-- An argument handed to the transport layer. -/
inductive TransportArg where
  | path (p : JsValue)
  | middlewares (ms : List JsValue)
  | handler (h : JsValue)
  | dispatch (controller : String) (action : String)
  deriving Repr, DecidableEq

/-- A call `data.router[data.method](...)`. -/
structure TransportCall where
  router : String
  method : String
  args : List TransportArg
  deriving Repr, DecidableEq

/-- A router of the transport layer: its name, which of its members are functions, and what
calling such a member with given arguments does: return (`none`) or throw an error. -/
structure Router where
  name : String
  callable : String → Bool
  invoke : String → List TransportArg → Option String

/-- A route descriptor. `router = none` is an absent router. -/
structure Route where
  router : Option Router
  method : JsValue
  path : JsValue
  handler : JsValue
  middlewares : MiddlewaresField
  controller : ControllerField
  action : JsValue

/-- Data passed with the route events: the route as declared, and after validation the
normalised middlewares and action name as well. -/
inductive RouteEvent where
  | before (route : Route)
  | after (route : Route) (middlewares : List JsValue)

/-- The part of the server `#loadRoutes` acts on: the calls made to the transport layer
and the observers' world. -/
structure RoutesState (ω : Type) where
  calls : List TransportCall
  world : ω

/-- Run `emit` on the observers' world of a routes state. -/
def emitRoute {ω : Type} (obs : EventsObservers RouteEvent ω) (event : String)
    (data : RouteEvent) (s : RoutesState ω) : Completion (RoutesState ω) :=
  (emit obs event data s.world).bind (fun w => { s with world := w })
    (fun w => .normal { s with world := w })

/-- The call `data.middlewares.map(hook => ...)` (lines 408-415): the normalised list, or
the first error thrown. -/
def normaliseHooks (path : JsValue) : List Hook → Except String (List JsValue)
  | [] => .ok []
  | hook :: rest =>
    match hook with
    | .invokable (.error err) => .error err
    | .invokable (.ok v) => (normaliseHooks path rest).map (fun vs => v :: vs)
    | .function name => (normaliseHooks path rest).map (fun vs => JsValue.function name :: vs)
    | .other v =>
      if v = .undefined || v = .null then
        .error ("TypeError: Cannot read properties of " ++ v.display ++ " (reading 'invoke')")
      else
        .error ("Incorrect type for route's hook ! Expected 'Function' or 'Object' with a " ++
          "'invoke' method but found '" ++ v.json ++ "'\nAt route with path '" ++
          path.display ++ "'")

/-- Validation of `path`, `method` and `middlewares` (lines 391-415): the method name and
the normalised middlewares, or the error thrown. -/
def validateRoute (route : Route) : Except String (String × List JsValue) :=
  if route.method != .string "use" && !route.path.truthy then
    .error "Missing 'path' in route definition"
  else if route.method != .string "use" && route.path.typeof != "string" then
    .error ("Incorrect type for route's path ! Expected 'string' but found '" ++
      route.path.typeof ++ "'")
  else if !route.method.truthy then
    .error ("Missing 'method' in route !\nAt route with path '" ++ route.path.display ++ "'")
  else
    match route.method with
    | .string method =>
      match route.middlewares with
      | .falsy => .ok (method, [])
      | .notArray v =>
        .error ("Incorrect type for route's middlewares ! Expected 'Function[]' but found '"
          ++ v.typeof ++ "'\nAt route with path '" ++ route.path.display ++ "'")
      | .array hooks => (normaliseHooks route.path hooks).map (fun ms => (method, ms))
    | other =>
      .error ("Incorrect type for route's method ! Expected 'string' but found '" ++
        other.typeof ++ "'\nAt route with path '" ++ route.path.display ++ "'")

/-- The call `data.router[data.method](...args)`: a `TypeError` when that member of the
router is not a function; otherwise the call is made, and it returns or throws. -/
def callRouter {ω : Type} (router : Router) (method : String) (args : List TransportArg)
    (s : RoutesState ω) : Completion (RoutesState ω) :=
  if router.callable method then
    match router.invoke method args with
    | none =>
      .normal { s with calls := s.calls
                  ++ [{ router := router.name, method := method, args := args }] }
    | some err =>
      .throw err { s with calls := s.calls
                    ++ [{ router := router.name, method := method, args := args }] }
  else .throw "TypeError: data.router[data.method] is not a function" s

/-- The checks on `handler` of a `use` route (lines 425-428). -/
def checkHandler (route : Route) : Except String Unit :=
  if !route.handler.truthy then
    .error ("Missing 'handler' in route definition\nAt route with path '" ++
      route.path.display ++ "'")
  else if route.handler.typeof != "function" then
    .error ("Incorrect type for route's handler ! Expected 'function' but found '" ++
      route.handler.typeof ++ "'\nAt route with path '" ++ route.path.display ++ "'")
  else .ok ()

/-- Registration of a `use` route (lines 423-435). -/
def registerUse {ω : Type} (router : Router) (route : Route) (middlewares : List JsValue)
    (s : RoutesState ω) : Completion (RoutesState ω) :=
  match checkHandler route with
  | .error err => .throw err s
  | .ok _ =>
    if route.path.truthy then
      callRouter router "use"
        [.path route.path, .middlewares middlewares, .handler route.handler] s
    else callRouter router "use" [.handler route.handler] s

/-- The name `data.action` after `if (typeof data.action === "function") data.action =
data.action.name`, when it is a string. -/
def actionName : JsValue → Option String
  | .function name => some name
  | .string name => some name
  | _ => none

/-- The checks on `controller` and `action` of a controller route, with the construction of
the dummy instance (lines 438-454): the name of the class and of the action, or the error
thrown. -/
def checkController (route : Route) : Except String (String × String) :=
  if !route.controller.truthy then
    .error ("Missing 'controller' in route !\nAt route with path '" ++
      route.path.display ++ "'")
  else if route.controller.typeof != "function" && route.controller.typeof != "object" then
    .error ("Incorrect type for route's controller ! Expected 'Class' or 'Object' but found '"
      ++ route.controller.typeof ++ "'\nAt route with path '" ++ route.path.display ++ "'")
  else if !route.action.truthy then
    .error ("Missing 'action' in route !\nAt route with path '" ++ route.path.display ++ "'")
  else
    match actionName route.action with
    | none =>
      .error ("Incorrect type for route's action ! Expected 'string' but found '" ++
        route.action.typeof ++ "'\nAt route with path '" ++ route.path.display ++ "'")
    | some action =>
      match route.controller with
      | .value _ => .error "TypeError: data.controller is not a constructor"
      | .klass _ (.error err) => .error err
      | .klass name (.ok members) =>
        if !(members action).truthy then
          .error ("Missing action '" ++ action ++ "' in controller " ++ name ++
            " !\nAt route with path '" ++ route.path.display ++ "'")
        else if (members action).typeof != "function" then
          .error ("Incorrect type for action '" ++ action ++ "' in controller " ++ name ++
            " ! Expected 'function' but found '" ++ (members action).typeof ++
            "'\nAt route with path '" ++ route.path.display ++ "'")
        else .ok (name, action)

/-- Registration of a controller route (lines 436-522). -/
def registerController {ω : Type} (router : Router) (method : String) (route : Route)
    (middlewares : List JsValue) (s : RoutesState ω) : Completion (RoutesState ω) :=
  match checkController route with
  | .error err => .throw err s
  | .ok (name, action) =>
    callRouter router method
      [.path route.path, .middlewares middlewares, .dispatch name action] s

/-- Body of the callback given to `routesProgressBar.forEach` (lines 381-525); `app` is the
root router `this.app`. -/
def loadRoute {ω : Type} (obs : EventsObservers RouteEvent ω) (app : Router) (route : Route)
    (s : RoutesState ω) : Completion (RoutesState ω) :=
  (emitRoute obs "FoliaServerEvent_BEFORE_ROUTE_LOADED" (.before route) s).bind id fun s1 =>
    match validateRoute route with
    | .error err => .throw err s1
    | .ok (method, middlewares) =>
      let router := route.router.getD app
      (if method = "use" then registerUse router route middlewares s1
       else registerController router method route middlewares s1).bind id fun s2 =>
        emitRoute obs "FoliaServerEvent_AFTER_ROUTE_LOADED" (.after route middlewares) s2

/-! ## Request dispatch: the handler registered for a controller route
(FoliaServer.js 461-521) -/

/-- A member (`send`, `prepare`) of a response object: absent, present but not a function,
or a function that returns or throws when called. -/
inductive Member where
  | absent
  | notCallable
  | method (throws : Option String)
  deriving Repr, DecidableEq

/-- The value of `reqData.response`: a value without `send` and `prepare` members, or an
object with its `send` and `prepare` members. -/
inductive Response where
  | value (v : JsValue)
  | protocol (send prepare : Member)
  deriving Repr, DecidableEq

/-- Truthiness of a response value. -/
def Response.truthy : Response → Bool
  | .value v => v.truthy
  | .protocol _ _ => true

/-- The object `data` of a registered controller route, which the handler uses as
`reqData`: the route's path, controller and action, the handles of the request being served
and what the handler stored in it. Requests and the handles they come with are identified
by a number. -/
structure RouteData where
  path : String
  controller : String
  action : String
  req : Option Nat
  res : Option Nat
  next : Option Nat
  controllerInstance : Option Nat
  response : Option Response
  deriving Repr, DecidableEq

/-- The member `_response` of the controller instance once the action has run. -/
inductive EarlyResponse where
  | unset
  | value (r : Response)
  | promise (outcome : Except String Response)

/-- What the code called by the handler does on one request: the error thrown by
`new reqData.controller(reqData)` if it throws, the outcome of awaiting the action, the
`_response` of the instance, and the error thrown by the transport response when the
handler sends through it (`res.status(204).send()`, `res.send(body)`), if it throws. -/
structure Request where
  id : Nat
  construct : Option String
  action : Except String Response
  early : EarlyResponse
  transport : Option String

/-- What the handler does, in order. -/
inductive Effect where
  | emitted (event : String)
  | construct (request : Nat)
  | action (name : String) (request : Nat)
  | status204 (res : Nat)
  | prepare (request : Nat)
  | send (res : Nat)
  | resSend (res : Nat) (body : Response)
  | consoleError (err : String)
  | next (request : Nat) (err : String)
  deriving Repr, DecidableEq

/-- State of the handler: the object `reqData`, the effects so far, the observers' world. -/
structure DispatchState (ω : Type) where
  data : RouteData
  trace : List Effect
  world : ω

/-- The call `await this.emit(event, reqData)`. -/
def emitReq {ω : Type} (obs : EventsObservers RouteData ω) (event : String)
    (s : DispatchState ω) : Completion (DispatchState ω) :=
  (emit obs event s.data s.world).bind
    (fun w => { s with trace := s.trace ++ [.emitted event], world := w })
    (fun w => .normal { s with trace := s.trace ++ [.emitted event], world := w })

/-- Creating the controller (lines 473-475). -/
def initController {ω : Type} (obs : EventsObservers RouteData ω) (request : Request)
    (s : DispatchState ω) : Completion (DispatchState ω) :=
  (emitReq obs "FoliaServerEvent_BEFORE_CONTROLLER_INIT" s).bind id fun s1 =>
    match request.construct with
    | some err => .throw err { s1 with trace := s1.trace ++ [.construct request.id] }
    | none =>
      emitReq obs "FoliaServerEvent_AFTER_CONTROLLER_INIT"
        { s1 with
          data := { s1.data with controllerInstance := some request.id },
          trace := s1.trace ++ [.construct request.id] }

/-- The value of `reqData.response` once the action has run and `_response` was looked at
(lines 483-494), or the error thrown on the way. -/
def Request.resolved (request : Request) : Except String Response :=
  match request.action with
  | .error err => .error err
  | .ok r =>
    match request.early with
    | .unset => .ok r
    | .value v => if v.truthy then .ok v else .ok r
    | .promise outcome => outcome

/-- Triggering the action (lines 482-495). -/
def runAction {ω : Type} (obs : EventsObservers RouteData ω) (request : Request)
    (s : DispatchState ω) : Completion (DispatchState ω) :=
  (emitReq obs "FoliaServerEvent_BEFORE_ACTION" s).bind id fun s1 =>
    match request.action with
    | .error err =>
      .throw err { s1 with trace := s1.trace ++ [.action s1.data.action request.id] }
    | .ok r =>
      let s2 : DispatchState ω :=
        { s1 with
          data := { s1.data with response := some r },
          trace := s1.trace ++ [.action s1.data.action request.id] }
      match request.early with
      | .unset => emitReq obs "FoliaServerEvent_AFTER_ACTION" s2
      | .value v =>
        if v.truthy then
          emitReq obs "FoliaServerEvent_AFTER_ACTION"
            { s2 with data := { s2.data with response := some v } }
        else emitReq obs "FoliaServerEvent_AFTER_ACTION" s2
      | .promise (.error err) => .throw err s2
      | .promise (.ok v) =>
        emitReq obs "FoliaServerEvent_AFTER_ACTION"
          { s2 with data := { s2.data with response := some v } }

/-- A call through the transport response, which may throw. -/
def transportSend {ω : Type} (request : Request) (effect : Effect) (s : DispatchState ω) :
    Completion (DispatchState ω) :=
  match request.transport with
  | some err => .throw err { s with trace := s.trace ++ [effect] }
  | none => .normal { s with trace := s.trace ++ [effect] }

/-- The inner `try` (lines 501-508): `prepare` when it is a function, then `send`; an error
of either is logged and replaced. -/
def sendProtocol {ω : Type} (request : Request) (sendThrows : Option String)
    (prepare : Member) (s : DispatchState ω) : Completion (DispatchState ω) :=
  let wrapped := "Error while sending response ! At route " ++ s.data.path
  match prepare with
  | .method (some err) =>
    .throw wrapped { s with trace := s.trace ++ [.prepare request.id, .consoleError err] }
  | other =>
    let prepared := match other with
      | .method _ => s.trace ++ [.prepare request.id]
      | _ => s.trace
    match sendThrows with
    | some err =>
      .throw wrapped { s with trace := prepared ++ [.send request.id, .consoleError err] }
    | none => .normal { s with trace := prepared ++ [.send request.id] }

/-- Handling the response (lines 497-512). -/
def handleResponse {ω : Type} (obs : EventsObservers RouteData ω) (request : Request)
    (s : DispatchState ω) : Completion (DispatchState ω) :=
  match s.data.response with
  | none => transportSend request (.status204 request.id) s
  | some r =>
    if !r.truthy then transportSend request (.status204 request.id) s
    else
      match r with
      | .protocol (.method sendThrows) prepare =>
        (emitReq obs "FoliaServerEvent_BEFORE_RESPONSE_SENT" s).bind id fun s1 =>
          (sendProtocol request sendThrows prepare s1).bind id fun s2 =>
            emitReq obs "FoliaServerEvent_AFTER_RESPONSE_SENT" s2
      | other => transportSend request (.resSend request.id other) s

/-- The statements of the `try` block before the last emission (lines 473-512). -/
def tryBody {ω : Type} (obs : EventsObservers RouteData ω) (request : Request)
    (s : DispatchState ω) : Completion (DispatchState ω) :=
  (initController obs request s).bind id fun s1 =>
    (runAction obs request s1).bind id fun s2 => handleResponse obs request s2

/-- The `try` block (lines 468-515). -/
def tryBlock {ω : Type} (obs : EventsObservers RouteData ω) (request : Request)
    (s : DispatchState ω) : Completion (DispatchState ω) :=
  (tryBody obs request s).bind id fun s1 => emitReq obs "FoliaServerEvent_ON_REQUEST_END" s1

/-- The `catch` block (lines 516-520). -/
def catchBlock {ω : Type} (obs : EventsObservers RouteData ω) (request : Request)
    (err : String) (s : DispatchState ω) : Completion (DispatchState ω) :=
  (emitReq obs "FoliaServerEvent_ON_REQUEST_END"
      { s with trace := s.trace ++ [.consoleError err] }).bind id fun s1 =>
    .normal { s1 with trace := s1.trace ++ [.next request.id err] }

/-- The handler `async (req, res, next) => ...` of a controller route, on the object `data`
of the route as the previous requests left it. A throw is a rejection of the promise the
handler returns. -/
def dispatch {ω : Type} (obs : EventsObservers RouteData ω) (request : Request)
    (s : DispatchState ω) : Completion (DispatchState ω) :=
  (emitReq obs "FoliaServerEvent_ON_REQUEST_START"
      { s with data := { s.data with req := some request.id, res := some request.id,
                                     next := some request.id } }).bind id fun s1 =>
    match tryBlock obs request s1 with
    | .normal s2 => .normal s2
    | .throw err s2 => catchBlock obs request err s2

/-- The lifecycle events of a request, in their fixed order. -/
def requestEvents : List String :=
  ["FoliaServerEvent_ON_REQUEST_START", "FoliaServerEvent_BEFORE_CONTROLLER_INIT",
   "FoliaServerEvent_AFTER_CONTROLLER_INIT", "FoliaServerEvent_BEFORE_ACTION",
   "FoliaServerEvent_AFTER_ACTION", "FoliaServerEvent_BEFORE_RESPONSE_SENT",
   "FoliaServerEvent_AFTER_RESPONSE_SENT", "FoliaServerEvent_ON_REQUEST_END"]

/-- The events emitted, in order, according to a trace. -/
def emittedEvents : List Effect → List String
  | [] => []
  | .emitted event :: rest => event :: emittedEvents rest
  | _ :: rest => emittedEvents rest

/-! ## Auxiliary definitions for the architecture proofs -/

/-- Run `step` on each element in turn, stopping at the first throw. -/
def seqAll {α σ : Type} (step : α → σ → Completion σ) : List α → σ → Completion σ
  | [], s => .normal s
  | x :: rest, s =>
    match step x s with
    | .normal s1 => seqAll step rest s1
    | .throw err s1 => .throw err s1

/-- One step of the scan: the path whose existence guards the entry (if any), and the
entry handed to `verifyArchitecture`. -/
structure ScanItem where
  guard : Option String
  path : Templated
  content : Option Templated

/-- The guard lets the entry through: there is none, or its path does not exist. -/
def ScanItem.passes (fs : FileSystem) (item : ScanItem) : Bool :=
  match item.guard with
  | none => true
  | some g => !existsSync fs g

/-- Scan step for an item. -/
def scanStep (fs : FileSystem) (item : ScanItem) (data : ArchitectureData) :
    Completion ArchitectureData :=
  if item.passes fs then verifyArchitecture fs item.path item.content data else .normal data

/-- The scan step made for a base entry. -/
def baseItem (e : EntryToCreate) : ScanItem :=
  { guard :=
      match e.requirePath with
      | some (.str s) => if s != "" then some s else none
      | _ => none,
    path := e.path, content := e.content }

/-- The scan step made for a module entry and the module `module`. -/
def moduleItem (module : String) (e : EntryToCreate) : ScanItem :=
  { guard :=
      match e.requirePath with
      | some requirePath =>
        if Templated.truthy (some requirePath) then
          some ("module/" ++ module ++ "/" ++ requirePath.toString)
        else none
      | none => none,
    path := .str ("module/" ++ module ++ "/" ++ e.path.resolve module),
    content := e.content.map fun c => Templated.str (c.resolve module) }

/-- All scan steps, in order: the base entries, then the module entries module by module. -/
def architectureItems (base modules : List ArchitectureEntry) (discovered : List String) :
    List ScanItem :=
  (getEntriesToCreate base none).map baseItem
    ++ discovered.flatMap fun module => (getEntriesToCreate modules none).map (moduleItem module)

/-- The paths tested by the loop of `verifyArchitecture`, starting from `path`. -/
def dirPaths : List String → String → List String
  | [], _ => []
  | directoryName :: rest, path =>
    (path ++ "/" ++ directoryName) :: dirPaths rest (path ++ "/" ++ directoryName)

/-- The value of `path` after the loop of `verifyArchitecture`. -/
def joinPath : List String → String → String
  | [], path => path
  | directoryName :: rest, path => joinPath rest (path ++ "/" ++ directoryName)

/-- Record the paths that neither exist nor are recorded yet. -/
def recordAll (fs : FileSystem) : List String → List String → List String
  | [], recorded => recorded
  | q :: rest, recorded =>
    recordAll fs rest
      (if !existsSync fs q && !recorded.contains q then recorded ++ [q] else recorded)

/-- The directory paths `verifyArchitecture` tests for the entry `(p, content)`. -/
def dirTargets (p : String) (content : Option Templated) : List String :=
  dirPaths (if Templated.truthy content then (split p).dropLast else split p) "."

/-- The file path `verifyArchitecture` tests for the entry `(p, content)`, with the content
to write. -/
def fileTarget (p : String) (content : Option Templated) : Option (String × Templated) :=
  match (if Templated.truthy content then (split p).getLast? else none), content with
  | some file, some text =>
    if file != "" then
      some (joinPath (if Templated.truthy content then (split p).dropLast else split p) "."
        ++ "/" ++ file, text)
    else none
  | _, _ => none

/-- The keys of `filesToCreate`. -/
def fileKeys (data : ArchitectureData) : List String := data.filesToCreate.map (fun e => e.1)

/-- The object `data` only grew from `d` to `d1`. -/
def ArchitectureData.le (d d1 : ArchitectureData) : Prop :=
  d.directoriesToCreate ⊆ d1.directoriesToCreate ∧ fileKeys d ⊆ fileKeys d1
    ∧ d1.modules = d.modules

/-- Every path the scan tested for `item` on `fs` exists there or is recorded in `d`. -/
def Recorded (fs : FileSystem) (d : ArchitectureData) (item : ScanItem) : Prop :=
  item.passes fs = true → ∃ p, item.path = .str p
    ∧ (∀ q ∈ dirTargets p item.content, existsSync fs q = true ∨ q ∈ d.directoriesToCreate)
    ∧ (∀ k text, fileTarget p item.content = some (k, text) →
        existsSync fs k = true ∨ k ∈ fileKeys d)

/-- Every path the scan tests for `item` exists on `fs`. -/
def Covered (fs : FileSystem) (item : ScanItem) : Prop :=
  ∃ p, item.path = .str p
    ∧ (∀ q ∈ dirTargets p item.content, existsSync fs q = true)
    ∧ (∀ k text, fileTarget p item.content = some (k, text) → existsSync fs k = true)

/-- The file system `fs1` has what `fs0` had and what `d` records. -/
def Supports (fs1 fs0 : FileSystem) (d : ArchitectureData) : Prop :=
  (∀ q, existsSync fs0 q = true → existsSync fs1 q = true)
    ∧ (∀ q ∈ d.directoriesToCreate, existsSync fs1 q = true)
    ∧ (∀ k ∈ fileKeys d, existsSync fs1 k = true)

/-- Nothing recorded in `d` exists on `fs`, and no directory is recorded twice. -/
def Fresh (fs : FileSystem) (d : ArchitectureData) : Prop :=
  (∀ q ∈ d.directoriesToCreate, existsSync fs q = false) ∧ d.directoriesToCreate.Nodup
    ∧ (∀ k ∈ fileKeys d, existsSync fs k = false)

/-- The extension events. -/
def extensionEvents : List String :=
  ["FoliaServerEvent_BEFORE_EXTENSIONS_LOADED", "FoliaServerEvent_BEFORE_EXTENSION_LOADED",
   "FoliaServerEvent_AFTER_EXTENSION_LOADED", "FoliaServerEvent_AFTER_EXTENSIONS_LOADED"]

/-- Iteration over a list with a running index: what the `while` loop of
`ConsoleProgressBar.forEach` does on the items that are left. -/
def eachFrom {α σ : Type} (callback : α → Nat → σ → Completion σ) :
    List α → Nat → σ → Completion σ
  | [], _, s => .normal s
  | item :: rest, current, s =>
    match callback item current s with
    | .normal s1 => eachFrom callback rest (current + 1) s1
    | .throw err s1 => .throw err s1

/-- The callbacks that a sequence of `on` calls registers for `event`, in call order. -/
def registered {δ ω : Type} (calls : List (String × Callback δ ω)) (event : String) :
    List (Callback δ ω) :=
  (calls.filter (fun call => call.1 = event)).map (fun call => call.2)

/-- The dependencies an extension declares (none when the field is absent). -/
def Extension.deps (e : Extension) : List String := e.dependencies.getD []

/-- Every dependency of every extension of the list is the name of an extension that stands
strictly earlier in the list (or is in `registry`, the extensions loaded beforehand). -/
def DependenciesEarlier (registry exts : List Extension) : Prop :=
  ∀ pre e post, exts = pre ++ e :: post →
    ∀ d ∈ e.deps, ∃ x ∈ registry ++ pre, x.name = some d

/-- Example descriptor: extension `A` without dependencies. -/
def Example.extA : Extension := { name := some "A", init := .returns, dependencies := none }

/-- Example descriptor: extension `B` that depends on `A`. -/
def Example.extB : Extension := { name := some "B", init := .returns, dependencies := some ["A"] }

/-- Example descriptor: a second extension named `A` that lists `A` as a dependency. -/
def Example.extA2 : Extension := { name := some "A", init := .returns, dependencies := some ["A"] }

/-- Example descriptor: extension `B` that depends on `C`, which nothing provides. -/
def Example.extBC : Extension := { name := some "B", init := .returns, dependencies := some ["C"] }

/-- Example observer: throws on every call. -/
def Example.failing {δ ω : Type} : Callback δ ω := fun _ w => .throw "observer failed" w

/-- Example file system: an empty directory `module` in the working directory. -/
def Example.emptyProject : FileSystem := [(["module"], .directory)]

/-- Example tree: the file `cfg/x.txt` with content `hi`. -/
def Example.cfgTree : List ArchitectureEntry :=
  [.mk (.str "cfg/x.txt") (some (.str "hi")) [] none]

/-- Example base tree: the directory of the Application module. -/
def Example.applicationTree : List ArchitectureEntry :=
  [.mk (.str "module/Application") none [] none]

/-- Example module tree: a `plugins` directory in every module. -/
def Example.pluginsTree : List ArchitectureEntry :=
  [.mk (.str "plugins") none [] none]

/-- Example file system: a project whose `module/Application` directory exists and is
empty. -/
def Example.bareApplication : FileSystem :=
  [(["module"], .directory), (["module", "Application"], .directory)]

/-- Example base tree: `module/Application` with the child file `config/local.js`. -/
def Example.localTree : List ArchitectureEntry :=
  [.mk (.str "module/Application") none
    [.mk (.str "config/local.js") (some (.str "export default 0")) [] none] none]

/-- Example router: every member is a function, and every call returns. -/
def Example.app : Router :=
  { name := "app", callable := fun _ => true, invoke := fun _ _ => none }

/-- Example route: a `use` route with a handler and nothing else. -/
def Example.useRoute : Route :=
  { router := none, method := .string "use", path := .undefined,
    handler := .function "handler", middlewares := .falsy,
    controller := .value .undefined, action := .undefined }

/-- Example route: `GET /items` bound to the action `list` of a controller `C` whose
instances have no member at all. -/
def Example.itemsRoute : Route :=
  { router := none, method := .string "get", path := .string "/items",
    handler := .undefined, middlewares := .falsy,
    controller := .klass "C" (.ok fun _ => .undefined), action := .string "list" }

/-- Example request: the controller is built, the action returns `value`, `_response` is
unset and the transport response does not throw. -/
def Example.returning (value : Response) : Request :=
  { id := 1, construct := none, action := .ok value, early := .unset, transport := none }

/-- Example handler state: the data of the route `/items`, with `value` stored as the
response. -/
def Example.responding (value : Option Response) : DispatchState Unit :=
  { data := { path := "/items", controller := "C", action := "list", req := some 1,
              res := some 1, next := some 1, controllerInstance := some 1, response := value },
    trace := [], world := () }

/-- The events emitted by a completion, beyond those of the state `s` it started from, form
a sublist of `within`. -/
def EmitsWithin {ω : Type} (c : Completion (DispatchState ω)) (s : DispatchState ω)
    (within : List String) : Prop :=
  ∃ events, emittedEvents c.state.trace = emittedEvents s.trace ++ events
    ∧ events.Sublist within

/-- The calls to `prepare` the handler makes for a response whose `prepare` member is
`prepare`. -/
def prepareCalls (request : Request) : Member → List Effect
  | .method _ => [.prepare request.id]
  | _ => []

/-- Example handler state: the data of the route `/items` before its first request. -/
def Example.idle : DispatchState Unit :=
  { data := { path := "/items", controller := "C", action := "list", req := none,
              res := none, next := none, controllerInstance := none, response := none },
    trace := [], world := () }

/-- Example request: the constructor of the controller throws. -/
def Example.failingConstructor : Request :=
  { id := 1, construct := some "constructor failed", action := .ok (.value .undefined),
    early := .unset, transport := none }

/-- What the handler does with the resolved response `r` when no observer throws: its
effects, and the error the response step throws, if it does. -/
def responseScript (request : Request) (path : String) (r : Response) :
    List Effect × Option String :=
  if !r.truthy then ([.status204 request.id], request.transport)
  else
    match r with
    | .protocol (.method sendThrows) prepare =>
      match prepare, sendThrows with
      | .method (some err), _ =>
        ([.emitted "FoliaServerEvent_BEFORE_RESPONSE_SENT", .prepare request.id,
          .consoleError err],
         some ("Error while sending response ! At route " ++ path))
      | other, some err =>
        ([.emitted "FoliaServerEvent_BEFORE_RESPONSE_SENT"] ++ prepareCalls request other
          ++ [.send request.id, .consoleError err],
         some ("Error while sending response ! At route " ++ path))
      | other, none =>
        ([.emitted "FoliaServerEvent_BEFORE_RESPONSE_SENT"] ++ prepareCalls request other
          ++ [.send request.id, .emitted "FoliaServerEvent_AFTER_RESPONSE_SENT"],
         none)
    | other => ([.resSend request.id other], request.transport)

/-- What the `catch` block does with the error `err` when no observer throws. -/
def failureScript (request : Request) (err : String) : List Effect :=
  [.consoleError err, .emitted "FoliaServerEvent_ON_REQUEST_END", .next request.id err]

/-- What the handler does on a request when no observer throws. -/
def dispatchScript (request : Request) (data : RouteData) : List Effect :=
  [.emitted "FoliaServerEvent_ON_REQUEST_START",
   .emitted "FoliaServerEvent_BEFORE_CONTROLLER_INIT", .construct request.id]
  ++ match request.construct with
    | some err => failureScript request err
    | none =>
      [.emitted "FoliaServerEvent_AFTER_CONTROLLER_INIT",
       .emitted "FoliaServerEvent_BEFORE_ACTION", .action data.action request.id]
      ++ match request.resolved with
        | .error err => failureScript request err
        | .ok r =>
          [.emitted "FoliaServerEvent_AFTER_ACTION"] ++ (responseScript request data.path r).1
          ++ match (responseScript request data.path r).2 with
            | some err => failureScript request err
            | none => [.emitted "FoliaServerEvent_ON_REQUEST_END"]

/-- The object `data` at the start of the scan. -/
def ArchitectureData.initial (discovered : List String) : ArchitectureData :=
  { modules := discovered, directoriesToCreate := [], filesToCreate := [] }

/-- The text `needle` occurs in `text`. -/
def Occurs (needle text : String) : Prop := needle.data <:+: text.data

/-! ## Modules: `FoliaServer.#loadModules`, `FoliaServer.#loadPlugins`
(FoliaServer.js 286-361) and the frame of `FoliaServer.#loadRoutes` (376-381, 525-530) -/

/-- An object with string keys, written as an object literal lists its properties: a later
entry for a key overrides an earlier one for the same key. -/
abbrev JsObject := List (String × JsValue)

/-- The value `obj[key]` of an own property (`none` when the key is absent). -/
def JsObject.get : JsObject → String → Option JsValue
  | [], _ => none
  | (k, v) :: rest, key =>
    match JsObject.get rest key with
    | some later => some later
    | none => if k = key then some v else none

/-- The object has `key` as an own property. -/
def JsObject.has (obj : JsObject) (key : String) : Bool := obj.any fun entry => entry.1 == key

/-- The assignment `obj[key] = value`. -/
def JsObject.set (obj : JsObject) (key : String) (value : JsValue) : JsObject :=
  if obj.any (fun entry => entry.1 == key) then
    obj.map fun entry => if entry.1 == key then (key, value) else entry
  else obj ++ [(key, value)]

/-- One spread element of an object literal, `\x7b ...target, ...source \x7d` once the
properties of `target` are in place: the own properties of `source` are assigned in order. -/
def JsObject.spread (target source : JsObject) : JsObject :=
  source.foldl (fun acc entry => acc.set entry.1 entry.2) target

/-- The literal `\x7b ...first, ...second \x7d`: a new object. -/
def JsObject.merge (first second : JsObject) : JsObject :=
  (JsObject.spread [] first).spread second

/-- The default export of a plugin file: the name of the class and what its static
`init(server)` does (return an instance, or throw; a missing `init` throws a `TypeError`). -/
structure PluginClass where
  name : String
  init : Except String JsValue

/-- An entry of a plugins directory, as `readdirSync(path, \x7b withFileTypes: true \x7d)` lists
it: a file with what importing it gives, or a directory with its entries. -/
inductive PluginEntry where
  | file (imported : Except String PluginClass)
  | directory (entries : List PluginEntry)

mutual
/-- The loop of `#loadPlugins` over the entries of a directory (lines 349-358). -/
def loadPluginEntries : List PluginEntry → JsObject → Except String JsObject
  | [], plugins => .ok plugins
  | entry :: rest, plugins =>
    match loadPluginEntry entry plugins with
    | .error err => .error err
    | .ok plugins1 => loadPluginEntries rest plugins1
/-- The body of the loop of `#loadPlugins` (lines 350-357). -/
def loadPluginEntry : PluginEntry → JsObject → Except String JsObject
  | .directory entries, plugins =>
    match loadPluginEntries entries [] with
    | .error err => .error err
    | .ok sub => .ok (JsObject.merge plugins sub)
  | .file (.error err), _ => .error err
  | .file (.ok pluginClass), plugins =>
    match pluginClass.init with
    | .error err => .error err
    | .ok plugin => .ok (plugins.set pluginClass.name plugin)
end

/-- The method `#loadPlugins(path)`, given what `readdirSync` finds at `path` (`none`: the
directory is missing and `readdirSync` throws). -/
def loadPlugins (directory : Option (List PluginEntry)) : Except String JsObject :=
  match directory with
  | none => .error "ENOENT: no such file or directory, scandir"
  | some entries => loadPluginEntries entries []

/-- What a module directory holds for `#loadModules`: the default export of its
`config/config.js` and of its `routes/routes.js` (or the error importing them throws) and
its `plugins` directory. -/
structure ModuleFiles where
  config : Except String JsObject
  routes : Except String (List Route)
  plugins : Option (List PluginEntry)

/-- The object `moduleData` handed to `#loadRoutes`. -/
structure ModuleBundle where
  module : String
  config : JsObject
  routes : List Route
  plugins : JsObject

/-- Data passed with the events of `#loadModules` and `#loadRoutes`. -/
inductive ModulesEvent where
  | modules (names : List String)
  | bundle (data : ModuleBundle)
  | route (data : RouteEvent)

/-- The part of the server `#loadModules` acts on: the `moduleData` of every call of
`#loadRoutes` so far, the calls made to the transport layer for routes (each with the
module it was made for), whether the default error handler was added, and the observers'
world. -/
structure ModulesState (ω : Type) where
  bundles : List ModuleBundle
  calls : List (String × TransportCall)
  errorHandler : Bool
  world : ω

/-- State before `#loadModules` ran. -/
def ModulesState.fresh {ω : Type} (w : ω) : ModulesState ω :=
  { bundles := [], calls := [], errorHandler := false, world := w }

/-- Run `emit` on the observers' world of a modules state. -/
def emitMod {ω : Type} (obs : EventsObservers ModulesEvent ω) (event : String)
    (data : ModulesEvent) (s : ModulesState ω) : Completion (ModulesState ω) :=
  (emit obs event data s.world).bind (fun w => { s with world := w })
    (fun w => .normal { s with world := w })

/-- The observers, as the route events reach them. -/
def routeObservers {ω : Type} (obs : EventsObservers ModulesEvent ω) :
    EventsObservers RouteEvent ω :=
  fun event => (obs event).map fun callbacks =>
    callbacks.map fun callback data w => callback (.route data) w

/-- Take over what the loop over the routes of `module` did. -/
def recordRoutes {ω : Type} (module : String) (s : ModulesState ω)
    (c : Completion (RoutesState ω)) : Completion (ModulesState ω) :=
  c.bind
    (fun r => { s with calls := s.calls ++ r.calls.map (fun call => (module, call)),
                       world := r.world })
    (fun r => .normal { s with calls := s.calls ++ r.calls.map (fun call => (module, call)),
                               world := r.world })

/-- The method `#loadRoutes(moduleData, modulesProgressBar)` (lines 376-530). -/
def loadRoutes {ω : Type} (obs : EventsObservers ModulesEvent ω) (app : Router)
    (moduleData : ModuleBundle) (s : ModulesState ω) : Completion (ModulesState ω) :=
  (emitMod obs "FoliaServerEvent_BEFORE_MODULE_ROUTES_LOADED" (.bundle moduleData)
      { s with bundles := s.bundles ++ [moduleData] }).bind id fun s1 =>
    (recordRoutes moduleData.module s1
      (ConsoleProgressBar.forEach moduleData.routes
        (fun route _ => loadRoute (routeObservers obs) app route) 0
        { calls := [], world := s1.world })).bind id fun s2 =>
      emitMod obs "FoliaServerEvent_AFTER_MODULE_ROUTES_LOADED" (.bundle moduleData) s2

/-- Body of the callback given to `modulesProgressBar.forEach` (lines 310-322);
`project` gives what each module directory holds. -/
def loadModule {ω : Type} (obs : EventsObservers ModulesEvent ω) (app : Router)
    (project : String → ModuleFiles) (globalConfig globalPlugins : JsObject)
    (module : String) (s : ModulesState ω) : Completion (ModulesState ω) :=
  if module != "Application" then
    match (project module).config with
    | .error err => .throw err s
    | .ok moduleConfig =>
      match (project module).routes with
      | .error err => .throw err s
      | .ok routes =>
        match loadPlugins (project module).plugins with
        | .error err => .throw err s
        | .ok modulePlugins =>
          let data : ModuleBundle :=
            { module := module, config := JsObject.merge globalConfig moduleConfig,
              routes := routes, plugins := JsObject.merge globalPlugins modulePlugins }
          (emitMod obs "FoliaServerEvent_BEFORE_MODULE_LOADED" (.bundle data) s).bind id
            fun s1 =>
              (loadRoutes obs app data s1).bind id fun s2 =>
                emitMod obs "FoliaServerEvent_AFTER_MODULE_LOADED" (.bundle data) s2
  else .normal s

/-- The method `#loadModules` once `this.modules` is read (lines 288-337). -/
def loadModulesFrom {ω : Type} (obs : EventsObservers ModulesEvent ω) (app : Router)
    (project : String → ModuleFiles) (modules : List String) (s : ModulesState ω) :
    Completion (ModulesState ω) :=
  (emitMod obs "FoliaServerEvent_BEFORE_MODULES_LOADED" (.modules modules) s).bind id fun s1 =>
    match (project "Application").config with
    | .error err => .throw err s1
    | .ok globalConfig =>
      match (project "Application").routes with
      | .error err => .throw err s1
      | .ok globalRoutes =>
        match loadPlugins (project "Application").plugins with
        | .error err => .throw err s1
        | .ok globalPlugins =>
          (loadRoutes obs app
              { module := "Application", routes := globalRoutes, config := globalConfig,
                plugins := globalPlugins } s1).bind id fun s2 =>
            (ConsoleProgressBar.forEach modules
              (fun module _ => loadModule obs app project globalConfig globalPlugins module)
              0 s2).bind id fun s3 =>
              emitMod obs "FoliaServerEvent_AFTER_MODULES_LOADED" (.modules modules)
                { s3 with errorHandler := true }

/-- The method `#loadModules` (lines 286-337). -/
def loadModules {ω : Type} (obs : EventsObservers ModulesEvent ω) (app : Router)
    (project : String → ModuleFiles) (fs : FileSystem) (s : ModulesState ω) :
    Completion (ModulesState ω) :=
  match readdirSync fs "./module" with
  | none => .throw "ENOENT: no such file or directory, scandir './module'" s
  | some modules => loadModulesFrom obs app project modules s

/-- The module names in the order `#loadModules` hands them to `#loadRoutes`. -/
def registrationOrder (modules : List String) : List String :=
  "Application" :: modules.filter fun module => module != "Application"

/-- Example route: `GET /posts` bound to the action `list` of a controller `Posts` whose
instances have the method `list`. -/
def Example.postsRoute : Route :=
  { router := none, method := .string "get", path := .string "/posts",
    handler := .undefined, middlewares := .falsy,
    controller := .klass "Posts"
      (.ok fun member => if member = "list" then .function "list" else .undefined),
    action := .string "list" }

/-- Example project: the global module with two plugins, a title and one `use` route; the
module `Blog` with a title of its own, a `Mailer` plugin of its own in a subdirectory and
one controller route; no other module directory can be imported. -/
def Example.project : String → ModuleFiles := fun module =>
  if module = "Application" then
    { config := .ok [("title", .string "Folia"), ("debug", .bool false)],
      routes := .ok [Example.useRoute],
      plugins := some [.file (.ok { name := "Mailer", init := .ok (.object "globalMailer") }),
                       .file (.ok { name := "Logger", init := .ok (.object "logger") })] }
  else if module = "Blog" then
    { config := .ok [("title", .string "Blog")],
      routes := .ok [Example.postsRoute],
      plugins := some
        [.directory [.file (.ok { name := "Mailer", init := .ok (.object "blogMailer") })]] }
  else
    { config := .error "Cannot find module", routes := .error "Cannot find module",
      plugins := none }

/-! ## Boot: `FoliaServer.init` (FoliaServer.js 79-83) -/

/-- The stages of the boot sequence: the three private methods `init` calls. -/
inductive Stage where
  | extensions
  | architecture
  | modules
  deriving Repr, DecidableEq

/-- The server while it boots: the stages entered so far (in order), the registry
`this.extensions` and the extensions whose `init` was invoked, the file system with the
calls made to `mkdirSync` and `writeFileSync`, what `#loadModules` recorded, and the
observers' world. -/
structure BootState (ω : Type) where
  stages : List Stage
  extensions : List Extension
  initialised : List Extension
  fs : FileSystem
  fsCalls : List FsCall
  bundles : List ModuleBundle
  calls : List (String × TransportCall)
  errorHandler : Bool
  world : ω

/-- A server that has not booted yet, in a project with the file system `fs`. -/
def BootState.fresh {ω : Type} (fs : FileSystem) (w : ω) : BootState ω :=
  { stages := [], extensions := [], initialised := [], fs := fs, fsCalls := [], bundles := [],
    calls := [], errorHandler := false, world := w }

/-- The call `await this.#loadExtensions()`; `extensionsFile` is what importing the
extensions file gives (its default export, or the error the import throws). -/
def bootExtensions {ω : Type} (obs : EventsObservers ExtensionsData ω)
    (extensionsFile : Except String (List Extension)) (s : BootState ω) :
    Completion (BootState ω) :=
  match extensionsFile with
  | .error err => .throw err { s with stages := s.stages ++ [.extensions] }
  | .ok extensions =>
    (loadExtensions obs extensions
        { extensions := s.extensions, initialised := s.initialised, world := s.world }).bind
      (fun e => { s with stages := s.stages ++ [.extensions], extensions := e.extensions,
                         initialised := e.initialised, world := e.world })
      (fun e => .normal { s with stages := s.stages ++ [.extensions],
                                 extensions := e.extensions, initialised := e.initialised,
                                 world := e.world })

/-- The call `await this.#loadArchitecture()`; `localFiles` is the error thrown by the part
of the method that follows the update (the check of the local configuration files, lines
215-243), if it throws. -/
def bootArchitecture {ω : Type} (base modulesTree : List ArchitectureEntry)
    (localFiles : Option String) (s : BootState ω) : Completion (BootState ω) :=
  (loadArchitecture s.fs base modulesTree).bind
    (fun a => { s with stages := s.stages ++ [.architecture], fs := a.fs,
                       fsCalls := s.fsCalls ++ a.calls })
    (fun a =>
      match localFiles with
      | some err =>
        .throw err { s with stages := s.stages ++ [.architecture], fs := a.fs,
                            fsCalls := s.fsCalls ++ a.calls }
      | none =>
        .normal { s with stages := s.stages ++ [.architecture], fs := a.fs,
                         fsCalls := s.fsCalls ++ a.calls })

/-- The call `await this.#loadModules()`. -/
def bootModules {ω : Type} (obs : EventsObservers ModulesEvent ω) (app : Router)
    (project : String → ModuleFiles) (s : BootState ω) : Completion (BootState ω) :=
  (loadModules obs app project s.fs
      { bundles := s.bundles, calls := s.calls, errorHandler := s.errorHandler,
        world := s.world }).bind
    (fun m => { s with stages := s.stages ++ [.modules], bundles := m.bundles,
                       calls := m.calls, errorHandler := m.errorHandler, world := m.world })
    (fun m => .normal { s with stages := s.stages ++ [.modules], bundles := m.bundles,
                               calls := m.calls, errorHandler := m.errorHandler,
                               world := m.world })

/-- The method `init()` (lines 79-83). -/
def init {ω : Type} (obsExtensions : EventsObservers ExtensionsData ω)
    (obsModules : EventsObservers ModulesEvent ω) (app : Router)
    (extensionsFile : Except String (List Extension))
    (base modulesTree : List ArchitectureEntry) (localFiles : Option String)
    (project : String → ModuleFiles) (s : BootState ω) : Completion (BootState ω) :=
  (bootExtensions obsExtensions extensionsFile s).bind id fun s1 =>
    (bootArchitecture base modulesTree localFiles s1).bind id fun s2 =>
      bootModules obsModules app project s2

/-- Example descriptor: an extension whose `init` throws. -/
def Example.extFailing : Extension :=
  { name := some "Failing", init := .throws "init failed", dependencies := none }

/-- What normalisation makes of an entry of `middlewares` that passes: a function without
`invoke` member is kept, an entry with an `invoke` member is replaced by what `invoke()`
returns; `none` for the entries that make normalisation throw. -/
def Hook.normalised : Hook → Option JsValue
  | .function name => some (.function name)
  | .invokable (.ok v) => some v
  | _ => none

/-- Example route: `GET /posts` with two middlewares, a function and an object whose
`invoke()` returns a function. -/
def Example.guardedRoute : Route :=
  { Example.postsRoute with
    middlewares := .array [.function "auth", .invokable (.ok (.function "cors"))] }

/-- Example route: `GET /posts` with a middleware whose `invoke()` returns the number 5. -/
def Example.numberHookRoute : Route :=
  { Example.postsRoute with middlewares := .array [.invokable (.ok (.number 5))] }

/-- Example route: `GET /posts` with the middleware `null`. -/
def Example.nullHookRoute : Route :=
  { Example.postsRoute with middlewares := .array [.other .null] }

/-- Example route: a `use` route without path, with a handler and the middleware `auth`. -/
def Example.guardedUseRoute : Route :=
  { Example.useRoute with middlewares := .array [.function "auth"] }

/-- Example route: a `use` route with the path `/admin`, a handler and the middleware
`auth`. -/
def Example.adminUseRoute : Route :=
  { Example.useRoute with path := .string "/admin", middlewares := .array [.function "auth"] }

/-- Example routes state: nothing registered yet. -/
def Example.noRoutes : RoutesState Unit := { calls := [], world := () }

/-- A middleware list handed to the transport layer holds a value that is not a function. -/
def TransportArg.hasNonFunction : TransportArg → Bool
  | .middlewares ms => ms.any fun m => m.typeof != "function"
  | _ => false

/-- Example router: every member is a function, and a call throws when one of the
middlewares it is given is not a function, as the routers of Express do. -/
def Example.strictApp : Router :=
  { name := "app", callable := fun _ => true,
    invoke := fun method args =>
      if args.any TransportArg.hasNonFunction then
        some ("Error: Route." ++ method ++ "() requires a callback function")
      else none }

/-- The object `reqData` once the handler has stored the handles of the request in it
(lines 462-465): the object handed to the observers of `ON_REQUEST_START`. -/
def requestContext (request : Request) (data : RouteData) : RouteData :=
  { data with req := some request.id, res := some request.id, next := some request.id }

/-- An observer of `ON_REQUEST_START` that writes down the context it is called with, on a
bus without any other observer. -/
def contextRecorder : EventsObservers RouteData (List RouteData) :=
  (FoliaServer.on EventsObservers.empty "FoliaServerEvent_ON_REQUEST_START"
    fun data seen => .normal (seen ++ [data])).state

/-- Requests dispatched one after the other on the same route; a handler that rejects does
not keep the later requests from being dispatched. -/
def serve {ω : Type} (obs : EventsObservers RouteData ω) :
    List Request → DispatchState ω → DispatchState ω
  | [], s => s
  | request :: rest, s => serve obs rest (dispatch obs request s).state

/-- What a request leaves in the object `data` of its route when no observer throws: its
handles, the controller instance when the constructor returned, and the response as far as
the action step got. -/
def Request.leaves (request : Request) (data : RouteData) : RouteData :=
  match request.construct with
  | some _ => requestContext request data
  | none =>
    match request.action with
    | .error _ => { requestContext request data with controllerInstance := some request.id }
    | .ok r =>
      { requestContext request data with
        controllerInstance := some request.id,
        response :=
          match request.early with
          | .unset => some r
          | .value v => if v.truthy then some v else some r
          | .promise (.ok v) => some v
          | .promise (.error _) => some r }

/-- The contexts handed to the observers of `ON_REQUEST_START` by requests dispatched one
after the other on a route whose object `data` is `data`, when no observer throws. -/
def contextsSeen : List Request → RouteData → List RouteData
  | [], _ => []
  | request :: rest, data =>
    requestContext request data :: contextsSeen rest (request.leaves data)

/-- Example request: a second request, whose action returns nothing. -/
def Example.second : Request :=
  { id := 2, construct := none, action := .ok (.value .undefined), early := .unset,
    transport := none }

/-- Example handler state: the data of the route `/items` before its first request, with
nothing written down by the recorder. -/
def Example.idleRecorded : DispatchState (List RouteData) :=
  { data := Example.idle.data, trace := [], world := [] }

/-- Example base tree: the file `cfg/empty.txt`, declared with the empty string as its
content. -/
def Example.emptyFileTree : List ArchitectureEntry :=
  [.mk (.str "cfg/empty.txt") (some (.str "")) [] none]

/-- Example base tree: the directory `app` with the child file `x.txt`, guarded by the
`requirePath` `module`. -/
def Example.guardedTree : List ArchitectureEntry :=
  [.mk (.str "app") none [.mk (.str "x.txt") (some (.str "hi")) [] none]
    (some (.str "module"))]

/-- The parent directory of `path` exists: the condition under which `mkdirSync` and
`writeFileSync`, called on a path that does not exist, do not fail for a missing parent. -/
def parentExists (fs : FileSystem) (path : String) : Bool :=
  fs.nodeAt (components path).dropLast == some FsNode.directory

/-- The directory paths the scan tests for an item on `fs`: the paths on the way to the
entry. -/
def pathsOnTheWay (fs : FileSystem) (item : ScanItem) : List String :=
  if item.passes fs then
    match item.path with
    | .str p => dirTargets p item.content
    | .fn _ _ => []
  else []

/-- The parent of `path` is a directory of `fs` or the location of one of the paths
`earlier`. -/
def ParentReady (fs : FileSystem) (earlier : List String) (path : String) : Prop :=
  fs.nodeAt (components path).dropLast = some .directory
    ∨ ∃ q ∈ earlier, components q = (components path).dropLast

/-- Every path of the list comes after its parent, unless the parent is a directory of
`fs`. -/
def ParentsFirst (fs : FileSystem) (paths : List String) : Prop :=
  ∀ pre q post, paths = pre ++ q :: post → ParentReady fs pre q

/-- The location of `path` is a directory of `fs` or the location of one of the paths
`recorded`. -/
def Settled (fs : FileSystem) (recorded : List String) (path : String) : Prop :=
  fs.nodeAt (components path) = some .directory
    ∨ ∃ q ∈ recorded, components q = components path

/-- Example module tree: a directory whose path is a function of the module name, with the
child file `a.js`. -/
def Example.templatedParentTree : List ArchitectureEntry :=
  [.mk (.fn "(module) => module + 'Dir'" (fun module => module ++ "Dir")) none
    [.mk (.str "a.js") (some (.str "x")) [] none] none]

/-- Example file system: a project with the single module `Blog`, whose directory is
empty. -/
def Example.blogProject : FileSystem :=
  [(["module"], .directory), (["module", "Blog"], .directory)]

/-! ## Auxiliary definitions for the calls of the update -/

/-- The path a call to the file system is made on. -/
def FsCall.path : FsCall → String
  | .mkdir path => path
  | .writeFile path _ => path

/-- The file system a call leaves, whether it returns or throws. -/
def FsCall.leaves (fs : FileSystem) : FsCall → FileSystem
  | .mkdir path => (mkdirSync fs path).state
  | .writeFile path (.str content) => (writeFileSync fs path content).state
  | .writeFile _ (.fn _ _) => fs

/-- The file system after the calls `calls` were made one after the other on `fs`. -/
def fsAfter (fs : FileSystem) (calls : List FsCall) : FileSystem :=
  calls.foldl FsCall.leaves fs

/-- The callback of the update that makes the call `call`. -/
def FsCall.perform (call : FsCall) (s : ArchitectureState) : Completion ArchitectureState :=
  match call with
  | .mkdir path => createDirectory path s
  | .writeFile path content => createFile (path, content) s

/-! # Theorems -/

/-! ## Loops -/

theorem forEach_eq_eachFrom {α σ : Type} (items : List α)
    (callback : α → Nat → σ → Completion σ) (current : Nat) (s : σ) :
    ConsoleProgressBar.forEach items callback current s
      = eachFrom callback (items.drop current) current s := by
  generalize hn : items.length - current = n
  induction n generalizing current s with
  | zero =>
    have hge : ¬ current < items.length := by omega
    rw [ConsoleProgressBar.forEach, dif_neg hge, List.drop_eq_nil_of_le (by omega)]
    rfl
  | succ n ih =>
    have hlt : current < items.length := by omega
    rw [ConsoleProgressBar.forEach, dif_pos hlt, List.drop_eq_getElem_cons hlt]
    simp only [eachFrom, List.get_eq_getElem]
    cases callback items[current] current s with
    | normal s1 => exact ih (current + 1) s1 (by omega)
    | throw err s1 => rfl

theorem forEach_zero {α σ : Type} (items : List α)
    (callback : α → Nat → σ → Completion σ) (s : σ) :
    ConsoleProgressBar.forEach items callback 0 s = eachFrom callback items 0 s := by
  rw [forEach_eq_eachFrom, List.drop_zero]

theorem eachFrom_append_normal {α σ : Type} (callback : α → Nat → σ → Completion σ)
    (pre post : List α) (current : Nat) (s s1 : σ)
    (h : eachFrom callback pre current s = .normal s1) :
    eachFrom callback (pre ++ post) current s
      = eachFrom callback post (current + pre.length) s1 := by
  induction pre generalizing current s with
  | nil => simp only [eachFrom, Completion.normal.injEq] at h; subst h; simp
  | cons x xs ih =>
    rw [List.cons_append]
    simp only [eachFrom] at h ⊢
    cases hx : callback x current s with
    | normal s2 =>
      rw [hx] at h
      simp only [] at h ⊢
      rw [ih (current + 1) s2 h]
      simp only [List.length_cons]
      congr 1; omega
    | throw err s2 => rw [hx] at h; simp at h

theorem runCallbacks_quiet {δ ω : Type} (callbacks : List (Callback δ ω))
    (h : ∀ callback ∈ callbacks, ∀ data w, (callback data w).isNormal = true) (data : δ) (w : ω) :
    ∃ w1, runCallbacks callbacks data w = .normal w1 := by
  induction callbacks generalizing w with
  | nil => exact ⟨w, rfl⟩
  | cons c cs ih =>
    have hc := h c (List.mem_cons_self _ _) data w
    simp only [runCallbacks]
    cases hcw : c data w with
    | normal w1 => exact ih (fun cb hcb => h cb (List.mem_cons_of_mem _ hcb)) w1
    | throw err w1 => rw [hcw] at hc; simp [Completion.isNormal] at hc

theorem emit_quiet {δ ω : Type} (obs : EventsObservers δ ω) (event : String)
    (hown : event ∉ objectPrototypeKeys)
    (h : QuietOn obs event) (data : δ) (w : ω) :
    ∃ w1, emit obs event data w = .normal w1 := by
  unfold emit
  cases hobs : obs event with
  | none => exact ⟨w, by simp only [if_neg hown]⟩
  | some callbacks => exact runCallbacks_quiet callbacks (h callbacks hobs) data w

/-! ## EventBus -/

/-- For a name that is not inherited, `on` returns and appends the callback. -/
theorem on_own_name {δ ω : Type} (obs : EventsObservers δ ω) (event : String)
    (callback : Callback δ ω) (hown : event ∉ objectPrototypeKeys) :
    FoliaServer.on obs event callback
      = .normal (obs.set event ((obs event).getD [] ++ [callback])) := by
  unfold FoliaServer.on
  cases hobs : obs event with
  | none => simp only [if_neg hown]; rfl
  | some callbacks => rfl

/-- For an inherited name, `on` throws and leaves the object as it was, unless the object
has an own property of that name. -/
theorem on_inherited_name {δ ω : Type} (obs : EventsObservers δ ω) (event : String)
    (callback : Callback δ ω) (hin : event ∈ objectPrototypeKeys) (hobs : obs event = none) :
    FoliaServer.on obs event callback
      = .throw "TypeError: this.#eventsObservers[event].push is not a function" obs := by
  unfold FoliaServer.on
  rw [hobs]
  simp only [if_pos hin]

/-- For an inherited name without own property, `emit` throws, whatever was registered. -/
theorem emit_inherited_name {δ ω : Type} (obs : EventsObservers δ ω) (event : String)
    (data : δ) (w : ω) (hin : event ∈ objectPrototypeKeys) (hobs : obs event = none) :
    emit obs event data w
      = .throw "TypeError: this.#eventsObservers[event] is not iterable" w := by
  unfold emit
  rw [hobs]
  simp only [if_pos hin]

theorem registerAll_apply {δ ω : Type} (calls : List (String × Callback δ ω))
    (obs : EventsObservers δ ω) (hcalls : ∀ call ∈ calls, call.1 ∉ objectPrototypeKeys) :
    ∃ obs1, registerAll obs calls = .normal obs1
      ∧ ∀ event, obs1 event
          = match registered calls event with
            | [] => obs event
            | c :: cs => some ((obs event).getD [] ++ c :: cs) := by
  induction calls generalizing obs with
  | nil => exact ⟨obs, rfl, fun event => by simp [registered]⟩
  | cons c cs ih =>
    obtain ⟨e, cb⟩ := c
    have hown : e ∉ objectPrototypeKeys := hcalls (e, cb) (List.mem_cons_self _ _)
    obtain ⟨obs1, hrun, hobs1⟩ := ih (obs.set e ((obs e).getD [] ++ [cb]))
      (fun call hcall => hcalls call (List.mem_cons_of_mem _ hcall))
    refine ⟨obs1, ?_, fun event => ?_⟩
    · simp only [registerAll]
      rw [on_own_name obs e cb hown]
      exact hrun
    · rw [hobs1 event]
      by_cases he : e = event
      · subst he
        have hreg : registered ((e, cb) :: cs) e = cb :: registered cs e := by
          simp [registered]
        rw [hreg]
        cases hcs : registered cs e <;> simp [EventsObservers.set]
      · have hreg : registered ((e, cb) :: cs) event = registered cs event := by
          simp [registered, he]
        have hset : (obs.set e ((obs e).getD [] ++ [cb])) event = obs event := by
          simp [EventsObservers.set, Ne.symm he]
        rw [hreg, hset]

theorem emit_registerAll {δ ω : Type} (calls : List (String × Callback δ ω))
    (hcalls : ∀ call ∈ calls, call.1 ∉ objectPrototypeKeys)
    (event : String) (hown : event ∉ objectPrototypeKeys) (data : δ) (w : ω) :
    ∃ obs, registerAll EventsObservers.empty calls = .normal obs
      ∧ emit obs event data w = runCallbacks (registered calls event) data w := by
  obtain ⟨obs, hrun, hobs⟩ := registerAll_apply calls EventsObservers.empty hcalls
  refine ⟨obs, hrun, ?_⟩
  unfold emit
  rw [hobs event]
  cases h : registered calls event with
  | nil => simp only [EventsObservers.empty, if_neg hown]; rfl
  | cons c cs => simp [EventsObservers.empty]

theorem on_state_other {δ ω : Type} (obs : EventsObservers δ ω) (e event : String)
    (callback : Callback δ ω) (hne : event ≠ e) :
    (FoliaServer.on obs e callback).state event = obs event := by
  unfold FoliaServer.on
  cases hoe : obs e with
  | none =>
    by_cases hin : e ∈ objectPrototypeKeys
    · simp only [if_pos hin]; rfl
    · simp only [if_neg hin]
      show (obs.set e [callback]) event = obs event
      simp [EventsObservers.set, hne]
  | some callbacks =>
    show (obs.set e (callbacks ++ [callback])) event = obs event
    simp [EventsObservers.set, hne]

/-- No sequence of `on` calls gives the object an own property with an inherited name. -/
theorem registerAll_inherited_name {δ ω : Type} (calls : List (String × Callback δ ω))
    (obs : EventsObservers δ ω) (event : String) (hin : event ∈ objectPrototypeKeys)
    (hobs : obs event = none) : (registerAll obs calls).state event = none := by
  induction calls generalizing obs with
  | nil => exact hobs
  | cons c cs ih =>
    obtain ⟨e, cb⟩ := c
    have hstep : (FoliaServer.on obs e cb).state event = none := by
      by_cases he : event = e
      · subst he
        rw [on_inherited_name obs event cb hin hobs]
        exact hobs
      · rw [on_state_other obs e event cb he]
        exact hobs
    simp only [registerAll]
    cases hon : FoliaServer.on obs e cb with
    | throw err obs1 => rw [hon] at hstep; exact hstep
    | normal obs1 => rw [hon] at hstep; exact ih obs1 hstep

theorem runCallbacks_append_normal {δ ω : Type} (pre post : List (Callback δ ω))
    (data : δ) (w w1 : ω) (h : runCallbacks pre data w = .normal w1) :
    runCallbacks (pre ++ post) data w = runCallbacks post data w1 := by
  induction pre generalizing w with
  | nil => simp only [runCallbacks, Completion.normal.injEq] at h; subst h; rfl
  | cons c cs ih =>
    rw [List.cons_append]
    simp only [runCallbacks] at h ⊢
    cases hc : c data w with
    | normal w2 => rw [hc] at h; exact ih w2 h
    | throw err w2 => rw [hc] at h; simp at h

/-- Event names that are not inherited: after any sequence of `on` calls for such names on a
fresh bus, every call has returned and `emit(e, data)` for such a name runs exactly the
callbacks registered for `e`, in registration order and once per registration, all with the
same `data`; each callback runs on the world the previous one left (it has completed); when a
callback throws, `emit` throws that error in the world that callback left, whatever was
registered after it; with no registration for `e`, `emit` changes nothing. -/
theorem emit_own_name_semantics {δ ω : Type} (calls : List (String × Callback δ ω))
    (e : String) (data : δ) (w : ω)
    (hcalls : ∀ call ∈ calls, call.1 ∉ objectPrototypeKeys)
    (hown : e ∉ objectPrototypeKeys) :
    ∃ obs, registerAll EventsObservers.empty calls = .normal obs
      ∧ emit obs e data w
          = runCallbacks ((calls.filter (fun call => call.1 = e)).map (fun call => call.2))
              data w
      ∧ (∀ (pre post : List (Callback δ ω)) (callback : Callback δ ω) (w1 w2 : ω),
          runCallbacks pre data w = .normal w1 → callback data w1 = .normal w2 →
          runCallbacks (pre ++ callback :: post) data w = runCallbacks post data w2)
      ∧ (∀ (pre post : List (Callback δ ω)) (callback : Callback δ ω) (err : String)
          (w1 w2 : ω),
          runCallbacks pre data w = .normal w1 → callback data w1 = .throw err w2 →
          runCallbacks (pre ++ callback :: post) data w = .throw err w2)
      ∧ ((∀ call ∈ calls, call.1 ≠ e) → emit obs e data w = .normal w) := by
  obtain ⟨obs, hrun, hemit⟩ := emit_registerAll calls hcalls e hown data w
  refine ⟨obs, hrun, hemit, ?_, ?_, ?_⟩
  · intro pre post callback w1 w2 hpre hcb
    rw [runCallbacks_append_normal pre _ data w w1 hpre]
    simp [runCallbacks, hcb]
  · intro pre post callback err w1 w2 hpre hcb
    rw [runCallbacks_append_normal pre _ data w w1 hpre]
    simp [runCallbacks, hcb]
  · intro hno
    rw [hemit]
    have : registered calls e = [] := by
      simp only [registered, List.map_eq_nil_iff, List.filter_eq_nil_iff]
      intro call hcall
      simpa using hno call hcall
    rw [this]; rfl

/-- C10, evaluation at the failing input. On a fresh bus nothing is registered for the
event name `constructor`, and `emit('constructor', data)` does not return: it throws a
`TypeError`. The call `on('toString', callback)` throws as well and registers nothing: the
object has no own property `toString` after it, and `emit('toString', data)` throws without
calling the callback. For the name `ready` the same calls register the callback and run
it. -/
theorem emit_inherited_event_name_throws :
    (EventsObservers.empty : EventsObservers Unit (List String)) "constructor" = none
    ∧ emit (EventsObservers.empty : EventsObservers Unit (List String)) "constructor" () []
        = .throw "TypeError: this.#eventsObservers[event] is not iterable" []
    ∧ (FoliaServer.on (EventsObservers.empty : EventsObservers Unit (List String)) "toString"
          (fun _ seen => .normal (seen ++ ["called"]))).error?
        = some "TypeError: this.#eventsObservers[event].push is not a function"
    ∧ ((FoliaServer.on (EventsObservers.empty : EventsObservers Unit (List String)) "toString"
          (fun _ seen => .normal (seen ++ ["called"]))).state "toString").isNone = true
    ∧ emit (FoliaServer.on (EventsObservers.empty : EventsObservers Unit (List String))
          "toString" (fun _ seen => .normal (seen ++ ["called"]))).state "toString" () []
        = .throw "TypeError: this.#eventsObservers[event] is not iterable" []
    ∧ emit (FoliaServer.on (EventsObservers.empty : EventsObservers Unit (List String))
          "ready" (fun _ seen => .normal (seen ++ ["called"]))).state "ready" () []
        = .normal ["called"] := by
  exact ⟨rfl, rfl, rfl, rfl, rfl, rfl⟩

/-! ## Extensions -/

theorem missingDependency_eq_none_iff (registry : List Extension) (deps : List String) :
    missingDependency registry deps = none
      ↔ ∀ d ∈ deps, ∃ x ∈ registry, x.name = some d := by
  induction deps with
  | nil => simp [missingDependency]
  | cons d ds ih =>
    simp only [missingDependency, List.mem_cons, forall_eq_or_imp]
    cases hfind : registry.find? (fun extension => extension.name == some d) with
    | none =>
      simp only [false_iff, not_and, reduceCtorEq]
      intro hex
      obtain ⟨x, hx, hname⟩ := hex
      have := List.find?_eq_none.mp hfind x hx
      simp [hname] at this
    | some x =>
      simp only [ih, iff_and_self]
      intro _
      have hmem := List.mem_of_find?_eq_some hfind
      have hp := List.find?_some hfind
      exact ⟨x, hmem, by simpa using hp⟩

theorem missingDependency_eq_some (registry : List Extension) (deps : List String) (d : String)
    (h : missingDependency registry deps = some d) :
    d ∈ deps ∧ ∀ x ∈ registry, x.name ≠ some d := by
  induction deps with
  | nil => simp [missingDependency] at h
  | cons d1 ds ih =>
    simp only [missingDependency] at h
    cases hfind : registry.find? (fun extension => extension.name == some d1) with
    | none =>
      rw [hfind] at h
      simp only [Option.some.injEq] at h
      subst h
      refine ⟨List.mem_cons_self _ _, fun x hx hname => ?_⟩
      have := List.find?_eq_none.mp hfind x hx
      simp [hname] at this
    | some x =>
      rw [hfind] at h
      exact ⟨List.mem_cons_of_mem _ (ih h).1, (ih h).2⟩

theorem emitExt_frame {ω : Type} (obs : EventsObservers ExtensionsData ω) (event : String)
    (data : ExtensionsData) (s : ExtensionsState ω) :
    (emitExt obs event data s).state.extensions = s.extensions
      ∧ (emitExt obs event data s).state.initialised = s.initialised := by
  unfold emitExt
  cases emit obs event data s.world <;> simp [Completion.bind, Completion.state]

theorem emitExt_quiet {ω : Type} (obs : EventsObservers ExtensionsData ω) (event : String)
    (hown : event ∉ objectPrototypeKeys)
    (h : QuietOn obs event) (data : ExtensionsData) (s : ExtensionsState ω) :
    ∃ w1, emitExt obs event data s = .normal { s with world := w1 } := by
  obtain ⟨w1, hw1⟩ := emit_quiet obs event hown h data s.world
  exact ⟨w1, by simp [emitExt, hw1, Completion.bind]⟩

/-- What a normal completion of the callback of `#loadExtensions` leaves: the extension is
appended to the registry and its `init` was invoked. -/
theorem loadExtension_normal {ω : Type} (obs : EventsObservers ExtensionsData ω)
    (e : Extension) (s s1 : ExtensionsState ω) (h : loadExtension obs e s = .normal s1) :
    s1.extensions = s.extensions ++ [e] ∧ s1.initialised = s.initialised ++ [e]
      ∧ missingDependency s.extensions e.deps = none := by
  unfold loadExtension at h
  have hf := emitExt_frame obs "FoliaServerEvent_BEFORE_EXTENSION_LOADED" (.one e) s
  cases h0 : emitExt obs "FoliaServerEvent_BEFORE_EXTENSION_LOADED" (.one e) s with
  | throw err s0 => rw [h0] at h; simp [Completion.bind] at h
  | normal s0 =>
    rw [h0] at h hf
    simp only [Completion.bind, Completion.state] at h hf
    split at h
    · simp at h
    · split at h
      · simp at h
      · split at h
        · simp at h
        · rename_i hmiss
          rw [hf.1] at hmiss
          split at h
          · simp at h
          · have hf2 := emitExt_frame obs "FoliaServerEvent_AFTER_EXTENSION_LOADED" (.one e)
              { extensions := s0.extensions ++ [e], initialised := s0.initialised ++ [e],
                world := s0.world }
            rw [h] at hf2
            simp only [Completion.state] at hf2
            rw [hf2.1, hf2.2, hf.1, hf.2]
            exact ⟨rfl, rfl, hmiss⟩

theorem loadExtension_quiet {ω : Type} (obs : EventsObservers ExtensionsData ω)
    (hq : ∀ event ∈ extensionEvents, QuietOn obs event)
    (e : Extension) (hwf : e.WellFormed) (s : ExtensionsState ω) :
    (loadExtension obs e s).isNormal = true ↔ missingDependency s.extensions e.deps = none := by
  constructor
  · intro h
    cases hl : loadExtension obs e s with
    | normal s1 => exact (loadExtension_normal obs e s s1 hl).2.2
    | throw err s1 => rw [hl] at h; simp [Completion.isNormal] at h
  · intro hmiss
    obtain ⟨w1, h1⟩ := emitExt_quiet obs "FoliaServerEvent_BEFORE_EXTENSION_LOADED" (by decide)
      (hq _ (by simp [extensionEvents])) (.one e) s
    obtain ⟨w2, h2⟩ := emitExt_quiet obs "FoliaServerEvent_AFTER_EXTENSION_LOADED" (by decide)
      (hq _ (by simp [extensionEvents])) (.one e)
      { extensions := s.extensions ++ [e], initialised := s.initialised ++ [e], world := w1 }
    unfold loadExtension
    rw [h1]
    simp only [Completion.bind, id, hwf.1, hwf.2, Extension.deps] at hmiss ⊢
    simp [hmiss, h2, Completion.isNormal]

theorem dependenciesEarlier_cons (registry : List Extension) (a : Extension)
    (rest : List Extension) :
    DependenciesEarlier registry (a :: rest)
      ↔ (∀ d ∈ a.deps, ∃ x ∈ registry, x.name = some d)
        ∧ DependenciesEarlier (registry ++ [a]) rest := by
  constructor
  · intro h
    refine ⟨fun d hd => ?_, fun pre e post hsplit d hd => ?_⟩
    · simpa using h [] a rest rfl d hd
    · have := h (a :: pre) e post (by simp [hsplit]) d hd
      simpa using this
  · rintro ⟨ha, hrest⟩ pre e post hsplit d hd
    cases pre with
    | nil =>
      simp only [List.nil_append, List.cons.injEq] at hsplit
      obtain ⟨rfl, -⟩ := hsplit
      simpa using ha d hd
    | cons p ps =>
      simp only [List.cons_append, List.cons.injEq] at hsplit
      obtain ⟨rfl, hps⟩ := hsplit
      have := hrest ps e post hps d hd
      simpa using this

theorem loadLoop_normal {ω : Type} (obs : EventsObservers ExtensionsData ω)
    (exts : List Extension) (current : Nat) (s s1 : ExtensionsState ω)
    (h : eachFrom (fun extension _ => loadExtension obs extension) exts current s = .normal s1) :
    s1.extensions = s.extensions ++ exts ∧ s1.initialised = s.initialised ++ exts := by
  induction exts generalizing current s with
  | nil => simp only [eachFrom, Completion.normal.injEq] at h; subst h; simp
  | cons a rest ih =>
    simp only [eachFrom] at h
    cases ha : loadExtension obs a s with
    | throw err s2 => rw [ha] at h; simp at h
    | normal s2 =>
      rw [ha] at h
      obtain ⟨h1, h2, -⟩ := loadExtension_normal obs a s s2 ha
      obtain ⟨h3, h4⟩ := ih (current + 1) s2 h
      rw [h3, h4, h1, h2]
      simp

theorem loadLoop_quiet {ω : Type} (obs : EventsObservers ExtensionsData ω)
    (hq : ∀ event ∈ extensionEvents, QuietOn obs event)
    (exts : List Extension) (hwf : ∀ e ∈ exts, e.WellFormed) (current : Nat)
    (s : ExtensionsState ω) :
    (eachFrom (fun extension _ => loadExtension obs extension) exts current s).isNormal = true
      ↔ DependenciesEarlier s.extensions exts := by
  induction exts generalizing current s with
  | nil =>
    simp only [eachFrom, Completion.isNormal, true_iff]
    intro pre e post hsplit
    simp at hsplit
  | cons a rest ih =>
    have ha := loadExtension_quiet obs hq a (hwf a (List.mem_cons_self _ _)) s
    rw [missingDependency_eq_none_iff] at ha
    rw [dependenciesEarlier_cons, ← ha]
    simp only [eachFrom]
    cases hl : loadExtension obs a s with
    | throw err s2 => simp [Completion.isNormal]
    | normal s2 =>
      rw [show (Completion.normal s2).isNormal = true from rfl]
      simp only [true_and]
      rw [ih (fun e he => hwf e (List.mem_cons_of_mem _ he)) (current + 1) s2,
        (loadExtension_normal obs a s s2 hl).1]

/-- C1, amended. On a server whose observers of the extension events do not throw, loading a
list of well-formed descriptors into an empty registry completes without error exactly when
every dependency of every extension is the name of an extension strictly earlier in the list;
the registry is then the list itself and every `init` was invoked once, in list order; and an
extension that lists its own name as a dependency makes loading fail when no extension
earlier in the list bears that name. -/
theorem loadExtensions_completes_iff {ω : Type} (obs : EventsObservers ExtensionsData ω)
    (hq : ∀ event ∈ extensionEvents, QuietOn obs event)
    (exts : List Extension) (hwf : ∀ e ∈ exts, e.WellFormed) (w : ω) :
    ((loadExtensions obs exts (ExtensionsState.fresh w)).isNormal = true
        ↔ ∀ pre e post, exts = pre ++ e :: post →
            ∀ d ∈ e.deps, ∃ x ∈ pre, x.name = some d)
    ∧ (∀ s1, loadExtensions obs exts (ExtensionsState.fresh w) = .normal s1 →
        s1.extensions = exts ∧ s1.initialised = exts)
    ∧ (∀ pre e post n, exts = pre ++ e :: post → e.name = some n → n ∈ e.deps →
        (∀ x ∈ pre, x.name ≠ some n) →
        (loadExtensions obs exts (ExtensionsState.fresh w)).isNormal = false) := by
  obtain ⟨w1, h1⟩ := emitExt_quiet obs "FoliaServerEvent_BEFORE_EXTENSIONS_LOADED" (by decide)
    (hq _ (by simp [extensionEvents])) (.all exts) (ExtensionsState.fresh w)
  have hiff : (loadExtensions obs exts (ExtensionsState.fresh w)).isNormal = true
      ↔ ∀ pre e post, exts = pre ++ e :: post →
          ∀ d ∈ e.deps, ∃ x ∈ pre, x.name = some d := by
    have hloop := loadLoop_quiet obs hq exts hwf 0
      { ExtensionsState.fresh w with world := w1 }
    have hde : DependenciesEarlier [] exts
        ↔ ∀ pre e post, exts = pre ++ e :: post →
            ∀ d ∈ e.deps, ∃ x ∈ pre, x.name = some d := by
      simp [DependenciesEarlier]
    rw [← hde]
    simp only [ExtensionsState.fresh] at hloop
    rw [← hloop]
    unfold loadExtensions
    rw [h1]
    simp only [Completion.bind, id, ExtensionsState.fresh, forEach_zero]
    cases hl : eachFrom (fun extension _ => loadExtension obs extension) exts 0
        { extensions := [], initialised := [], world := w1 } with
    | throw err s2 => simp [Completion.isNormal]
    | normal s2 =>
      obtain ⟨w2, h2⟩ := emitExt_quiet obs "FoliaServerEvent_AFTER_EXTENSIONS_LOADED" (by decide)
        (hq _ (by simp [extensionEvents])) (.all exts) s2
      simp [h2, Completion.isNormal]
  refine ⟨hiff, ?_, ?_⟩
  · intro s1 hs1
    unfold loadExtensions at hs1
    rw [h1] at hs1
    simp only [Completion.bind, id, ExtensionsState.fresh, forEach_zero] at hs1
    cases hl : eachFrom (fun extension _ => loadExtension obs extension) exts 0
        { extensions := [], initialised := [], world := w1 } with
    | throw err s2 => rw [hl] at hs1; simp at hs1
    | normal s2 =>
      rw [hl] at hs1
      simp only [] at hs1
      have hf := emitExt_frame obs "FoliaServerEvent_AFTER_EXTENSIONS_LOADED" (.all exts) s2
      rw [hs1] at hf
      simp only [Completion.state] at hf
      have := loadLoop_normal obs exts 0 _ s2 hl
      simp only [List.nil_append] at this
      rw [hf.1, hf.2]
      exact this
  · intro pre e post n hsplit hname hdep hnone
    cases hn : (loadExtensions obs exts (ExtensionsState.fresh w)).isNormal with
    | false => rfl
    | true =>
      obtain ⟨x, hx, hxn⟩ := hiff.mp hn pre e post hsplit n hdep
      exact absurd hxn (hnone x hx)

/-- C1, witness: on a bus without observers the list `[A, B]`, `B` depending on `A`. -/
theorem loadExtensions_completes_iff_witness :
    (∀ event ∈ extensionEvents,
        QuietOn (EventsObservers.empty : EventsObservers ExtensionsData Unit) event)
    ∧ (∀ e ∈ [Example.extA, Example.extB], e.WellFormed)
    ∧ (loadExtensions EventsObservers.empty [Example.extA, Example.extB]
          (ExtensionsState.fresh ())).isNormal = true := by
  have hq : ∀ event ∈ extensionEvents,
      QuietOn (EventsObservers.empty : EventsObservers ExtensionsData Unit) event := by
    intro event _ callbacks h
    simp [EventsObservers.empty] at h
  have hwf : ∀ e ∈ [Example.extA, Example.extB], e.WellFormed := by
    intro e he
    simp only [List.mem_cons, List.mem_singleton, List.not_mem_nil, or_false] at he
    rcases he with rfl | rfl <;> exact ⟨by decide, rfl⟩
  refine ⟨hq, hwf, ?_⟩
  have h := (loadExtensions_completes_iff EventsObservers.empty hq
    [Example.extA, Example.extB] hwf ()).1
  rw [h]
  intro pre e post hsplit d hd
  match pre, hsplit with
  | [], hsplit =>
    simp only [List.nil_append, List.cons.injEq] at hsplit
    obtain ⟨rfl, -⟩ := hsplit
    simp [Extension.deps, Example.extA] at hd
  | [p], hsplit =>
    simp only [List.cons_append, List.nil_append, List.cons.injEq] at hsplit
    obtain ⟨rfl, rfl, -⟩ := hsplit
    simp only [Extension.deps, Example.extB, Option.getD_some, List.mem_singleton] at hd
    subst hd
    exact ⟨Example.extA, List.mem_singleton_self _, rfl⟩
  | _ :: _ :: _, hsplit => simp at hsplit

/-- C1, counterexample. The well-formed list `[A, A2]`, where `A2` is named `A` and lists `A`
as a dependency, loads without error although `A2` lists its own name; and a lone `A`, whose
dependencies are trivially satisfied, fails to load when an observer of
`BEFORE_EXTENSIONS_LOADED` throws. -/
theorem loadExtensions_self_dependency_loads :
    (∀ e ∈ [Example.extA, Example.extA2], e.WellFormed)
    ∧ Example.extA2.name = some "A" ∧ "A" ∈ Example.extA2.deps
    ∧ loadExtensions EventsObservers.empty [Example.extA, Example.extA2]
          (ExtensionsState.fresh ())
        = .normal { extensions := [Example.extA, Example.extA2],
                    initialised := [Example.extA, Example.extA2], world := () }
    ∧ loadExtensions
          (FoliaServer.on EventsObservers.empty "FoliaServerEvent_BEFORE_EXTENSIONS_LOADED"
            Example.failing).state
          [Example.extA] (ExtensionsState.fresh ())
        = .throw "observer failed" (ExtensionsState.fresh ()) := by
  refine ⟨?_, rfl, by decide, ?_, ?_⟩
  · intro e he
    simp only [List.mem_cons, List.mem_singleton, List.not_mem_nil, or_false] at he
    rcases he with rfl | rfl <;> exact ⟨by decide, rfl⟩
  · unfold loadExtensions
    simp only [forEach_zero]
    rfl
  · rfl

theorem occurs_dependencyError (n d : String) :
    Occurs n (dependencyError (some n) d) ∧ Occurs d (dependencyError (some n) d) := by
  unfold Occurs dependencyError
  simp only [Option.getD_some, String.data_append]
  constructor
  · exact ⟨"Extension '".data, "' require extension '".data ++ d.data ++ "' !".data,
      by simp [List.append_assoc]⟩
  · exact ⟨"Extension '".data ++ n.data ++ "' require extension '".data, "' !".data,
      by simp [List.append_assoc]⟩

/-- The callback of `#loadExtensions` on an extension that fails validation or lacks a
dependency, once the observers of `BEFORE_EXTENSION_LOADED` have run. -/
theorem loadExtension_throw {ω : Type} (obs : EventsObservers ExtensionsData ω)
    (e : Extension) (s1 s2 : ExtensionsState ω)
    (hreach : emitExt obs "FoliaServerEvent_BEFORE_EXTENSION_LOADED" (.one e) s1 = .normal s2)
    (hbad : truthy e.name = false ∨ e.init = .notFunction
      ∨ ∃ d ∈ e.deps, ∀ x ∈ s2.extensions, x.name ≠ some d) :
    ∃ err, loadExtension obs e s1 = .throw err s2
      ∧ (truthy e.name = true → e.init ≠ .notFunction →
          ∃ d, missingDependency s2.extensions e.deps = some d
            ∧ err = dependencyError e.name d) := by
  unfold loadExtension
  rw [hreach]
  simp only [Completion.bind, id]
  by_cases hname : truthy e.name = true
  · by_cases hinit : e.init = .notFunction
    · exact ⟨noInitError, by simp [hname, hinit], fun _ h => absurd hinit h⟩
    · have hdep : ∃ d ∈ e.deps, ∀ x ∈ s2.extensions, x.name ≠ some d := by
        rcases hbad with h | h | h
        · rw [hname] at h; simp at h
        · exact absurd h hinit
        · exact h
      cases hmiss : missingDependency s2.extensions e.deps with
      | none =>
        obtain ⟨d, hd, hno⟩ := hdep
        obtain ⟨x, hx, hxn⟩ := (missingDependency_eq_none_iff _ _).mp hmiss d hd
        exact absurd hxn (hno x hx)
      | some d =>
        refine ⟨dependencyError e.name d, ?_, fun _ _ => ⟨d, rfl, rfl⟩⟩
        simp only [Extension.deps] at hmiss
        simp [hname, hinit, hmiss]
  · simp only [Bool.not_eq_true] at hname
    exact ⟨noNameError, by simp [hname], fun h => by rw [hname] at h; simp at h⟩

/-- C2. When `#loadExtensions`, started on an empty registry, reaches an extension `e` (the
extensions `pre` before it loaded, the observers of its `BEFORE_EXTENSION_LOADED` ran) that
has no name, or whose `init` is not a function, or that names a dependency no extension of
`pre` provides, it throws in the state `s2` reached just before validation: the registry and
the list of invoked `init`s are exactly `pre`, so `e` was neither appended nor initialised
and nothing after `e` was touched, whatever follows `e`. When `e` passes validation the
error names a missing dependency `d` of `e`, and its message contains `e.name` and `d`. -/
theorem loadExtensions_fail_fast {ω : Type} (obs : EventsObservers ExtensionsData ω)
    (pre post : List Extension) (e : Extension) (w : ω) (s0 s1 s2 : ExtensionsState ω)
    (h0 : emitExt obs "FoliaServerEvent_BEFORE_EXTENSIONS_LOADED" (.all (pre ++ e :: post))
      (ExtensionsState.fresh w) = .normal s0)
    (hpre : ConsoleProgressBar.forEach pre (fun x _ => loadExtension obs x) 0 s0 = .normal s1)
    (hreach : emitExt obs "FoliaServerEvent_BEFORE_EXTENSION_LOADED" (.one e) s1 = .normal s2)
    (hbad : truthy e.name = false ∨ e.init = .notFunction
      ∨ ∃ d ∈ e.deps, ∀ x ∈ pre, x.name ≠ some d) :
    ∃ err, loadExtensions obs (pre ++ e :: post) (ExtensionsState.fresh w) = .throw err s2
      ∧ s2.extensions = pre ∧ s2.initialised = pre
      ∧ (truthy e.name = true → e.init ≠ .notFunction →
          ∃ n d, e.name = some n ∧ d ∈ e.deps ∧ (∀ x ∈ pre, x.name ≠ some d)
            ∧ err = "Extension '" ++ n ++ "' require extension '" ++ d ++ "' !"
            ∧ Occurs n err ∧ Occurs d err) := by
  have hf0 := emitExt_frame obs "FoliaServerEvent_BEFORE_EXTENSIONS_LOADED"
    (.all (pre ++ e :: post)) (ExtensionsState.fresh w)
  rw [h0] at hf0
  simp only [Completion.state, ExtensionsState.fresh] at hf0
  rw [forEach_zero] at hpre
  have hf1 := loadLoop_normal obs pre 0 s0 s1 hpre
  rw [hf0.1, hf0.2, List.nil_append] at hf1
  have hf2 := emitExt_frame obs "FoliaServerEvent_BEFORE_EXTENSION_LOADED" (.one e) s1
  rw [hreach] at hf2
  simp only [Completion.state] at hf2
  have hreg : s2.extensions = pre := by rw [hf2.1, hf1.1]
  have hini : s2.initialised = pre := by rw [hf2.2, hf1.2]
  obtain ⟨err, herr, hmsg⟩ := loadExtension_throw obs e s1 s2 hreach (by rw [hreg]; exact hbad)
  refine ⟨err, ?_, hreg, hini, ?_⟩
  · unfold loadExtensions
    rw [h0]
    simp only [Completion.bind, id, forEach_zero]
    rw [eachFrom_append_normal _ pre (e :: post) 0 s0 s1 hpre]
    simp [eachFrom, herr]
  · intro hname hinit
    obtain ⟨d, hd, hderr⟩ := hmsg hname hinit
    rw [hreg] at hd
    obtain ⟨hmem, hno⟩ := missingDependency_eq_some pre e.deps d hd
    cases hn : e.name with
    | none => rw [hn] at hname; simp [truthy] at hname
    | some n =>
      rw [hn] at hderr
      refine ⟨n, d, rfl, hmem, hno, ?_, ?_, ?_⟩
      · rw [hderr]; rfl
      · rw [hderr]; exact (occurs_dependencyError n d).1
      · rw [hderr]; exact (occurs_dependencyError n d).2

/-- C2, witness: on a bus without observers, `[A, B, A]` where `B` depends on the
absent `C`. -/
theorem loadExtensions_fail_fast_witness :
    ∃ err, loadExtensions (EventsObservers.empty : EventsObservers ExtensionsData Unit)
        ([Example.extA] ++ Example.extBC :: [Example.extA]) (ExtensionsState.fresh ())
        = .throw err { extensions := [Example.extA], initialised := [Example.extA], world := () }
      ∧ err = "Extension 'B' require extension 'C' !" := by
  have hpre : ConsoleProgressBar.forEach [Example.extA]
      (fun x _ => loadExtension (EventsObservers.empty : EventsObservers ExtensionsData Unit) x)
      0 (ExtensionsState.fresh ())
      = .normal { extensions := [Example.extA], initialised := [Example.extA], world := () } := by
    rw [forEach_zero]; rfl
  obtain ⟨err, h1, -, -, h2⟩ := loadExtensions_fail_fast
    (EventsObservers.empty : EventsObservers ExtensionsData Unit)
    [Example.extA] [Example.extA] Example.extBC () (ExtensionsState.fresh ())
    { extensions := [Example.extA], initialised := [Example.extA], world := () }
    { extensions := [Example.extA], initialised := [Example.extA], world := () }
    rfl hpre rfl
    (Or.inr (Or.inr ⟨"C", by decide, by decide⟩))
  refine ⟨err, h1, ?_⟩
  obtain ⟨n, d, hn, hd, -, herr, -, -⟩ := h2 (by decide) (by decide)
  have hn1 : n = "B" := by
    simp only [Example.extBC, Option.some.injEq] at hn; exact hn.symm
  have hd1 : d = "C" := by
    simpa [Extension.deps, Example.extBC] using hd
  rw [herr, hn1, hd1]
  rfl

/-! ## Architecture: the scan as a sequence of steps -/

theorem eachFrom_const {α σ : Type} (step : α → σ → Completion σ) (items : List α)
    (current : Nat) (s : σ) :
    eachFrom (fun item _ => step item) items current s = seqAll step items s := by
  induction items generalizing current s with
  | nil => rfl
  | cons x rest ih =>
    simp only [eachFrom, seqAll]
    cases step x s with
    | normal s1 => exact ih (current + 1) s1
    | throw err s1 => rfl

theorem forEach_const {α σ : Type} (step : α → σ → Completion σ) (items : List α) (s : σ) :
    ConsoleProgressBar.forEach items (fun item _ => step item) 0 s = seqAll step items s := by
  rw [forEach_zero, eachFrom_const]

theorem seqAll_append {α σ : Type} (step : α → σ → Completion σ) (xs ys : List α) (s : σ) :
    seqAll step (xs ++ ys) s
      = match seqAll step xs s with
        | .normal s1 => seqAll step ys s1
        | .throw err s1 => .throw err s1 := by
  induction xs generalizing s with
  | nil => rfl
  | cons x rest ih =>
    rw [List.cons_append]
    simp only [seqAll]
    cases step x s with
    | normal s1 => exact ih s1
    | throw err s1 => rfl

theorem seqAll_map {α β σ : Type} (step : β → σ → Completion σ) (g : α → β) (xs : List α)
    (s : σ) : seqAll step (xs.map g) s = seqAll (fun x => step (g x)) xs s := by
  induction xs generalizing s with
  | nil => rfl
  | cons x rest ih =>
    simp only [List.map_cons, seqAll]
    cases step (g x) s with
    | normal s1 => exact ih s1
    | throw err s1 => rfl

theorem verifyBaseEntry_eq (fs : FileSystem) (e : EntryToCreate) (data : ArchitectureData) :
    verifyBaseEntry fs e data = scanStep fs (baseItem e) data := by
  unfold verifyBaseEntry scanStep baseItem ScanItem.passes
  cases hr : e.requirePath with
  | none => simp
  | some r =>
    cases r with
    | fn source f => simp [Templated.truthy, existsSyncValue]
    | str t =>
      by_cases ht : t = ""
      · simp [Templated.truthy, ht]
      · simp [Templated.truthy, ht, existsSyncValue]

theorem verifyModuleEntry_eq (fs : FileSystem) (module : String) (e : EntryToCreate)
    (data : ArchitectureData) :
    verifyModuleEntry fs module e data = scanStep fs (moduleItem module e) data := by
  unfold verifyModuleEntry scanStep moduleItem ScanItem.passes
  cases hr : e.requirePath with
  | none => simp
  | some r =>
    by_cases ht : Templated.truthy (some r) = true
    · simp [ht]
    · simp [ht]

theorem verifyModules_eq (fs : FileSystem) (entries : List EntryToCreate)
    (discovered : List String) (data : ArchitectureData) :
    verifyModules fs entries discovered data
      = seqAll (scanStep fs)
          (discovered.flatMap fun module => entries.map (moduleItem module)) data := by
  induction discovered generalizing data with
  | nil => rfl
  | cons m rest ih =>
    simp only [verifyModules, List.flatMap_cons, seqAll_append, forEach_const, seqAll_map]
    have hstep : (fun x => scanStep fs (moduleItem m x))
        = (fun entryToCreate => verifyModuleEntry fs m entryToCreate) := by
      funext x; funext d; exact (verifyModuleEntry_eq fs m x d).symm
    rw [hstep]
    cases seqAll (fun entryToCreate => verifyModuleEntry fs m entryToCreate) entries data with
    | normal d1 => exact ih d1
    | throw err d1 => rfl

theorem scanArchitecture_eq (fs : FileSystem) (base modules : List ArchitectureEntry)
    (data : ArchitectureData) :
    scanArchitecture fs base modules data
      = seqAll (scanStep fs) (architectureItems base modules data.modules) data := by
  unfold scanArchitecture architectureItems
  rw [seqAll_append, forEach_const, seqAll_map]
  have hstep : (fun x => scanStep fs (baseItem x))
      = (fun entryToCreate => verifyBaseEntry fs entryToCreate) := by
    funext x; funext d; exact (verifyBaseEntry_eq fs x d).symm
  rw [hstep]
  cases seqAll (fun entryToCreate => verifyBaseEntry fs entryToCreate)
      (getEntriesToCreate base none) data with
  | normal d1 => exact verifyModules_eq fs _ _ d1
  | throw err d1 => rfl

theorem recordDirectories_eq (fs : FileSystem) (directories : List String) (path : String)
    (recorded : List String) :
    recordDirectories fs directories path recorded
      = (joinPath directories path, recordAll fs (dirPaths directories path) recorded) := by
  induction directories generalizing path recorded with
  | nil => rfl
  | cons d rest ih => simp only [recordDirectories, joinPath, dirPaths, recordAll, ih]

theorem verifyArchitecture_str (fs : FileSystem) (p : String) (content : Option Templated)
    (data : ArchitectureData) :
    verifyArchitecture fs (.str p) content data
      = .normal
          { data with
            directoriesToCreate := recordAll fs (dirTargets p content) data.directoriesToCreate,
            filesToCreate :=
              match fileTarget p content with
              | some (key, text) =>
                if !existsSync fs key then setFile data.filesToCreate key text
                else data.filesToCreate
              | none => data.filesToCreate } := by
  unfold verifyArchitecture dirTargets fileTarget
  simp only [recordDirectories_eq]
  cases hc : content with
  | none => simp [Templated.truthy]
  | some text =>
    by_cases ht : Templated.truthy (some text) = true
    · simp only [ht, if_true]
      cases hl : (split p).getLast? with
      | none => simp
      | some file =>
        by_cases hf : file = ""
        · simp [hf]
        · by_cases hex : existsSync fs (joinPath (split p).dropLast "." ++ "/" ++ file) = true
          · simp [hf, hex]
          · simp [hf, hex]
    · simp [ht]

/-! ## Architecture: what the scan records -/

theorem recordAll_subset (fs : FileSystem) (qs recorded : List String) :
    recorded ⊆ recordAll fs qs recorded := by
  induction qs generalizing recorded with
  | nil => exact fun _ h => h
  | cons q rest ih =>
    simp only [recordAll]
    split
    · exact fun x hx => ih _ (List.mem_append_left _ hx)
    · exact ih _

theorem recordAll_mem (fs : FileSystem) (qs recorded : List String) (q : String)
    (hq : q ∈ qs) : existsSync fs q = true ∨ q ∈ recordAll fs qs recorded := by
  induction qs generalizing recorded with
  | nil => simp at hq
  | cons q1 rest ih =>
    simp only [recordAll]
    rcases List.mem_cons.mp hq with rfl | hrest
    · by_cases hex : existsSync fs q = true
      · exact Or.inl hex
      · right
        by_cases hin : recorded.contains q = true
        · simp only [hex, hin, Bool.not_true, Bool.and_false, Bool.false_eq_true, if_false]
          exact recordAll_subset fs rest recorded (by simpa using hin)
        · simp only [hex, hin, Bool.not_false, Bool.and_self, if_true]
          exact recordAll_subset fs rest _ (by simp)
    · exact ih _ hrest

theorem recordAll_fresh (fs : FileSystem) (qs recorded : List String)
    (h : ∀ q ∈ recorded, existsSync fs q = false) :
    ∀ q ∈ recordAll fs qs recorded, existsSync fs q = false := by
  induction qs generalizing recorded with
  | nil => exact h
  | cons q1 rest ih =>
    simp only [recordAll]
    split
    · rename_i hc
      apply ih
      intro q hq
      rcases List.mem_append.mp hq with h1 | h1
      · exact h q h1
      · simp only [List.mem_singleton] at h1
        subst h1
        simp only [Bool.and_eq_true, Bool.not_eq_true', Bool.not_eq_eq_eq_not, Bool.not_true] at hc
        exact hc.1
    · exact ih _ h

theorem recordAll_nodup (fs : FileSystem) (qs recorded : List String)
    (h : recorded.Nodup) : (recordAll fs qs recorded).Nodup := by
  induction qs generalizing recorded with
  | nil => exact h
  | cons q1 rest ih =>
    simp only [recordAll]
    split
    · rename_i hc
      apply ih
      simp only [Bool.and_eq_true, Bool.not_eq_true', Bool.not_eq_eq_eq_not, Bool.not_true] at hc
      have hnot : q1 ∉ recorded := by
        intro hmem
        have : recorded.contains q1 = true := by simpa using hmem
        rw [this] at hc
        simp at hc
      exact List.Nodup.append h (List.nodup_singleton q1)
        (by
          intro x hx hx1
          simp only [List.mem_singleton] at hx1
          subst hx1
          exact hnot hx)
    · exact ih _ h

theorem recordAll_noop (fs : FileSystem) (qs recorded : List String)
    (h : ∀ q ∈ qs, existsSync fs q = true) : recordAll fs qs recorded = recorded := by
  induction qs generalizing recorded with
  | nil => rfl
  | cons q1 rest ih =>
    simp only [recordAll, h q1 (List.mem_cons_self _ _), Bool.not_true, Bool.false_and,
      Bool.false_eq_true, if_false]
    exact ih _ (fun q hq => h q (List.mem_cons_of_mem _ hq))

theorem mem_keys_setFile (files : List (String × Templated)) (key : String)
    (content : Templated) (k : String) :
    k ∈ (setFile files key content).map (fun e => e.1)
      ↔ k ∈ files.map (fun e => e.1) ∨ k = key := by
  unfold setFile
  split
  · rename_i hany
    have hkeys : (files.map fun entry => if (entry.1 == key) = true then (key, content) else entry).map
        (fun e => e.1) = files.map (fun e => e.1) := by
      rw [List.map_map]
      apply List.map_congr_left
      intro e _
      by_cases he : e.1 = key <;> simp [he]
    rw [hkeys]
    constructor
    · exact Or.inl
    · rintro (h | rfl)
      · exact h
      · simp only [List.any_eq_true, beq_iff_eq] at hany
        obtain ⟨e, he, hek⟩ := hany
        exact List.mem_map.mpr ⟨e, he, hek⟩
  · simp

theorem scanStep_cases (fs : FileSystem) (item : ScanItem) (d d1 : ArchitectureData)
    (h : scanStep fs item d = .normal d1) :
    (item.passes fs = false ∧ d1 = d)
    ∨ (item.passes fs = true ∧ ∃ p, item.path = .str p
        ∧ d1 = { d with
            directoriesToCreate := recordAll fs (dirTargets p item.content) d.directoriesToCreate,
            filesToCreate :=
              match fileTarget p item.content with
              | some (key, text) =>
                if !existsSync fs key then setFile d.filesToCreate key text
                else d.filesToCreate
              | none => d.filesToCreate }) := by
  unfold scanStep at h
  by_cases hp : item.passes fs = true
  · right
    rw [if_pos hp] at h
    refine ⟨hp, ?_⟩
    cases hpath : item.path with
    | fn source f => rw [hpath] at h; simp [verifyArchitecture] at h
    | str p =>
      rw [hpath, verifyArchitecture_str] at h
      simp only [Completion.normal.injEq] at h
      exact ⟨p, rfl, h.symm⟩
  · left
    rw [if_neg hp] at h
    simp only [Completion.normal.injEq] at h
    exact ⟨by simpa using hp, h.symm⟩

theorem le_refl_data (d : ArchitectureData) : d.le d :=
  ⟨fun _ h => h, fun _ h => h, rfl⟩

theorem le_trans_data (d d1 d2 : ArchitectureData) (h1 : d.le d1) (h2 : d1.le d2) : d.le d2 :=
  ⟨fun _ h => h2.1 (h1.1 h), fun _ h => h2.2.1 (h1.2.1 h), h2.2.2.trans h1.2.2⟩

theorem scanStep_le (fs : FileSystem) (item : ScanItem) (d d1 : ArchitectureData)
    (h : scanStep fs item d = .normal d1) : d.le d1 := by
  rcases scanStep_cases fs item d d1 h with ⟨-, rfl⟩ | ⟨-, p, -, rfl⟩
  · exact le_refl_data _
  · refine ⟨recordAll_subset fs _ _, ?_, rfl⟩
    intro k hk
    simp only [fileKeys] at hk ⊢
    cases fileTarget p item.content with
    | none => exact hk
    | some kt =>
      obtain ⟨key, text⟩ := kt
      simp only []
      split
      · exact (mem_keys_setFile _ _ _ _).mpr (Or.inl hk)
      · exact hk

theorem scanStep_recorded (fs : FileSystem) (item : ScanItem) (d d1 : ArchitectureData)
    (h : scanStep fs item d = .normal d1) : Recorded fs d1 item := by
  intro hpass
  rcases scanStep_cases fs item d d1 h with ⟨hno, -⟩ | ⟨-, p, hpath, rfl⟩
  · rw [hno] at hpass; simp at hpass
  · refine ⟨p, hpath, fun q hq => recordAll_mem fs _ _ q hq, ?_⟩
    intro k text hft
    simp only [fileKeys, hft]
    by_cases hex : existsSync fs k = true
    · exact Or.inl hex
    · right
      simp only [hex, Bool.not_false, if_true]
      exact (mem_keys_setFile _ _ _ _).mpr (Or.inr rfl)

theorem recorded_mono (fs : FileSystem) (item : ScanItem) (d d1 : ArchitectureData)
    (h : Recorded fs d item) (hle : d.le d1) : Recorded fs d1 item := by
  intro hpass
  obtain ⟨p, hpath, hd, hf⟩ := h hpass
  refine ⟨p, hpath, fun q hq => (hd q hq).imp id (fun hm => hle.1 hm), ?_⟩
  intro k text hft
  exact (hf k text hft).imp id (fun hm => hle.2.1 hm)

theorem scanStep_fresh (fs : FileSystem) (item : ScanItem) (d d1 : ArchitectureData)
    (hfresh : Fresh fs d) (h : scanStep fs item d = .normal d1) : Fresh fs d1 := by
  rcases scanStep_cases fs item d d1 h with ⟨-, rfl⟩ | ⟨-, p, -, rfl⟩
  · exact hfresh
  · refine ⟨recordAll_fresh fs _ _ hfresh.1, recordAll_nodup fs _ _ hfresh.2.1, ?_⟩
    intro k hk
    simp only [fileKeys] at hk
    cases hft : fileTarget p item.content with
    | none => rw [hft] at hk; exact hfresh.2.2 k hk
    | some kt =>
      obtain ⟨key, text⟩ := kt
      rw [hft] at hk
      simp only [] at hk
      by_cases hex : existsSync fs key = true
      · simp only [hex, Bool.not_true, Bool.false_eq_true, if_false] at hk
        exact hfresh.2.2 k hk
      · simp only [hex, Bool.not_false, if_true] at hk
        rcases (mem_keys_setFile _ _ _ _).mp hk with h1 | rfl
        · exact hfresh.2.2 k h1
        · simpa using hex

theorem scan_le (fs : FileSystem) (items : List ScanItem) (d d1 : ArchitectureData)
    (h : seqAll (scanStep fs) items d = .normal d1) : d.le d1 := by
  induction items generalizing d with
  | nil => simp only [seqAll, Completion.normal.injEq] at h; subst h; exact le_refl_data d
  | cons item rest ih =>
    simp only [seqAll] at h
    cases hs : scanStep fs item d with
    | throw err d2 => rw [hs] at h; simp at h
    | normal d2 =>
      rw [hs] at h
      exact le_trans_data d d2 d1 (scanStep_le fs item d d2 hs) (ih d2 h)

theorem scan_recorded (fs : FileSystem) (items : List ScanItem) (d d1 : ArchitectureData)
    (h : seqAll (scanStep fs) items d = .normal d1) : ∀ item ∈ items, Recorded fs d1 item := by
  induction items generalizing d with
  | nil => intro item hitem; simp at hitem
  | cons item rest ih =>
    simp only [seqAll] at h
    cases hs : scanStep fs item d with
    | throw err d2 => rw [hs] at h; simp at h
    | normal d2 =>
      rw [hs] at h
      intro i hi
      rcases List.mem_cons.mp hi with rfl | hrest
      · exact recorded_mono fs i d2 d1 (scanStep_recorded fs i d d2 hs) (scan_le fs rest d2 d1 h)
      · exact ih d2 h i hrest

theorem scan_fresh (fs : FileSystem) (items : List ScanItem) (d d1 : ArchitectureData)
    (hfresh : Fresh fs d) (h : seqAll (scanStep fs) items d = .normal d1) : Fresh fs d1 := by
  induction items generalizing d with
  | nil => simp only [seqAll, Completion.normal.injEq] at h; subst h; exact hfresh
  | cons item rest ih =>
    simp only [seqAll] at h
    cases hs : scanStep fs item d with
    | throw err d2 => rw [hs] at h; simp at h
    | normal d2 =>
      rw [hs] at h
      exact ih d2 (scanStep_fresh fs item d d2 hfresh hs) h

theorem covered_of_recorded (fs0 fs1 : FileSystem) (d : ArchitectureData) (item : ScanItem)
    (hrec : Recorded fs0 d item) (hsup : Supports fs1 fs0 d) (hpass : item.passes fs0 = true) :
    Covered fs1 item := by
  obtain ⟨p, hpath, hd, hf⟩ := hrec hpass
  refine ⟨p, hpath, fun q hq => ?_, fun k text hft => ?_⟩
  · rcases hd q hq with h | h
    · exact hsup.1 q h
    · exact hsup.2.1 q h
  · rcases hf k text hft with h | h
    · exact hsup.1 k h
    · exact hsup.2.2 k h

theorem scanStep_covered (fs : FileSystem) (item : ScanItem) (d : ArchitectureData)
    (h : item.passes fs = true → Covered fs item) : scanStep fs item d = .normal d := by
  unfold scanStep
  by_cases hp : item.passes fs = true
  · obtain ⟨p, hpath, hd, hf⟩ := h hp
    rw [if_pos hp, hpath, verifyArchitecture_str, recordAll_noop fs _ _ hd]
    cases hft : fileTarget p item.content with
    | none => rfl
    | some kt =>
      obtain ⟨key, text⟩ := kt
      simp [hf key text hft]
  · rw [if_neg hp]

theorem scan_covered (fs : FileSystem) (items : List ScanItem) (d : ArchitectureData)
    (h : ∀ item ∈ items, item.passes fs = true → Covered fs item) :
    seqAll (scanStep fs) items d = .normal d := by
  induction items with
  | nil => rfl
  | cons item rest ih =>
    simp only [seqAll, scanStep_covered fs item d (h item (List.mem_cons_self _ _))]
    exact ih (fun i hi => h i (List.mem_cons_of_mem _ hi))

theorem passes_mono (fs0 fs1 : FileSystem) (item : ScanItem)
    (hmono : ∀ q, existsSync fs0 q = true → existsSync fs1 q = true)
    (h : item.passes fs1 = true) : item.passes fs0 = true := by
  unfold ScanItem.passes at h ⊢
  cases hg : item.guard with
  | none => rfl
  | some g =>
    rw [hg] at h
    simp only [Bool.not_eq_true'] at h ⊢
    cases hex : existsSync fs0 g with
    | false => rfl
    | true => rw [hmono g hex] at h; simp at h

/-! ## File system operations -/

theorem nodeAt_append_of_some (fs extra : FileSystem) (key : List String) (n : FsNode)
    (h : fs.nodeAt key = some n) : (fs ++ extra).nodeAt key = some n := by
  unfold FileSystem.nodeAt at h ⊢
  by_cases hk : key = []
  · simpa [hk] using h
  · simp only [hk, if_false] at h ⊢
    rw [List.lookup_append, h]
    rfl

theorem nodeAt_append_self (fs : FileSystem) (key : List String) (n : FsNode)
    (h : fs.nodeAt key = none) : (fs ++ [(key, n)]).nodeAt key = some n := by
  unfold FileSystem.nodeAt at h ⊢
  by_cases hk : key = []
  · simp [hk] at h
  · simp only [hk, if_false] at h ⊢
    rw [List.lookup_append, h]
    simp

theorem nodeAt_replace_ne (fs : FileSystem) (key0 key : List String) (n : FsNode)
    (hne : key ≠ key0) : (fs.replace key0 n).nodeAt key = fs.nodeAt key := by
  unfold FileSystem.nodeAt FileSystem.replace
  by_cases hk : key = []
  · simp [hk]
  · simp only [hk, if_false]
    induction fs with
    | nil => rfl
    | cons e rest ih =>
      obtain ⟨k1, n1⟩ := e
      by_cases h1 : k1 = key0
      · subst h1
        simp only [List.map_cons, if_true, List.lookup_cons]
        have : (key == k1) = false := by simpa using hne
        simp only [this]
        exact ih
      · simp only [List.map_cons, h1, if_false, List.lookup_cons]
        cases key == k1 with
        | true => rfl
        | false => exact ih

theorem nodeAt_replace_self (fs : FileSystem) (key0 : List String) (n n0 : FsNode)
    (h : fs.nodeAt key0 = some n0) (hk : key0 ≠ []) :
    (fs.replace key0 n).nodeAt key0 = some n := by
  unfold FileSystem.nodeAt FileSystem.replace at *
  simp only [hk, if_false] at h ⊢
  induction fs with
  | nil => simp at h
  | cons e rest ih =>
    obtain ⟨k1, n1⟩ := e
    by_cases h1 : k1 = key0
    · subst h1
      simp
    · have hb : (key0 == k1) = false := by simpa using Ne.symm h1
      simp only [List.lookup_cons, hb] at h
      simp only [List.map_cons, h1, if_false, List.lookup_cons, hb]
      exact ih h

/-- The nodes of `fs` are still there in `fs1`. -/
theorem mkdirSync_normal (fs fs1 : FileSystem) (path : String)
    (h : mkdirSync fs path = .normal fs1) :
    fs.nodeAt (components path) = none
      ∧ fs1.nodeAt (components path) = some .directory
      ∧ ∀ key n, fs.nodeAt key = some n → fs1.nodeAt key = some n := by
  unfold mkdirSync at h
  split at h
  · simp at h
  · rename_i hnone
    have hnone1 : fs.nodeAt (components path) = none := by
      cases hn : fs.nodeAt (components path) with
      | none => rfl
      | some n => rw [hn] at hnone; simp at hnone
    split at h
    · simp only [Completion.normal.injEq] at h
      subst h
      exact ⟨hnone1, nodeAt_append_self fs _ _ hnone1,
        fun key n hkey => nodeAt_append_of_some fs _ key n hkey⟩
    · simp at h

theorem mkdirSync_state (fs : FileSystem) (path : String) :
    ∀ key n, fs.nodeAt key = some n → (mkdirSync fs path).state.nodeAt key = some n := by
  intro key n hkey
  cases h : mkdirSync fs path with
  | normal fs1 => exact (mkdirSync_normal fs fs1 path h).2.2 key n hkey
  | throw err fs1 =>
    unfold mkdirSync at h
    split at h
    · simp only [Completion.throw.injEq] at h; rw [← h.2]; exact hkey
    · split at h
      · simp at h
      · simp only [Completion.throw.injEq] at h; rw [← h.2]; exact hkey

theorem writeFileSync_state (fs : FileSystem) (path content : String) :
    (∀ key, key ≠ components path →
        (writeFileSync fs path content).state.nodeAt key = fs.nodeAt key)
      ∧ ((fs.nodeAt (components path)).isSome = true →
          ((writeFileSync fs path content).state.nodeAt (components path)).isSome = true) := by
  unfold writeFileSync
  cases hn : fs.nodeAt (components path) with
  | none =>
    simp only []
    split
    · refine ⟨fun key hne => ?_, fun h => by simp at h⟩
      simp only [Completion.state]
      unfold FileSystem.nodeAt
      by_cases hk : key = []
      · simp [hk]
      · simp only [hk, if_false]
        rw [List.lookup_append]
        have hb : (key == components path) = false := by simpa using hne
        simp [List.lookup_cons, hb]
    · exact ⟨fun _ _ => rfl, fun h => by simp at h⟩
  | some n =>
    cases n with
    | directory => exact ⟨fun _ _ => rfl, fun _ => by simp [Completion.state, hn]⟩
    | file c0 =>
      simp only [Completion.state]
      refine ⟨fun key hne => nodeAt_replace_ne fs _ key _ hne, fun _ => ?_⟩
      have hk : components path ≠ [] := by
        intro hk
        rw [hk] at hn
        simp [FileSystem.nodeAt] at hn
      rw [nodeAt_replace_self fs _ _ _ hn hk]
      rfl

theorem writeFileSync_normal (fs fs1 : FileSystem) (path content : String)
    (h : writeFileSync fs path content = .normal fs1) :
    (fs1.nodeAt (components path)).isSome = true := by
  unfold writeFileSync at h
  cases hn : fs.nodeAt (components path) with
  | none =>
    rw [hn] at h
    simp only [] at h
    split at h
    · simp only [Completion.normal.injEq] at h
      subst h
      rw [nodeAt_append_self fs _ _ hn]; rfl
    · simp at h
  | some n =>
    rw [hn] at h
    cases n with
    | directory => simp at h
    | file c0 =>
      simp only [Completion.normal.injEq] at h
      subst h
      have hk : components path ≠ [] := by
        intro hk
        rw [hk] at hn
        simp [FileSystem.nodeAt] at hn
      rw [nodeAt_replace_self fs _ _ _ hn hk]
      rfl

/-- Whatever `writeFileSync` does, the paths that existed still exist. -/
theorem writeFileSync_grows (fs : FileSystem) (path content : String) (key : List String)
    (h : (fs.nodeAt key).isSome = true) :
    ((writeFileSync fs path content).state.nodeAt key).isSome = true := by
  by_cases hk : key = components path
  · subst hk
    exact (writeFileSync_state fs path content).2 h
  · rw [(writeFileSync_state fs path content).1 key hk]
    exact h

/-! ## Architecture: the update -/

theorem seqAll_state_inv {α σ : Type} (I : σ → Prop) (step : α → σ → Completion σ)
    (xs : List α) (h : ∀ x ∈ xs, ∀ s, I s → I (step x s).state) (s : σ) (hs : I s) :
    I (seqAll step xs s).state := by
  induction xs generalizing s with
  | nil => exact hs
  | cons x rest ih =>
    simp only [seqAll]
    have hx := h x (List.mem_cons_self _ _) s hs
    cases hstep : step x s with
    | normal s1 =>
      rw [hstep] at hx
      exact ih (fun y hy => h y (List.mem_cons_of_mem _ hy)) s1 hx
    | throw err s1 => rw [hstep] at hx; exact hx

theorem seqAll_normal_keep {α σ : Type} (P : σ → Prop) (step : α → σ → Completion σ)
    (hkeep : ∀ y s s1, P s → step y s = .normal s1 → P s1)
    (xs : List α) (s s1 : σ) (hs : P s) (h : seqAll step xs s = .normal s1) : P s1 := by
  induction xs generalizing s with
  | nil => simp only [seqAll, Completion.normal.injEq] at h; subst h; exact hs
  | cons y rest ih =>
    simp only [seqAll] at h
    cases hy : step y s with
    | throw err s2 => rw [hy] at h; simp at h
    | normal s2 =>
      rw [hy] at h
      exact ih s2 (hkeep y s s2 hs hy) h

theorem seqAll_normal_each {α σ : Type} (Q : α → σ → Prop) (step : α → σ → Completion σ)
    (hstep : ∀ x s s1, step x s = .normal s1 → Q x s1)
    (hkeep : ∀ x y s s1, Q x s → step y s = .normal s1 → Q x s1)
    (xs : List α) (s s1 : σ) (h : seqAll step xs s = .normal s1) : ∀ x ∈ xs, Q x s1 := by
  induction xs generalizing s with
  | nil => intro x hx; simp at hx
  | cons y rest ih =>
    simp only [seqAll] at h
    cases hy : step y s with
    | throw err s2 => rw [hy] at h; simp at h
    | normal s2 =>
      rw [hy] at h
      intro x hx
      rcases List.mem_cons.mp hx with rfl | hrest
      · exact seqAll_normal_keep (Q x) step (hkeep x) rest s2 s1 (hstep x s s2 hy) h
      · exact ih s2 h x hrest

theorem createDirectory_state (path : String) (s : ArchitectureState) :
    (createDirectory path s).state.data = s.data
      ∧ ∀ key n, s.fs.nodeAt key = some n →
          (createDirectory path s).state.fs.nodeAt key = some n := by
  have hk := mkdirSync_state s.fs path
  unfold createDirectory
  cases h : mkdirSync s.fs path with
  | normal fs1 =>
    rw [h] at hk
    exact ⟨rfl, hk⟩
  | throw err fs1 =>
    rw [h] at hk
    exact ⟨rfl, hk⟩

theorem createDirectory_normal (path : String) (s s1 : ArchitectureState)
    (h : createDirectory path s = .normal s1) : existsSync s1.fs path = true := by
  unfold createDirectory at h
  cases hm : mkdirSync s.fs path with
  | throw err fs1 => rw [hm] at h; simp [Completion.bind] at h
  | normal fs1 =>
    rw [hm] at h
    simp only [Completion.bind, Completion.normal.injEq] at h
    subst h
    simp only [existsSync, (mkdirSync_normal s.fs fs1 path hm).2.1]
    rfl

theorem createFile_state (file : String × Templated) (s : ArchitectureState) :
    (createFile file s).state.data = s.data
      ∧ (∀ key, key ≠ components file.1 →
          (createFile file s).state.fs.nodeAt key = s.fs.nodeAt key)
      ∧ (∀ key, (s.fs.nodeAt key).isSome = true →
          ((createFile file s).state.fs.nodeAt key).isSome = true) := by
  unfold createFile
  cases hc : file.2 with
  | fn source f => exact ⟨rfl, fun _ _ => rfl, fun _ h => h⟩
  | str content =>
    have h1 := writeFileSync_state s.fs file.1 content
    have h2 := writeFileSync_grows s.fs file.1 content
    simp only []
    cases hw : writeFileSync s.fs file.1 content with
    | normal fs1 => rw [hw] at h1 h2; exact ⟨rfl, h1.1, h2⟩
    | throw err fs1 => rw [hw] at h1 h2; exact ⟨rfl, h1.1, h2⟩

theorem createFile_normal (file : String × Templated) (s s1 : ArchitectureState)
    (h : createFile file s = .normal s1) : existsSync s1.fs file.1 = true := by
  unfold createFile at h
  cases hc : file.2 with
  | fn source f => rw [hc] at h; simp at h
  | str content =>
    rw [hc] at h
    simp only [] at h
    cases hw : writeFileSync s.fs file.1 content with
    | throw err fs1 => rw [hw] at h; simp [Completion.bind] at h
    | normal fs1 =>
      rw [hw] at h
      simp only [Completion.bind, Completion.normal.injEq] at h
      subst h
      exact writeFileSync_normal s.fs fs1 file.1 content hw

theorem updateArchitecture_eq (s : ArchitectureState) :
    updateArchitecture s
      = match seqAll createDirectory s.data.directoriesToCreate s with
        | .normal s1 => seqAll createFile s1.data.filesToCreate s1
        | .throw err s1 => .throw err s1 := by
  unfold updateArchitecture
  simp only [forEach_const]
  by_cases hd : s.data.directoriesToCreate = []
  · by_cases hf : s.data.filesToCreate = []
    · simp [hd, hf, seqAll]
    · have hlen : s.data.filesToCreate.length > 0 := List.length_pos.mpr hf
      simp [hd, hlen, seqAll, Completion.bind]
  · have hlen : s.data.directoriesToCreate.length > 0 := List.length_pos.mpr hd
    simp only [hlen, decide_True, Bool.true_or, if_true, Completion.bind, id]
    cases seqAll createDirectory s.data.directoriesToCreate s with
    | throw err s1 => rfl
    | normal s1 =>
      simp only []
      by_cases hf : s1.data.filesToCreate = []
      · simp [hf, seqAll]
      · have hlen1 : s1.data.filesToCreate.length > 0 := List.length_pos.mpr hf
        simp [hlen1]

theorem createDirectory_keeps (path : String) (s s1 : ArchitectureState)
    (h : createDirectory path s = .normal s1) :
    s1.data = s.data ∧ ∀ q, existsSync s.fs q = true → existsSync s1.fs q = true := by
  have hs := createDirectory_state path s
  rw [h] at hs
  refine ⟨hs.1, fun q hq => ?_⟩
  unfold existsSync at hq ⊢
  cases hn : s.fs.nodeAt (components q) with
  | none => rw [hn] at hq; simp at hq
  | some n => simp only [Completion.state] at hs; rw [hs.2 _ n hn]; rfl

theorem createFile_keeps (file : String × Templated) (s s1 : ArchitectureState)
    (h : createFile file s = .normal s1) :
    s1.data = s.data ∧ ∀ q, existsSync s.fs q = true → existsSync s1.fs q = true := by
  have hs := createFile_state file s
  rw [h] at hs
  exact ⟨hs.1, fun q hq => hs.2.2 _ hq⟩

theorem updateArchitecture_supports (s s1 : ArchitectureState)
    (h : updateArchitecture s = .normal s1) :
    Supports s1.fs s.fs s.data ∧ s1.data = s.data := by
  rw [updateArchitecture_eq] at h
  cases hd : seqAll createDirectory s.data.directoriesToCreate s with
  | throw err sm => rw [hd] at h; simp at h
  | normal sm =>
    rw [hd] at h
    simp only [] at h
    have hdata_m : sm.data = s.data :=
      seqAll_normal_keep (fun t => t.data = s.data) createDirectory
        (fun y t t1 ht hy => (createDirectory_keeps y t t1 hy).1.trans ht) _ s sm rfl hd
    have hgrow_m : ∀ q, existsSync s.fs q = true → existsSync sm.fs q = true :=
      seqAll_normal_keep (fun t => ∀ q, existsSync s.fs q = true → existsSync t.fs q = true)
        createDirectory
        (fun y t t1 ht hy q hq => (createDirectory_keeps y t t1 hy).2 q (ht q hq))
        _ s sm (fun _ hq => hq) hd
    have hdirs_m : ∀ q ∈ s.data.directoriesToCreate, existsSync sm.fs q = true :=
      seqAll_normal_each (fun q t => existsSync t.fs q = true) createDirectory
        (fun x t t1 hx => createDirectory_normal x t t1 hx)
        (fun x y t t1 hq hy => (createDirectory_keeps y t t1 hy).2 x hq) _ s sm hd
    have hdata_1 : s1.data = sm.data :=
      seqAll_normal_keep (fun t => t.data = sm.data) createFile
        (fun y t t1 ht hy => (createFile_keeps y t t1 hy).1.trans ht) _ sm s1 rfl h
    have hgrow_1 : ∀ q, existsSync sm.fs q = true → existsSync s1.fs q = true :=
      seqAll_normal_keep (fun t => ∀ q, existsSync sm.fs q = true → existsSync t.fs q = true)
        createFile
        (fun y t t1 ht hy q hq => (createFile_keeps y t t1 hy).2 q (ht q hq))
        _ sm s1 (fun _ hq => hq) h
    have hfiles_1 : ∀ file ∈ sm.data.filesToCreate, existsSync s1.fs file.1 = true :=
      seqAll_normal_each (fun file t => existsSync t.fs file.1 = true) createFile
        (fun x t t1 hx => createFile_normal x t t1 hx)
        (fun x y t t1 hq hy => (createFile_keeps y t t1 hy).2 x.1 hq) _ sm s1 h
    refine ⟨⟨fun q hq => hgrow_1 q (hgrow_m q hq), fun q hq => hgrow_1 q (hdirs_m q hq), ?_⟩,
      hdata_1.trans hdata_m⟩
    intro k hk
    simp only [fileKeys, List.mem_map] at hk
    obtain ⟨file, hfile, rfl⟩ := hk
    rw [← hdata_m] at hfile
    exact hfiles_1 file hfile

theorem updateArchitecture_frame (fs0 : FileSystem) (s : ArchitectureState)
    (hfs : s.fs = fs0) (hfresh : Fresh fs0 s.data) (key : List String) (n : FsNode)
    (hkey : fs0.nodeAt key = some n) :
    (updateArchitecture s).state.fs.nodeAt key = some n := by
  rw [updateArchitecture_eq]
  have hm := seqAll_state_inv
    (fun t => t.data = s.data ∧ ∀ key n, fs0.nodeAt key = some n → t.fs.nodeAt key = some n)
    createDirectory s.data.directoriesToCreate
    (fun x _ t ht =>
      ⟨(createDirectory_state x t).1.trans ht.1,
        fun key n hk => (createDirectory_state x t).2 key n (ht.2 key n hk)⟩)
    s ⟨rfl, fun key n hk => by rw [hfs]; exact hk⟩
  cases hd : seqAll createDirectory s.data.directoriesToCreate s with
  | throw err sm => rw [hd] at hm; exact hm.2 key n hkey
  | normal sm =>
    rw [hd] at hm
    simp only [Completion.state] at hm ⊢
    have h1 := seqAll_state_inv
      (fun t => ∀ key n, fs0.nodeAt key = some n → t.fs.nodeAt key = some n)
      createFile sm.data.filesToCreate
      (fun x hx t ht key n hk => by
        have hxk : x.1 ∈ fileKeys s.data := by
          rw [hm.1] at hx
          exact List.mem_map.mpr ⟨x, hx, rfl⟩
        have hno := hfresh.2.2 x.1 hxk
        have hne : key ≠ components x.1 := by
          intro heq
          rw [heq] at hk
          simp [existsSync, hk] at hno
        rw [(createFile_state x t).2.1 key hne]
        exact ht key n hk)
      sm hm.2
    exact h1 key n hkey

theorem updateArchitecture_nothing (s : ArchitectureState)
    (hd : s.data.directoriesToCreate = []) (hf : s.data.filesToCreate = []) :
    updateArchitecture s = .normal s := by
  simp [updateArchitecture, hd, hf]

/-! ## Architecture: reconciliation -/

theorem loadArchitecture_eq (fs : FileSystem) (base modules : List ArchitectureEntry) :
    loadArchitecture fs base modules
      = match readdirSync fs "./module" with
        | none =>
          .throw "ENOENT: no such file or directory, scandir './module'"
            { fs := fs, data := ArchitectureData.initial [], calls := [] }
        | some discovered =>
          match seqAll (scanStep fs) (architectureItems base modules discovered)
              (ArchitectureData.initial discovered) with
          | .throw err data1 => .throw err { fs := fs, data := data1, calls := [] }
          | .normal data1 =>
            match seqAll createDirectory data1.directoriesToCreate
                { fs := fs, data := data1, calls := [] } with
            | .normal s1 => seqAll createFile s1.data.filesToCreate s1
            | .throw err s1 => .throw err s1 := by
  unfold loadArchitecture
  cases readdirSync fs "./module" with
  | none => rfl
  | some discovered =>
    simp only [scanArchitecture_eq, ArchitectureData.initial]
    cases seqAll (scanStep fs) (architectureItems base modules discovered)
        { modules := discovered, directoriesToCreate := [], filesToCreate := [] } with
    | throw err d1 => rfl
    | normal d1 => simp only [updateArchitecture_eq]

/-- What a completed run of `#loadArchitecture` establishes. -/
theorem loadArchitecture_normal (fs0 : FileSystem) (base modules : List ArchitectureEntry)
    (s1 : ArchitectureState) (h : loadArchitecture fs0 base modules = .normal s1) :
    readdirSync fs0 "./module" = some s1.data.modules
      ∧ Supports s1.fs fs0 s1.data
      ∧ ∀ item ∈ architectureItems base modules s1.data.modules, Recorded fs0 s1.data item := by
  unfold loadArchitecture at h
  cases hr : readdirSync fs0 "./module" with
  | none => rw [hr] at h; simp at h
  | some discovered =>
    rw [hr] at h
    simp only [scanArchitecture_eq] at h
    cases hs : seqAll (scanStep fs0) (architectureItems base modules discovered)
        { modules := discovered, directoriesToCreate := [], filesToCreate := [] } with
    | throw err d1 => rw [hs] at h; simp at h
    | normal d1 =>
      rw [hs] at h
      simp only [] at h
      obtain ⟨hsup, hdata⟩ := updateArchitecture_supports _ s1 h
      simp only [] at hsup hdata
      have hmod : d1.modules = discovered := (scan_le fs0 _ _ d1 hs).2.2
      rw [hdata, hmod]
      exact ⟨rfl, hsup, scan_recorded fs0 _ _ d1 hs⟩

/-- C3, amended. If a run of `#loadArchitecture` completes and the module directories found
under `module/` are the same after it as before it, then a second run on the resulting file
system completes, records no directory and no file to create, calls neither `mkdirSync` nor
`writeFileSync`, and leaves the file system as the first run left it. -/
theorem loadArchitecture_idempotent (fs0 : FileSystem) (base modules : List ArchitectureEntry)
    (s1 : ArchitectureState) (h1 : loadArchitecture fs0 base modules = .normal s1)
    (hmods : readdirSync s1.fs "./module" = readdirSync fs0 "./module") :
    loadArchitecture s1.fs base modules
      = .normal
          { fs := s1.fs,
            data := { modules := s1.data.modules, directoriesToCreate := [],
                      filesToCreate := [] },
            calls := [] } := by
  obtain ⟨hr, hsup, hrec⟩ := loadArchitecture_normal fs0 base modules s1 h1
  unfold loadArchitecture
  rw [hmods, hr]
  simp only [scanArchitecture_eq]
  rw [scan_covered s1.fs _ _ (fun item hitem hpass =>
    covered_of_recorded fs0 s1.fs s1.data item (hrec item hitem) hsup
      (passes_mono fs0 s1.fs item hsup.1 hpass))]
  exact updateArchitecture_nothing _ rfl rfl

/-- C3, witness: the entry `cfg/x.txt` with content `hi` where `cfg/` is absent. The first
run calls `mkdirSync('./cfg')`, then `writeFileSync('./cfg/x.txt', 'hi')`; the second run
creates nothing. -/
theorem loadArchitecture_idempotent_witness :
    loadArchitecture Example.emptyProject Example.cfgTree []
        = .normal
            { fs := [(["module"], .directory), (["cfg"], .directory),
                     (["cfg", "x.txt"], .file "hi")],
              data := { modules := [], directoriesToCreate := ["./cfg"],
                        filesToCreate := [("./cfg/x.txt", .str "hi")] },
              calls := [.mkdir "./cfg", .writeFile "./cfg/x.txt" (.str "hi")] }
    ∧ loadArchitecture
          [(["module"], .directory), (["cfg"], .directory), (["cfg", "x.txt"], .file "hi")]
          Example.cfgTree []
        = .normal
            { fs := [(["module"], .directory), (["cfg"], .directory),
                     (["cfg", "x.txt"], .file "hi")],
              data := { modules := [], directoriesToCreate := [], filesToCreate := [] },
              calls := [] } := by
  have h1 : loadArchitecture Example.emptyProject Example.cfgTree []
      = .normal
          { fs := [(["module"], .directory), (["cfg"], .directory),
                   (["cfg", "x.txt"], .file "hi")],
            data := { modules := [], directoriesToCreate := ["./cfg"],
                      filesToCreate := [("./cfg/x.txt", .str "hi")] },
            calls := [.mkdir "./cfg", .writeFile "./cfg/x.txt" (.str "hi")] } := by
    rw [loadArchitecture_eq]; rfl
  exact ⟨h1, loadArchitecture_idempotent Example.emptyProject Example.cfgTree [] _ h1 rfl⟩

/-- C3, counterexample. With the base tree `module/Application` and the module tree
`plugins`, on a project whose `module/` directory is empty: the first run finds no module
and creates `module/Application`; the second run, on the file system the first run left,
finds the module `Application`, records `./module/Application/plugins` in
`directoriesToCreate` and calls `mkdirSync` on it. -/
theorem loadArchitecture_second_run_creates :
    loadArchitecture Example.emptyProject Example.applicationTree Example.pluginsTree
        = .normal
            { fs := [(["module"], .directory), (["module", "Application"], .directory)],
              data := { modules := [], directoriesToCreate := ["./module/Application"],
                        filesToCreate := [] },
              calls := [.mkdir "./module/Application"] }
    ∧ loadArchitecture [(["module"], .directory), (["module", "Application"], .directory)]
          Example.applicationTree Example.pluginsTree
        = .normal
            { fs := [(["module"], .directory), (["module", "Application"], .directory),
                     (["module", "Application", "plugins"], .directory)],
              data := { modules := ["Application"],
                        directoriesToCreate := ["./module/Application/plugins"],
                        filesToCreate := [] },
              calls := [.mkdir "./module/Application/plugins"] } := by
  constructor
  · rw [loadArchitecture_eq]; rfl
  · rw [loadArchitecture_eq]; rfl

theorem scanStep_state_fresh (fs : FileSystem) (item : ScanItem) (d : ArchitectureData)
    (hfresh : Fresh fs d) : Fresh fs (scanStep fs item d).state := by
  cases h : scanStep fs item d with
  | normal d1 => exact scanStep_fresh fs item d d1 hfresh h
  | throw err d1 =>
    have hd : d1 = d := by
      unfold scanStep at h
      split at h
      · cases hpath : item.path with
        | fn source f =>
          rw [hpath] at h
          simp only [verifyArchitecture, Completion.throw.injEq] at h
          exact h.2.symm
        | str p => rw [hpath, verifyArchitecture_str] at h; simp at h
      · simp at h
    rw [hd]
    exact hfresh

/-- C5. At the end of the scan (completed or interrupted by a throw), every path in
`directoriesToCreate` and every key of `filesToCreate` is a path that did not exist on the
scanned file system, and `directoriesToCreate` holds no path twice; and whatever
`#loadArchitecture` does afterwards, completed or not, every file that existed before has
the same content after it. -/
theorem loadArchitecture_creates_only_missing (fs0 : FileSystem)
    (base modules : List ArchitectureEntry) (discovered : List String) :
    (∀ q ∈ (scanArchitecture fs0 base modules
          (ArchitectureData.initial discovered)).state.directoriesToCreate,
        existsSync fs0 q = false)
    ∧ (∀ file ∈ (scanArchitecture fs0 base modules
          (ArchitectureData.initial discovered)).state.filesToCreate,
        existsSync fs0 file.1 = false)
    ∧ (scanArchitecture fs0 base modules
          (ArchitectureData.initial discovered)).state.directoriesToCreate.Nodup
    ∧ (∀ path content, readFile fs0 path = some content →
        readFile (loadArchitecture fs0 base modules).state.fs path = some content) := by
  have hinit : ∀ names, Fresh fs0 (ArchitectureData.initial names) := by
    intro names
    refine ⟨fun q hq => ?_, List.nodup_nil, fun k hk => ?_⟩
    · simp [ArchitectureData.initial] at hq
    · simp [ArchitectureData.initial, fileKeys] at hk
  have hscan : ∀ names, Fresh fs0
      (scanArchitecture fs0 base modules (ArchitectureData.initial names)).state := by
    intro names
    rw [scanArchitecture_eq]
    exact seqAll_state_inv (Fresh fs0) (scanStep fs0) _
      (fun item _ d hd => scanStep_state_fresh fs0 item d hd) _ (hinit names)
  refine ⟨(hscan discovered).1, ?_, (hscan discovered).2.1, ?_⟩
  · intro file hfile
    exact (hscan discovered).2.2 file.1 (List.mem_map.mpr ⟨file, hfile, rfl⟩)
  · intro path content hread
    have hnode : fs0.nodeAt (components path) = some (.file content) := by
      unfold readFile at hread
      split at hread
      · rename_i c hc
        simp only [Option.some.injEq] at hread
        rw [hc, hread]
      · simp at hread
    suffices hkeep : (loadArchitecture fs0 base modules).state.fs.nodeAt (components path)
        = some (.file content) by
      unfold readFile
      rw [hkeep]
    unfold loadArchitecture
    cases hr : readdirSync fs0 "./module" with
    | none => exact hnode
    | some names =>
      simp only []
      have hfresh := hscan names
      simp only [ArchitectureData.initial] at hfresh
      cases hs : scanArchitecture fs0 base modules
          { modules := names, directoriesToCreate := [], filesToCreate := [] } with
      | throw err d1 => exact hnode
      | normal d1 =>
        rw [hs] at hfresh
        exact updateArchitecture_frame fs0 _ rfl hfresh _ _ hnode

/-! ## Paths -/

theorem splitSlash_ne_nil (cs : List Char) : splitSlash cs ≠ [] := by
  cases cs with
  | nil => simp [splitSlash]
  | cons c rest =>
    simp only [splitSlash]
    split
    · simp
    · split <;> simp

theorem splitSlash_append_slash (a b : List Char) :
    splitSlash (a ++ '/' :: b) = splitSlash a ++ splitSlash b := by
  induction a with
  | nil => simp [splitSlash]
  | cons c rest ih =>
    rw [List.cons_append]
    simp only [splitSlash]
    rw [ih]
    by_cases hc : c = '/'
    · simp [hc]
    · simp only [hc, if_false]
      cases hr : splitSlash rest with
      | nil => exact absurd hr (splitSlash_ne_nil rest)
      | cons seg segs => simp

theorem splitSlash_free (cs seg : List Char) (h : seg ∈ splitSlash cs) : '/' ∉ seg := by
  induction cs generalizing seg with
  | nil =>
    simp only [splitSlash, List.mem_singleton] at h
    subst h
    simp
  | cons c rest ih =>
    simp only [splitSlash] at h
    by_cases hc : c = '/'
    · simp only [hc, if_true, List.mem_cons] at h
      rcases h with rfl | h
      · simp
      · exact ih seg h
    · simp only [hc, if_false] at h
      cases hr : splitSlash rest with
      | nil => exact absurd hr (splitSlash_ne_nil rest)
      | cons s1 segs =>
        rw [hr] at h ih
        simp only [List.mem_cons] at h
        rcases h with rfl | h
        · have := ih s1 (List.mem_cons_self _ _)
          simp only [List.mem_cons, not_or]
          exact ⟨fun heq => hc heq.symm, this⟩
        · exact ih seg (List.mem_cons_of_mem _ h)

theorem splitSlash_of_free (seg : List Char) (h : '/' ∉ seg) : splitSlash seg = [seg] := by
  induction seg with
  | nil => rfl
  | cons c rest ih =>
    simp only [List.mem_cons, not_or] at h
    have hc : c ≠ '/' := fun heq => h.1 heq.symm
    simp [splitSlash, hc, ih h.2]

theorem split_append_slash (a d : String) : split (a ++ "/" ++ d) = split a ++ split d := by
  unfold split
  have hdata : (a ++ "/" ++ d).data = a.data ++ '/' :: d.data := by
    simp [String.data_append]
  rw [hdata, splitSlash_append_slash, List.map_append]

theorem split_segment (p d : String) (h : d ∈ split p) : split d = [d] := by
  unfold split at h ⊢
  obtain ⟨seg, hseg, rfl⟩ := List.mem_map.mp h
  rw [splitSlash_of_free seg (splitSlash_free p.data seg hseg)]
  rfl

theorem split_joinPath (segs : List String) (acc : String)
    (h : ∀ d ∈ segs, split d = [d]) : split (joinPath segs acc) = split acc ++ segs := by
  induction segs generalizing acc with
  | nil => simp [joinPath]
  | cons d rest ih =>
    rw [joinPath, ih _ (fun x hx => h x (List.mem_cons_of_mem _ hx)), split_append_slash,
      h d (List.mem_cons_self _ _)]
    simp

theorem components_joinPath (segs : List String) (h : ∀ d ∈ segs, split d = [d]) :
    components (joinPath segs ".")
      = segs.filter (fun segment => segment != "" && segment != ".") := by
  unfold components
  rw [split_joinPath segs "." h]
  have hdot : split "." = ["."] := by decide
  rw [hdot]
  simp [List.filter_cons]

theorem joinPath_mem_dirPaths (segs : List String) (acc : String) (h : segs ≠ []) :
    joinPath segs acc ∈ dirPaths segs acc := by
  induction segs generalizing acc with
  | nil => exact absurd rfl h
  | cons d rest ih =>
    simp only [joinPath, dirPaths]
    cases rest with
    | nil => simp [joinPath]
    | cons d2 rest2 => exact List.mem_cons_of_mem _ (ih _ (by simp))

theorem joinPath_concat (segs : List String) (last acc : String) :
    joinPath (segs ++ [last]) acc = joinPath segs acc ++ "/" ++ last := by
  induction segs generalizing acc with
  | nil => rfl
  | cons d rest ih =>
    rw [List.cons_append]
    simp only [joinPath]
    exact ih _

theorem split_ne_nil (p : String) : split p ≠ [] := by
  unfold split
  simp [splitSlash_ne_nil]

/-- When every path that `verifyArchitecture` tests for an entry exists, the path of the
entry exists. -/
theorem existsSync_of_targets (fs : FileSystem) (p : String) (content : Option Templated)
    (hd : ∀ q ∈ dirTargets p content, existsSync fs q = true)
    (hf : ∀ k text, fileTarget p content = some (k, text) → existsSync fs k = true) :
    existsSync fs p = true := by
  have hseg : ∀ d ∈ split p, split d = [d] := fun d hd => split_segment p d hd
  have hwhole : components (joinPath (split p) ".") = components p := by
    rw [components_joinPath _ hseg]; rfl
  by_cases ht : Templated.truthy content = true
  · cases hc : content with
    | none => rw [hc] at ht; simp [Templated.truthy] at ht
    | some text =>
      cases hl : (split p).getLast? with
      | none => exact absurd (List.getLast?_eq_none_iff.mp hl) (split_ne_nil p)
      | some file =>
        have hsplit : (split p).dropLast ++ [file] = split p :=
          List.dropLast_append_getLast? file (by rw [hl]; exact rfl)
        by_cases hfile : file = ""
        · by_cases hdl : (split p).dropLast = []
          · have hcomp : components p = [] := by
              unfold components
              rw [← hsplit, hdl, hfile]
              rfl
            simp [existsSync, hcomp, FileSystem.nodeAt]
          · have hq := hd (joinPath (split p).dropLast ".") (by
              unfold dirTargets
              rw [if_pos ht]
              exact joinPath_mem_dirPaths _ _ hdl)
            have hcomp : components (joinPath (split p).dropLast ".") = components p := by
              rw [components_joinPath _ (fun d hd => hseg d (List.mem_of_mem_dropLast hd))]
              unfold components
              conv_rhs => rw [← hsplit, hfile]
              simp [List.filter_append]
            unfold existsSync at hq ⊢
            rw [← hcomp]; exact hq
        · have hk := hf (joinPath (split p).dropLast "." ++ "/" ++ file) text (by
            unfold fileTarget
            rw [hc] at ht
            simp [ht, hl, hc, hfile])
          rw [← joinPath_concat, hsplit] at hk
          unfold existsSync at hk ⊢
          rw [← hwhole]; exact hk
  · have hq := hd (joinPath (split p) ".") (by
      unfold dirTargets
      rw [if_neg ht]
      exact joinPath_mem_dirPaths _ _ (split_ne_nil p))
    unfold existsSync at hq ⊢
    rw [← hwhole]; exact hq

/-! ## Architecture: the declared layout -/

theorem baseItem_passes (fs : FileSystem) (e : EntryToCreate)
    (h : Templated.truthy e.requirePath = false
      ∨ ∃ r, e.requirePath = some r ∧ existsSyncValue fs r = false) :
    (baseItem e).passes fs = true := by
  unfold baseItem ScanItem.passes
  cases hr : e.requirePath with
  | none => rfl
  | some r =>
    cases r with
    | fn source f => rfl
    | str t =>
      by_cases ht : t = ""
      · simp [ht]
      · rcases h with h | ⟨r1, hr1, hex⟩
        · rw [hr] at h; simp [Templated.truthy, ht] at h
        · rw [hr] at hr1
          simp only [Option.some.injEq] at hr1
          subst hr1
          simpa [ht, existsSyncValue] using hex

theorem moduleItem_passes (fs : FileSystem) (m : String) (e : EntryToCreate)
    (h : Templated.truthy e.requirePath = false
      ∨ ∃ r, e.requirePath = some r
          ∧ existsSync fs ("module/" ++ m ++ "/" ++ r.toString) = false) :
    (moduleItem m e).passes fs = true := by
  unfold moduleItem ScanItem.passes
  cases hr : e.requirePath with
  | none => rfl
  | some r =>
    by_cases ht : Templated.truthy (some r) = true
    · rcases h with h | ⟨r1, hr1, hex⟩
      · rw [hr, ht] at h; simp at h
      · rw [hr] at hr1
        simp only [Option.some.injEq] at hr1
        subst hr1
        simpa [ht] using hex
    · simp [ht]

/-- C4, amended. After `#loadArchitecture` completes, every entry of the flattened base tree
whose `requirePath` (its own or, for a child without one, the path of its parent) is absent,
empty or did not exist before the run has a path that exists on disk; and for every
discovered module `m`, every entry of the flattened module tree whose `requirePath` is
absent, empty or did not exist under `module/m` before the run exists under `module/m`. -/
theorem loadArchitecture_layout (fs0 : FileSystem) (base modules : List ArchitectureEntry)
    (s1 : ArchitectureState) (h : loadArchitecture fs0 base modules = .normal s1) :
    (∀ e ∈ getEntriesToCreate base none,
        (Templated.truthy e.requirePath = false
          ∨ ∃ r, e.requirePath = some r ∧ existsSyncValue fs0 r = false) →
        ∃ p, e.path = .str p ∧ existsSync s1.fs p = true)
    ∧ (∀ m ∈ s1.data.modules, ∀ e ∈ getEntriesToCreate modules none,
        (Templated.truthy e.requirePath = false
          ∨ ∃ r, e.requirePath = some r
              ∧ existsSync fs0 ("module/" ++ m ++ "/" ++ r.toString) = false) →
        existsSync s1.fs ("module/" ++ m ++ "/" ++ e.path.resolve m) = true)
    ∧ readdirSync fs0 "./module" = some s1.data.modules := by
  obtain ⟨hr, hsup, hrec⟩ := loadArchitecture_normal fs0 base modules s1 h
  refine ⟨fun e he hguard => ?_, fun m hm e he hguard => ?_, hr⟩
  · have hmem : baseItem e ∈ architectureItems base modules s1.data.modules :=
      List.mem_append_left _ (List.mem_map.mpr ⟨e, he, rfl⟩)
    obtain ⟨p, hp, hd, hf⟩ := covered_of_recorded fs0 s1.fs s1.data _ (hrec _ hmem) hsup
      (baseItem_passes fs0 e hguard)
    exact ⟨p, hp, existsSync_of_targets s1.fs p _ hd hf⟩
  · have hmem : moduleItem m e ∈ architectureItems base modules s1.data.modules :=
      List.mem_append_right _
        (List.mem_flatMap.mpr ⟨m, hm, List.mem_map.mpr ⟨e, he, rfl⟩⟩)
    obtain ⟨p, hp, hd, hf⟩ := covered_of_recorded fs0 s1.fs s1.data _ (hrec _ hmem) hsup
      (moduleItem_passes fs0 m e hguard)
    simp only [moduleItem, Templated.str.injEq] at hp
    rw [hp]
    exact existsSync_of_targets s1.fs p _ hd hf

/-- C4, witness: on a project without `module/Application`, the base tree
`module/Application` with the child `config/local.js`; the child, whose `requirePath` is the
path of its parent, is created. -/
theorem loadArchitecture_layout_witness :
    ∃ p, Templated.str "module/Application/config/local.js" = .str p
      ∧ existsSync
          [(["module"], .directory), (["module", "Application"], .directory),
           (["module", "Application", "config"], .directory),
           (["module", "Application", "config", "local.js"], .file "export default 0")]
          p = true := by
  have h1 : loadArchitecture Example.emptyProject Example.localTree []
      = .normal
          { fs := [(["module"], .directory), (["module", "Application"], .directory),
                   (["module", "Application", "config"], .directory),
                   (["module", "Application", "config", "local.js"],
                     .file "export default 0")],
            data := { modules := [],
                      directoriesToCreate :=
                        ["./module/Application", "./module/Application/config"],
                      filesToCreate :=
                        [("./module/Application/config/local.js",
                          .str "export default 0")] },
            calls := [.mkdir "./module/Application", .mkdir "./module/Application/config",
                      .writeFile "./module/Application/config/local.js"
                        (.str "export default 0")] } := by
    rw [loadArchitecture_eq]; rfl
  exact (loadArchitecture_layout Example.emptyProject Example.localTree [] _ h1).1
    { path := .str "module/Application/config/local.js",
      content := some (.str "export default 0"),
      requirePath := some (.str "module/Application") }
    (by simp [Example.localTree, getEntriesToCreate, entriesOfEntry, childPath,
          childRequirePath, Templated.truthy, Templated.toString])
    (Or.inr ⟨.str "module/Application", rfl, by decide⟩)

/-- C4, counterexample. On a project whose directory `module/Application` exists and is
empty, with the base tree `module/Application` and its child file `config/local.js` (and no
module tree): `#loadArchitecture` completes without any call to the file system, and the
declared child `module/Application/config/local.js` does not exist afterwards. -/
theorem loadArchitecture_skips_child_of_existing_parent :
    (getEntriesToCreate Example.localTree none).map (fun e => e.path.toString)
        = ["module/Application", "module/Application/config/local.js"]
    ∧ loadArchitecture Example.bareApplication Example.localTree []
        = .normal
            { fs := Example.bareApplication,
              data := { modules := ["Application"], directoriesToCreate := [],
                        filesToCreate := [] },
              calls := [] }
    ∧ existsSync Example.bareApplication "module/Application/config/local.js" = false := by
  refine ⟨by decide, ?_, by decide⟩
  rw [loadArchitecture_eq]; rfl

/-! ## Routes -/

theorem emitRoute_calls {ω : Type} (obs : EventsObservers RouteEvent ω) (event : String)
    (data : RouteEvent) (s : RoutesState ω) :
    (emitRoute obs event data s).state.calls = s.calls := by
  unfold emitRoute
  cases emit obs event data s.world <;> rfl

theorem emitRoute_quiet {ω : Type} (obs : EventsObservers RouteEvent ω) (event : String)
    (hown : event ∉ objectPrototypeKeys)
    (h : QuietOn obs event) (data : RouteEvent) (s : RoutesState ω) :
    (emitRoute obs event data s).isNormal = true := by
  obtain ⟨w1, hw1⟩ := emit_quiet obs event hown h data s.world
  simp [emitRoute, hw1, Completion.bind, Completion.isNormal]

theorem callRouter_throw {ω : Type} (router : Router) (method : String)
    (args : List TransportArg) (s : RoutesState ω)
    (hret : ∀ m a, router.invoke m a = none)
    (h : (callRouter router method args s).isNormal = false) :
    (callRouter router method args s).state.calls = s.calls := by
  unfold callRouter at h ⊢
  split
  · rename_i hc; simp [hc, hret, Completion.isNormal] at h
  · rfl

theorem registerUse_throw {ω : Type} (router : Router) (route : Route)
    (middlewares : List JsValue) (s : RoutesState ω)
    (hret : ∀ m a, router.invoke m a = none)
    (h : (registerUse router route middlewares s).isNormal = false) :
    (registerUse router route middlewares s).state.calls = s.calls := by
  unfold registerUse at h ⊢
  cases hc : checkHandler route with
  | error err => rfl
  | ok u =>
    rw [hc] at h
    simp only [] at h ⊢
    split
    · rename_i hp
      rw [if_pos hp] at h
      exact callRouter_throw _ _ _ _ hret h
    · rename_i hp
      rw [if_neg hp] at h
      exact callRouter_throw _ _ _ _ hret h

theorem registerUse_no_handler {ω : Type} (router : Router) (route : Route)
    (middlewares : List JsValue) (s : RoutesState ω) (h : route.handler.truthy = false) :
    (registerUse router route middlewares s).isNormal = false
      ∧ (registerUse router route middlewares s).state.calls = s.calls := by
  simp [registerUse, checkHandler, h, Completion.isNormal, Completion.state]

theorem registerController_throw {ω : Type} (router : Router) (method : String)
    (route : Route) (middlewares : List JsValue) (s : RoutesState ω)
    (hret : ∀ m a, router.invoke m a = none)
    (h : (registerController router method route middlewares s).isNormal = false) :
    (registerController router method route middlewares s).state.calls = s.calls := by
  unfold registerController at h ⊢
  cases hc : checkController route with
  | error err => rfl
  | ok na =>
    rw [hc] at h
    exact callRouter_throw _ _ _ _ hret h

theorem checkController_ok (route : Route) (name action : String)
    (h : checkController route = .ok (name, action)) :
    ∃ members, route.controller = .klass name (.ok members)
      ∧ actionName route.action = some action ∧ (members action).typeof = "function" := by
  unfold checkController at h
  split at h
  · simp at h
  · split at h
    · simp at h
    · split at h
      · simp at h
      · split at h
        · simp at h
        · rename_i a ha
          split at h
          · simp at h
          · simp at h
          · rename_i cname members hcontroller
            split at h
            · simp at h
            · split at h
              · simp at h
              · rename_i hty
                simp only [Except.ok.injEq, Prod.mk.injEq] at h
                obtain ⟨rfl, rfl⟩ := h
                exact ⟨members, hcontroller, ha, by simpa using hty⟩

theorem registerController_no_action {ω : Type} (router : Router) (method : String)
    (route : Route) (middlewares : List JsValue) (s : RoutesState ω)
    (h : ∀ name members a, route.controller = .klass name (.ok members) →
      actionName route.action = some a → (members a).typeof ≠ "function") :
    (registerController router method route middlewares s).isNormal = false
      ∧ (registerController router method route middlewares s).state.calls = s.calls := by
  unfold registerController
  cases hc : checkController route with
  | error err => exact ⟨rfl, rfl⟩
  | ok na =>
    obtain ⟨name, action⟩ := na
    obtain ⟨members, h1, h2, h3⟩ := checkController_ok route name action hc
    exact absurd h3 (h name members action h1 h2)

theorem validateRoute_no_path (route : Route) (hm : route.method ≠ .string "use")
    (hp : route.path.truthy = false) : ∃ err, validateRoute route = .error err := by
  refine ⟨"Missing 'path' in route definition", ?_⟩
  simp [validateRoute, hm, hp]

theorem validateRoute_method (route : Route) (method : String) (ms : List JsValue)
    (h : validateRoute route = .ok (method, ms)) : route.method = .string method := by
  unfold validateRoute at h
  split at h
  · simp at h
  · split at h
    · simp at h
    · split at h
      · simp at h
      · split at h
        · rename_i m hm
          split at h
          · simp only [Except.ok.injEq, Prod.mk.injEq] at h
            rw [hm, h.1]
          · simp at h
          · cases hn : normaliseHooks route.path _ with
            | error e => rw [hn] at h; simp [Except.map] at h
            | ok vs =>
              rw [hn] at h
              simp only [Except.map, Except.ok.injEq, Prod.mk.injEq] at h
              rw [hm, h.1]
        · simp at h

/-- A throw of the registration of a route leaves the transport layer untouched, unless
it comes from the observers of `AFTER_ROUTE_LOADED` or from the method of the router, once
called. -/
theorem loadRoute_throw_calls {ω : Type} (obs : EventsObservers RouteEvent ω) (app : Router)
    (route : Route) (s : RoutesState ω)
    (hq : QuietOn obs "FoliaServerEvent_AFTER_ROUTE_LOADED")
    (hret : ∀ m a, (route.router.getD app).invoke m a = none)
    (h : (loadRoute obs app route s).isNormal = false) :
    (loadRoute obs app route s).state.calls = s.calls := by
  have hb := emitRoute_calls obs "FoliaServerEvent_BEFORE_ROUTE_LOADED" (.before route) s
  unfold loadRoute at h ⊢
  cases he : emitRoute obs "FoliaServerEvent_BEFORE_ROUTE_LOADED" (.before route) s with
  | throw err s1 => rw [he] at hb; exact hb
  | normal s1 =>
    rw [he] at hb h
    simp only [Completion.state] at hb
    simp only [Completion.bind, id] at h ⊢
    cases hv : validateRoute route with
    | error err => exact hb
    | ok mm =>
      obtain ⟨method, middlewares⟩ := mm
      rw [hv] at h
      simp only [] at h ⊢
      have hreg : (if method = "use" then
            registerUse (route.router.getD app) route middlewares s1
          else registerController (route.router.getD app) method route middlewares s1).isNormal
            = false →
          (if method = "use" then registerUse (route.router.getD app) route middlewares s1
          else registerController (route.router.getD app) method route middlewares
            s1).state.calls = s1.calls := by
        intro hn
        by_cases hu : method = "use"
        · simp only [hu, if_true] at hn ⊢
          exact registerUse_throw _ _ _ _ hret hn
        · simp only [hu, if_false] at hn ⊢
          exact registerController_throw _ _ _ _ _ hret hn
      cases hr : (if method = "use" then
          registerUse (route.router.getD app) route middlewares s1
        else registerController (route.router.getD app) method route middlewares s1) with
      | throw err s2 =>
        rw [hr] at hreg
        have := hreg rfl
        simp only [Completion.state] at this ⊢
        rw [this, hb]
      | normal s2 =>
        rw [hr] at h
        simp only [] at h
        rw [emitRoute_quiet obs _ (by decide) hq] at h
        simp at h

theorem loadRoute_reject {ω : Type} (obs : EventsObservers RouteEvent ω) (app : Router)
    (route : Route) (s : RoutesState ω)
    (hreg : ∀ method middlewares (s1 : RoutesState ω),
      validateRoute route = .ok (method, middlewares) →
      (if method = "use" then registerUse (route.router.getD app) route middlewares s1
        else registerController (route.router.getD app) method route middlewares
          s1).isNormal = false
      ∧ (if method = "use" then registerUse (route.router.getD app) route middlewares s1
        else registerController (route.router.getD app) method route middlewares
          s1).state.calls = s1.calls) :
    (loadRoute obs app route s).isNormal = false
      ∧ (loadRoute obs app route s).state.calls = s.calls := by
  have hb := emitRoute_calls obs "FoliaServerEvent_BEFORE_ROUTE_LOADED" (.before route) s
  unfold loadRoute
  cases he : emitRoute obs "FoliaServerEvent_BEFORE_ROUTE_LOADED" (.before route) s with
  | throw err s1 => rw [he] at hb; exact ⟨rfl, hb⟩
  | normal s1 =>
    rw [he] at hb
    simp only [Completion.state] at hb
    simp only [Completion.bind, id]
    cases hv : validateRoute route with
    | error err => exact ⟨rfl, hb⟩
    | ok mm =>
      obtain ⟨method, middlewares⟩ := mm
      simp only []
      obtain ⟨hn, hcalls⟩ := hreg method middlewares s1 hv
      cases hr : (if method = "use" then
          registerUse (route.router.getD app) route middlewares s1
        else registerController (route.router.getD app) method route middlewares s1) with
      | throw err s2 =>
        rw [hr] at hcalls
        simp only [Completion.state] at hcalls ⊢
        exact ⟨rfl, by rw [hcalls, hb]⟩
      | normal s2 => rw [hr] at hn; simp [Completion.isNormal] at hn

/-- C6, amended. Processing a route throws, with no call made to the transport layer for
it, (a) when its method is not `use` and its path is missing or empty, (b) when it is a `use`
route without handler, and (c) when its method is not `use` and its action does not name a
callable member of an instance of its controller; and whenever processing a route throws
on a server whose observers of `AFTER_ROUTE_LOADED` do not throw, with a router whose
methods return once called, no call was made to the transport layer for that route. -/
theorem loadRoute_rejects_before_transport {ω : Type} (obs : EventsObservers RouteEvent ω)
    (app : Router) (route : Route) (s : RoutesState ω) :
    (route.method ≠ .string "use" → route.path.truthy = false →
        (loadRoute obs app route s).isNormal = false
          ∧ (loadRoute obs app route s).state.calls = s.calls)
    ∧ (route.method = .string "use" → route.handler.truthy = false →
        (loadRoute obs app route s).isNormal = false
          ∧ (loadRoute obs app route s).state.calls = s.calls)
    ∧ (route.method ≠ .string "use" →
        (∀ name members a, route.controller = .klass name (.ok members) →
          actionName route.action = some a → (members a).typeof ≠ "function") →
        (loadRoute obs app route s).isNormal = false
          ∧ (loadRoute obs app route s).state.calls = s.calls)
    ∧ (QuietOn obs "FoliaServerEvent_AFTER_ROUTE_LOADED" →
        (∀ method args, (route.router.getD app).invoke method args = none) →
        (loadRoute obs app route s).isNormal = false →
        (loadRoute obs app route s).state.calls = s.calls) := by
  refine ⟨fun hm hp => ?_, fun hm hh => ?_, fun hm ha => ?_,
    fun hq hret h => loadRoute_throw_calls obs app route s hq hret h⟩
  · apply loadRoute_reject
    intro method middlewares s1 hv
    obtain ⟨err, herr⟩ := validateRoute_no_path route hm hp
    rw [herr] at hv
    simp at hv
  · apply loadRoute_reject
    intro method middlewares s1 hv
    have hmeth := validateRoute_method route method middlewares hv
    rw [hm] at hmeth
    simp only [JsValue.string.injEq] at hmeth
    rw [← hmeth]
    simp only [if_true]
    exact registerUse_no_handler _ _ _ _ hh
  · apply loadRoute_reject
    intro method middlewares s1 hv
    have hmeth := validateRoute_method route method middlewares hv
    have hne : method ≠ "use" := by
      intro hu
      rw [hu] at hmeth
      exact hm hmeth
    simp only [hne, if_false]
    exact registerController_no_action _ _ _ _ _ ha

/-- C6, witness: the route `GET /items` with action `list` on a controller without `list`
is rejected and nothing is registered. -/
theorem loadRoute_rejects_before_transport_witness :
    (loadRoute (EventsObservers.empty : EventsObservers RouteEvent Unit) Example.app
        Example.itemsRoute { calls := [], world := () }).isNormal = false
      ∧ (loadRoute (EventsObservers.empty : EventsObservers RouteEvent Unit) Example.app
        Example.itemsRoute { calls := [], world := () }).state.calls = [] :=
  (loadRoute_rejects_before_transport EventsObservers.empty Example.app Example.itemsRoute
    { calls := [], world := () }).2.2.1 (by decide)
    (by
      intro name members a hc ha
      simp only [Example.itemsRoute, ControllerField.klass.injEq, Except.ok.injEq] at hc
      rw [← hc.2]
      simp [JsValue.typeof])

/-- C6, counterexample. A valid `use` route is registered, `router.use(handler)` is
called, and then an observer of `AFTER_ROUTE_LOADED` throws: processing the route throws
although the transport layer was called for it. And on a router that rejects a middleware
that is not a function, the route `GET /posts` whose middleware is the number 5 passes the
validation, `router.get` is called with it and throws: processing the route throws, without
any observer, although the transport layer was called for it. -/
theorem loadRoute_throws_after_transport_call :
    loadRoute
        (FoliaServer.on EventsObservers.empty "FoliaServerEvent_AFTER_ROUTE_LOADED"
          Example.failing).state
        Example.app Example.useRoute { calls := [], world := () }
      = .throw "observer failed"
          { calls := [{ router := "app", method := "use",
                        args := [.handler (.function "handler")] }],
            world := () }
    ∧ loadRoute (EventsObservers.empty : EventsObservers RouteEvent Unit) Example.strictApp
        Example.numberHookRoute Example.noRoutes
      = .throw "Error: Route.get() requires a callback function"
          { calls := [{ router := "app", method := "get",
                        args := [.path (.string "/posts"), .middlewares [.number 5],
                                 .dispatch "Posts" "list"] }],
            world := () } := by
  exact ⟨rfl, rfl⟩

/-! ## Request dispatch -/

/-- C7, amended. The handler interprets the value `r` of `reqData.response` as follows. If
`r` is falsy (never assigned, `undefined`, `null`, `false`, `0`, `NaN`, the empty string) it
calls `res.status(204).send()` and nothing else. If `r` is truthy and its `send` member is a
function then, once the observers of `BEFORE_RESPONSE_SENT` have run without throwing, it
calls `r.prepare(reqData)` when `prepare` is a function and, `prepare` not throwing, then
`r.send(res)`, each once, before it emits `AFTER_RESPONSE_SENT`. For any other truthy `r` it
calls `res.send(r)` and nothing else. -/
theorem handleResponse_by_value {ω : Type} (obs : EventsObservers RouteData ω)
    (request : Request) (s : DispatchState ω) :
    ((∀ r, s.data.response = some r → r.truthy = false) →
        handleResponse obs request s = transportSend request (.status204 request.id) s)
    ∧ (∀ sendThrows prepare s1,
        s.data.response = some (.protocol (.method sendThrows) prepare) →
        emitReq obs "FoliaServerEvent_BEFORE_RESPONSE_SENT" s = .normal s1 →
        (∀ err, prepare ≠ .method (some err)) →
        handleResponse obs request s
          = match sendThrows with
            | none =>
              emitReq obs "FoliaServerEvent_AFTER_RESPONSE_SENT"
                { s1 with
                  trace := s1.trace ++ prepareCalls request prepare ++ [.send request.id] }
            | some err =>
              .throw ("Error while sending response ! At route " ++ s1.data.path)
                { s1 with
                  trace := s1.trace ++ prepareCalls request prepare
                    ++ [.send request.id, .consoleError err] })
    ∧ (∀ r, s.data.response = some r → r.truthy = true →
        (∀ sendThrows prepare, r ≠ .protocol (.method sendThrows) prepare) →
        handleResponse obs request s = transportSend request (.resSend request.id r) s) := by
  refine ⟨fun h => ?_, fun sendThrows prepare s1 hr hemit hprep => ?_, fun r hr ht hne => ?_⟩
  · unfold handleResponse
    cases hr : s.data.response with
    | none => rfl
    | some r => simp [h r hr]
  · unfold handleResponse
    rw [hr]
    simp only [Response.truthy, Bool.not_true, Bool.false_eq_true, if_false, hemit,
      Completion.bind, id]
    cases prepare with
    | absent => cases sendThrows <;> simp [sendProtocol, prepareCalls]
    | notCallable => cases sendThrows <;> simp [sendProtocol, prepareCalls]
    | method throws =>
      cases throws with
      | some err => exact absurd rfl (hprep err)
      | none => cases sendThrows <;> simp [sendProtocol, prepareCalls]
  · unfold handleResponse
    rw [hr]
    cases r with
    | value v => simp [ht]
    | protocol send prepare =>
      cases send with
      | absent => simp [ht]
      | notCallable => simp [ht]
      | method throws => exact absurd rfl (hne throws prepare)

/-- C7, counterexample. For the values `0`, `false`, the empty string and `null` the
handler calls `res.status(204).send()`, not `res.send(r)`; when `prepare` throws, `send` is
not called; and when an observer of `BEFORE_RESPONSE_SENT` throws, neither `prepare` nor
`send` is called. -/
theorem handleResponse_falsy_values_get_204 :
    (∀ v ∈ [JsValue.number 0, .bool false, .string "", .null],
        handleResponse EventsObservers.empty (Example.returning (.value v))
            (Example.responding (some (.value v)))
          = .normal { Example.responding (some (.value v)) with trace := [.status204 1] })
    ∧ (handleResponse EventsObservers.empty
          (Example.returning (.protocol (.method none) (.method (some "prepare failed"))))
          (Example.responding
            (some (.protocol (.method none) (.method (some "prepare failed")))))).state.trace
        = [.emitted "FoliaServerEvent_BEFORE_RESPONSE_SENT", .prepare 1,
           .consoleError "prepare failed"]
    ∧ (handleResponse
          (FoliaServer.on EventsObservers.empty "FoliaServerEvent_BEFORE_RESPONSE_SENT"
            Example.failing).state
          (Example.returning (.protocol (.method none) (.method none)))
          (Example.responding (some (.protocol (.method none) (.method none))))).state.trace
        = [.emitted "FoliaServerEvent_BEFORE_RESPONSE_SENT"] := by
  refine ⟨?_, rfl, rfl⟩
  intro v hv
  simp only [List.mem_cons, List.mem_singleton, List.not_mem_nil, or_false] at hv
  rcases hv with rfl | rfl | rfl | rfl <;> rfl

theorem emittedEvents_append (a b : List Effect) :
    emittedEvents (a ++ b) = emittedEvents a ++ emittedEvents b := by
  induction a with
  | nil => rfl
  | cons e rest ih =>
    cases e <;> simp [emittedEvents, ih]

theorem emitReq_state {ω : Type} (obs : EventsObservers RouteData ω) (event : String)
    (s : DispatchState ω) :
    (emitReq obs event s).state.trace = s.trace ++ [.emitted event]
      ∧ (emitReq obs event s).state.data = s.data := by
  unfold emitReq
  cases emit obs event s.data s.world <;> exact ⟨rfl, rfl⟩

theorem emitReq_quiet {ω : Type} (obs : EventsObservers RouteData ω) (event : String)
    (hown : event ∉ objectPrototypeKeys)
    (h : QuietOn obs event) (s : DispatchState ω) :
    ∃ w, emitReq obs event s
      = .normal { s with trace := s.trace ++ [.emitted event], world := w } := by
  obtain ⟨w1, hw1⟩ := emit_quiet obs event hown h s.data s.world
  exact ⟨w1, by simp [emitReq, hw1, Completion.bind]⟩

theorem emitsWithin_of_same {ω : Type} (c : Completion (DispatchState ω))
    (s : DispatchState ω) (within : List String)
    (h : emittedEvents c.state.trace = emittedEvents s.trace) : EmitsWithin c s within :=
  ⟨[], by simp [h], List.nil_sublist _⟩

theorem emitsWithin_emitReq {ω : Type} (obs : EventsObservers RouteData ω) (event : String)
    (s1 s : DispatchState ω) (h : emittedEvents s1.trace = emittedEvents s.trace) :
    EmitsWithin (emitReq obs event s1) s [event] := by
  refine ⟨[event], ?_, List.Sublist.refl _⟩
  rw [(emitReq_state obs event s1).1, emittedEvents_append, h]
  rfl

theorem emitsWithin_weaken {ω : Type} (c : Completion (DispatchState ω))
    (s : DispatchState ω) (l1 l2 : List String) (h : EmitsWithin c s l1)
    (hsub : l1.Sublist l2) : EmitsWithin c s l2 := by
  obtain ⟨events, he, hs⟩ := h
  exact ⟨events, he, hs.trans hsub⟩

theorem emitsWithin_bind {ω : Type} (c : Completion (DispatchState ω))
    (k : DispatchState ω → Completion (DispatchState ω)) (s : DispatchState ω)
    (l1 l2 : List String) (h1 : EmitsWithin c s l1)
    (h2 : ∀ s1, c = .normal s1 → EmitsWithin (k s1) s1 l2) :
    EmitsWithin (c.bind id k) s (l1 ++ l2) := by
  cases hc : c with
  | throw err s1 =>
    rw [hc] at h1
    exact emitsWithin_weaken _ s l1 _ h1 (List.sublist_append_left l1 l2)
  | normal s1 =>
    rw [hc] at h1
    obtain ⟨e1, he1, hs1⟩ := h1
    obtain ⟨e2, he2, hs2⟩ := h2 s1 hc
    simp only [Completion.state] at he1
    refine ⟨e1 ++ e2, ?_, List.Sublist.append hs1 hs2⟩
    simp only [Completion.bind]
    rw [he2, he1, List.append_assoc]

theorem emittedEvents_snoc_silent (trace : List Effect) (e : Effect)
    (h : emittedEvents [e] = []) : emittedEvents (trace ++ [e]) = emittedEvents trace := by
  rw [emittedEvents_append, h, List.append_nil]

theorem initController_emits {ω : Type} (obs : EventsObservers RouteData ω)
    (request : Request) (s : DispatchState ω) :
    EmitsWithin (initController obs request s) s
      ["FoliaServerEvent_BEFORE_CONTROLLER_INIT", "FoliaServerEvent_AFTER_CONTROLLER_INIT"] := by
  unfold initController
  apply emitsWithin_bind _ _ s ["FoliaServerEvent_BEFORE_CONTROLLER_INIT"]
    ["FoliaServerEvent_AFTER_CONTROLLER_INIT"] (emitsWithin_emitReq obs _ s s rfl)
  intro s1 _
  cases request.construct with
  | some err =>
    exact emitsWithin_of_same _ s1 _ (emittedEvents_snoc_silent _ _ rfl)
  | none =>
    exact emitsWithin_emitReq obs _ _ s1 (emittedEvents_snoc_silent _ _ rfl)

theorem runAction_emits {ω : Type} (obs : EventsObservers RouteData ω)
    (request : Request) (s : DispatchState ω) :
    EmitsWithin (runAction obs request s) s
      ["FoliaServerEvent_BEFORE_ACTION", "FoliaServerEvent_AFTER_ACTION"] := by
  unfold runAction
  apply emitsWithin_bind _ _ s ["FoliaServerEvent_BEFORE_ACTION"]
    ["FoliaServerEvent_AFTER_ACTION"] (emitsWithin_emitReq obs _ s s rfl)
  intro s1 _
  cases request.action with
  | error err => exact emitsWithin_of_same _ s1 _ (emittedEvents_snoc_silent _ _ rfl)
  | ok r =>
    simp only []
    cases request.early with
    | unset => exact emitsWithin_emitReq obs _ _ s1 (emittedEvents_snoc_silent _ _ rfl)
    | value v =>
      simp only []
      split
      · exact emitsWithin_emitReq obs _ _ s1 (emittedEvents_snoc_silent _ _ rfl)
      · exact emitsWithin_emitReq obs _ _ s1 (emittedEvents_snoc_silent _ _ rfl)
    | promise outcome =>
      cases outcome with
      | error err => exact emitsWithin_of_same _ s1 _ (emittedEvents_snoc_silent _ _ rfl)
      | ok v => exact emitsWithin_emitReq obs _ _ s1 (emittedEvents_snoc_silent _ _ rfl)

theorem transportSend_events {ω : Type} (request : Request) (effect : Effect)
    (s : DispatchState ω) (h : emittedEvents [effect] = []) :
    emittedEvents (transportSend request effect s).state.trace = emittedEvents s.trace := by
  unfold transportSend
  cases request.transport <;> exact emittedEvents_snoc_silent _ _ h

theorem sendProtocol_events {ω : Type} (request : Request) (sendThrows : Option String)
    (prepare : Member) (s : DispatchState ω) :
    emittedEvents (sendProtocol request sendThrows prepare s).state.trace
      = emittedEvents s.trace := by
  unfold sendProtocol
  cases prepare with
  | absent => cases sendThrows <;> simp [Completion.state, emittedEvents_append, emittedEvents]
  | notCallable =>
    cases sendThrows <;> simp [Completion.state, emittedEvents_append, emittedEvents]
  | method throws =>
    cases throws <;> cases sendThrows <;>
      simp [Completion.state, emittedEvents_append, emittedEvents]

theorem handleResponse_emits {ω : Type} (obs : EventsObservers RouteData ω)
    (request : Request) (s : DispatchState ω) :
    EmitsWithin (handleResponse obs request s) s
      ["FoliaServerEvent_BEFORE_RESPONSE_SENT", "FoliaServerEvent_AFTER_RESPONSE_SENT"] := by
  unfold handleResponse
  cases s.data.response with
  | none => exact emitsWithin_of_same _ s _ (transportSend_events _ _ _ rfl)
  | some r =>
    simp only []
    split
    · exact emitsWithin_of_same _ s _ (transportSend_events _ _ _ rfl)
    · split
      · rename_i sendThrows prepare hcond
        apply emitsWithin_bind _ _ s ["FoliaServerEvent_BEFORE_RESPONSE_SENT"]
          ["FoliaServerEvent_AFTER_RESPONSE_SENT"] (emitsWithin_emitReq obs _ s s rfl)
        intro s1 _
        have hsp := sendProtocol_events request sendThrows prepare s1
        cases hc : sendProtocol request sendThrows prepare s1 with
        | throw err s2 =>
          rw [hc] at hsp
          exact emitsWithin_of_same _ s1 _ hsp
        | normal s2 =>
          rw [hc] at hsp
          exact emitsWithin_emitReq obs _ s2 s1 hsp
      · exact emitsWithin_of_same _ s _ (transportSend_events _ _ _ rfl)

theorem tryBody_emits {ω : Type} (obs : EventsObservers RouteData ω)
    (request : Request) (s : DispatchState ω) :
    EmitsWithin (tryBody obs request s) s
      ["FoliaServerEvent_BEFORE_CONTROLLER_INIT", "FoliaServerEvent_AFTER_CONTROLLER_INIT",
       "FoliaServerEvent_BEFORE_ACTION", "FoliaServerEvent_AFTER_ACTION",
       "FoliaServerEvent_BEFORE_RESPONSE_SENT", "FoliaServerEvent_AFTER_RESPONSE_SENT"] := by
  unfold tryBody
  apply emitsWithin_bind _ _ s
    ["FoliaServerEvent_BEFORE_CONTROLLER_INIT", "FoliaServerEvent_AFTER_CONTROLLER_INIT"]
    ["FoliaServerEvent_BEFORE_ACTION", "FoliaServerEvent_AFTER_ACTION",
     "FoliaServerEvent_BEFORE_RESPONSE_SENT", "FoliaServerEvent_AFTER_RESPONSE_SENT"]
    (initController_emits obs request s)
  intro s1 _
  exact emitsWithin_bind _ _ s1
    ["FoliaServerEvent_BEFORE_ACTION", "FoliaServerEvent_AFTER_ACTION"]
    ["FoliaServerEvent_BEFORE_RESPONSE_SENT", "FoliaServerEvent_AFTER_RESPONSE_SENT"]
    (runAction_emits obs request s1) (fun s2 _ => handleResponse_emits obs request s2)

/-- The events of a request whose observers of `ON_REQUEST_START` and `ON_REQUEST_END` do
not throw: the start event, events of the six stages in between, the end event. -/
theorem dispatch_events_shape {ω : Type} (obs : EventsObservers RouteData ω)
    (hstart : QuietOn obs "FoliaServerEvent_ON_REQUEST_START")
    (hend : QuietOn obs "FoliaServerEvent_ON_REQUEST_END")
    (request : Request) (s : DispatchState ω) :
    (dispatch obs request s).isNormal = true
      ∧ ∃ middle, emittedEvents (dispatch obs request s).state.trace
          = emittedEvents s.trace
            ++ ("FoliaServerEvent_ON_REQUEST_START" :: (middle
              ++ ["FoliaServerEvent_ON_REQUEST_END"]))
        ∧ middle.Sublist
            ["FoliaServerEvent_BEFORE_CONTROLLER_INIT", "FoliaServerEvent_AFTER_CONTROLLER_INIT",
             "FoliaServerEvent_BEFORE_ACTION", "FoliaServerEvent_AFTER_ACTION",
             "FoliaServerEvent_BEFORE_RESPONSE_SENT", "FoliaServerEvent_AFTER_RESPONSE_SENT"] := by
  unfold dispatch
  obtain ⟨w1, h1⟩ := emitReq_quiet obs _ (by decide) hstart
    { s with data := { s.data with req := some request.id, res := some request.id,
                                   next := some request.id } }
  rw [h1]
  simp only [Completion.bind, id]
  obtain ⟨middle, hmid, hsub⟩ := tryBody_emits obs request
    { data := { s.data with req := some request.id, res := some request.id,
                            next := some request.id },
      trace := s.trace ++ [.emitted "FoliaServerEvent_ON_REQUEST_START"], world := w1 }
  simp only [emittedEvents_append] at hmid
  unfold tryBlock
  cases hb : tryBody obs request
      { data := { s.data with req := some request.id, res := some request.id,
                              next := some request.id },
        trace := s.trace ++ [.emitted "FoliaServerEvent_ON_REQUEST_START"], world := w1 } with
  | normal s2 =>
    rw [hb] at hmid
    simp only [Completion.state] at hmid
    obtain ⟨w2, h2⟩ := emitReq_quiet obs _ (by decide) hend s2
    simp only [Completion.bind, id, h2]
    refine ⟨rfl, middle, ?_, hsub⟩
    simp only [Completion.state, emittedEvents_append, hmid]
    simp [emittedEvents]
  | throw err s2 =>
    rw [hb] at hmid
    simp only [Completion.state] at hmid
    simp only [Completion.bind, id, catchBlock]
    obtain ⟨w2, h2⟩ := emitReq_quiet obs _ (by decide) hend
      { s2 with trace := s2.trace ++ [.consoleError err] }
    rw [h2]
    refine ⟨rfl, middle, ?_, hsub⟩
    simp only [Completion.state, emittedEvents_append, hmid]
    simp [emittedEvents]

/-- C9, amended. For every request on which no observer of `ON_REQUEST_START` and no
observer of `ON_REQUEST_END` throws, whatever else throws, the handler completes and the
lifecycle events it emits form a subsequence of the fixed order that begins with
`ON_REQUEST_START` and ends with `ON_REQUEST_END`, each event at most once and
`ON_REQUEST_END` exactly once. -/
theorem dispatch_event_order {ω : Type} (obs : EventsObservers RouteData ω)
    (hstart : QuietOn obs "FoliaServerEvent_ON_REQUEST_START")
    (hend : QuietOn obs "FoliaServerEvent_ON_REQUEST_END")
    (request : Request) (s : DispatchState ω) :
    (dispatch obs request s).isNormal = true
      ∧ ∃ events, emittedEvents (dispatch obs request s).state.trace
          = emittedEvents s.trace ++ events
        ∧ events.Sublist requestEvents
        ∧ events.head? = some "FoliaServerEvent_ON_REQUEST_START"
        ∧ events.getLast? = some "FoliaServerEvent_ON_REQUEST_END"
        ∧ events.Nodup
        ∧ events.count "FoliaServerEvent_ON_REQUEST_END" = 1 := by
  obtain ⟨hnormal, middle, hevents, hsub⟩ := dispatch_events_shape obs hstart hend request s
  have hall : ("FoliaServerEvent_ON_REQUEST_START" :: (middle
      ++ ["FoliaServerEvent_ON_REQUEST_END"])).Sublist requestEvents :=
    List.Sublist.cons₂ _ (List.Sublist.append hsub (List.Sublist.refl _))
  have hnodup : ("FoliaServerEvent_ON_REQUEST_START" :: (middle
      ++ ["FoliaServerEvent_ON_REQUEST_END"])).Nodup :=
    List.Sublist.nodup hall (by decide)
  refine ⟨hnormal, _, hevents, hall, rfl, ?_, hnodup, ?_⟩
  · rw [← List.cons_append, List.getLast?_concat]
  · exact List.count_eq_one_of_mem hnodup (by simp)

theorem quietOn_empty {δ ω : Type} (event : String) :
    QuietOn (EventsObservers.empty : EventsObservers δ ω) event := by
  intro callbacks h
  simp [EventsObservers.empty] at h

/-- C9, witness: on a bus without observers, a request whose action returns nothing. -/
theorem dispatch_event_order_witness :
    (dispatch EventsObservers.empty (Example.returning (.value .undefined))
        Example.idle).isNormal = true
      ∧ ∃ events, emittedEvents (dispatch EventsObservers.empty
            (Example.returning (.value .undefined)) Example.idle).state.trace
          = emittedEvents Example.idle.trace ++ events
        ∧ events.Sublist requestEvents
        ∧ events.head? = some "FoliaServerEvent_ON_REQUEST_START"
        ∧ events.getLast? = some "FoliaServerEvent_ON_REQUEST_END"
        ∧ events.Nodup
        ∧ events.count "FoliaServerEvent_ON_REQUEST_END" = 1 :=
  dispatch_event_order EventsObservers.empty (quietOn_empty _) (quietOn_empty _)
    (Example.returning (.value .undefined)) Example.idle

/-- C9, counterexample. When an observer of `ON_REQUEST_END` throws on a request that
succeeded, the emission at the end of the `try` block throws into the `catch` block, which
emits `ON_REQUEST_END` again: the event is emitted twice and the handler rejects. When an
observer of `ON_REQUEST_START` throws, the handler rejects at once and `ON_REQUEST_END` is
never emitted. -/
theorem dispatch_end_emitted_twice :
    emittedEvents (dispatch
        (FoliaServer.on EventsObservers.empty "FoliaServerEvent_ON_REQUEST_END" Example.failing).state
        (Example.returning (.value .undefined)) Example.idle).state.trace
      = ["FoliaServerEvent_ON_REQUEST_START", "FoliaServerEvent_BEFORE_CONTROLLER_INIT",
         "FoliaServerEvent_AFTER_CONTROLLER_INIT", "FoliaServerEvent_BEFORE_ACTION",
         "FoliaServerEvent_AFTER_ACTION", "FoliaServerEvent_ON_REQUEST_END",
         "FoliaServerEvent_ON_REQUEST_END"]
    ∧ emittedEvents (dispatch
        (FoliaServer.on EventsObservers.empty "FoliaServerEvent_ON_REQUEST_START"
          Example.failing).state
        (Example.returning (.value .undefined)) Example.idle).state.trace
      = ["FoliaServerEvent_ON_REQUEST_START"]
    ∧ (dispatch
        (FoliaServer.on EventsObservers.empty "FoliaServerEvent_ON_REQUEST_START"
          Example.failing).state
        (Example.returning (.value .undefined)) Example.idle).isNormal = false := by
  refine ⟨by rfl, by rfl, by rfl⟩

theorem emitReq_quiet_eq {ω : Type} (obs : EventsObservers RouteData ω) (event : String)
    (hown : event ∉ objectPrototypeKeys)
    (h : QuietOn obs event) (s : DispatchState ω) :
    emitReq obs event s
      = .normal { s with trace := s.trace ++ [.emitted event],
                         world := (emit obs event s.data s.world).state } := by
  obtain ⟨w1, hw1⟩ := emit_quiet obs event hown h s.data s.world
  simp [emitReq, hw1, Completion.bind, Completion.state]

theorem completion_eta {σ : Type} (c : Completion σ) :
    c = match c.error? with
        | none => .normal c.state
        | some err => .throw err c.state := by
  cases c <;> rfl

/-- The action step when the observers of `BEFORE_ACTION` do not throw, nor those of
`AFTER_ACTION` when the action step yields a response. -/
theorem runAction_quiet {ω : Type} (obs : EventsObservers RouteData ω)
    (request : Request) (s : DispatchState ω)
    (hba : QuietOn obs "FoliaServerEvent_BEFORE_ACTION")
    (haa : (∃ r, request.resolved = .ok r) → QuietOn obs "FoliaServerEvent_AFTER_ACTION") :
    (runAction obs request s).state.data.path = s.data.path
    ∧ (runAction obs request s).state.data.action = s.data.action
    ∧ match request.resolved with
      | .error err =>
        (runAction obs request s).error? = some err
          ∧ (runAction obs request s).state.trace
            = s.trace ++ [.emitted "FoliaServerEvent_BEFORE_ACTION",
                .action s.data.action request.id]
      | .ok r =>
        (runAction obs request s).error? = none
          ∧ (runAction obs request s).state.data.response = some r
          ∧ (runAction obs request s).state.trace
            = s.trace ++ [.emitted "FoliaServerEvent_BEFORE_ACTION",
                .action s.data.action request.id,
                .emitted "FoliaServerEvent_AFTER_ACTION"] := by
  have e1 := emitReq_quiet_eq obs _ (by decide) hba
  unfold Request.resolved runAction
  simp only [e1, Completion.bind, id]
  cases ha : request.action with
  | error e => simp [Completion.state, Completion.error?]
  | ok r0 =>
    simp only []
    cases he : request.early with
    | unset =>
      have e2 := emitReq_quiet_eq obs _ (by decide) (haa ⟨r0, by simp [Request.resolved, ha, he]⟩)
      simp [e2, Completion.state, Completion.error?]
    | value v =>
      by_cases hv : v.truthy = true
      · have e2 := emitReq_quiet_eq obs _ (by decide) (haa ⟨v, by simp [Request.resolved, ha, he, hv]⟩)
        simp [hv, e2, Completion.state, Completion.error?]
      · have e2 := emitReq_quiet_eq obs _ (by decide) (haa ⟨r0, by simp [Request.resolved, ha, he, hv]⟩)
        simp [hv, e2, Completion.state, Completion.error?]
    | promise outcome =>
      cases outcome with
      | error e => simp [Completion.state, Completion.error?]
      | ok v =>
        have e2 := emitReq_quiet_eq obs _ (by decide) (haa ⟨v, by simp [Request.resolved, ha, he]⟩)
        simp [e2, Completion.state, Completion.error?]

/-- The response step when the observers of the events it emits do not throw. -/
theorem handleResponse_quiet {ω : Type} (obs : EventsObservers RouteData ω)
    (request : Request) (s : DispatchState ω) (r : Response)
    (hr : s.data.response = some r)
    (hb : .emitted "FoliaServerEvent_BEFORE_RESPONSE_SENT"
        ∈ (responseScript request s.data.path r).1 →
      QuietOn obs "FoliaServerEvent_BEFORE_RESPONSE_SENT")
    (ha : .emitted "FoliaServerEvent_AFTER_RESPONSE_SENT"
        ∈ (responseScript request s.data.path r).1 →
      QuietOn obs "FoliaServerEvent_AFTER_RESPONSE_SENT") :
    (handleResponse obs request s).error? = (responseScript request s.data.path r).2
      ∧ (handleResponse obs request s).state.trace
        = s.trace ++ (responseScript request s.data.path r).1 := by
  unfold handleResponse
  rw [hr]
  simp only []
  by_cases ht : r.truthy = true
  · simp only [ht, Bool.not_true, Bool.false_eq_true, if_false]
    cases r with
    | value v =>
      cases htr : request.transport <;>
        simp [responseScript, ht, transportSend, htr, Completion.state, Completion.error?]
    | protocol send prepare =>
      cases send with
      | absent =>
        cases htr : request.transport <;>
          simp [responseScript, ht, transportSend, htr, Completion.state, Completion.error?]
      | notCallable =>
        cases htr : request.transport <;>
          simp [responseScript, ht, transportSend, htr, Completion.state, Completion.error?]
      | method sendThrows =>
        cases prepare with
        | absent =>
          cases sendThrows with
          | none =>
            have e1 := emitReq_quiet_eq obs _ (by decide) (hb (by simp [responseScript, Response.truthy]))
            have e2 := emitReq_quiet_eq obs _ (by decide)
              (ha (by simp [responseScript, Response.truthy, prepareCalls]))
            simp [responseScript, Response.truthy, e1, e2, sendProtocol, prepareCalls,
              Completion.bind, Completion.state, Completion.error?]
          | some err =>
            have e1 := emitReq_quiet_eq obs _ (by decide) (hb (by simp [responseScript, Response.truthy]))
            simp [responseScript, Response.truthy, e1, sendProtocol, prepareCalls,
              Completion.bind, Completion.state, Completion.error?]
        | notCallable =>
          cases sendThrows with
          | none =>
            have e1 := emitReq_quiet_eq obs _ (by decide) (hb (by simp [responseScript, Response.truthy]))
            have e2 := emitReq_quiet_eq obs _ (by decide)
              (ha (by simp [responseScript, Response.truthy, prepareCalls]))
            simp [responseScript, Response.truthy, e1, e2, sendProtocol, prepareCalls,
              Completion.bind, Completion.state, Completion.error?]
          | some err =>
            have e1 := emitReq_quiet_eq obs _ (by decide) (hb (by simp [responseScript, Response.truthy]))
            simp [responseScript, Response.truthy, e1, sendProtocol, prepareCalls,
              Completion.bind, Completion.state, Completion.error?]
        | method throws =>
          cases throws with
          | some perr =>
            have e1 := emitReq_quiet_eq obs _ (by decide) (hb (by simp [responseScript, Response.truthy]))
            simp [responseScript, Response.truthy, e1, sendProtocol, prepareCalls,
              Completion.bind, Completion.state, Completion.error?]
          | none =>
            cases sendThrows with
            | none =>
              have e1 := emitReq_quiet_eq obs _ (by decide)
                (hb (by simp [responseScript, Response.truthy]))
              have e2 := emitReq_quiet_eq obs _ (by decide)
                (ha (by simp [responseScript, Response.truthy, prepareCalls]))
              simp [responseScript, Response.truthy, e1, e2, sendProtocol, prepareCalls,
                Completion.bind, Completion.state, Completion.error?]
            | some err =>
              have e1 := emitReq_quiet_eq obs _ (by decide)
                (hb (by simp [responseScript, Response.truthy]))
              simp [responseScript, Response.truthy, e1, sendProtocol, prepareCalls,
                Completion.bind, Completion.state, Completion.error?]
  · simp only [ht, Bool.not_false, if_true]
    cases htr : request.transport <;>
      simp [responseScript, ht, transportSend, htr, Completion.state, Completion.error?]

/-- The `catch` block when the observers of `ON_REQUEST_END` do not throw. -/
theorem catchBlock_quiet {ω : Type} (obs : EventsObservers RouteData ω)
    (hend : QuietOn obs "FoliaServerEvent_ON_REQUEST_END")
    (request : Request) (err : String) (s : DispatchState ω) :
    (catchBlock obs request err s).isNormal = true
      ∧ (catchBlock obs request err s).state.trace = s.trace ++ failureScript request err := by
  unfold catchBlock
  rw [emitReq_quiet_eq obs _ (by decide) hend]
  simp [Completion.bind, Completion.isNormal, Completion.state, failureScript]

/-- The handler when no observer of an event of `dispatchScript` throws: it completes, and
its effects are those of `dispatchScript`. -/
theorem dispatch_quiet {ω : Type} (obs : EventsObservers RouteData ω)
    (request : Request) (s : DispatchState ω)
    (hq : ∀ event, .emitted event ∈ dispatchScript request s.data → QuietOn obs event) :
    (dispatch obs request s).isNormal = true
      ∧ (dispatch obs request s).state.trace = s.trace ++ dispatchScript request s.data := by
  have eS := emitReq_quiet_eq obs _ (by decide)
    (hq "FoliaServerEvent_ON_REQUEST_START" (by simp [dispatchScript]))
  have eBC := emitReq_quiet_eq obs _ (by decide)
    (hq "FoliaServerEvent_BEFORE_CONTROLLER_INIT" (by simp [dispatchScript]))
  unfold dispatch tryBlock tryBody initController
  simp only [eS, eBC, Completion.bind, id]
  cases hc : request.construct with
  | some err =>
    have hE := hq "FoliaServerEvent_ON_REQUEST_END"
      (by simp [dispatchScript, hc, failureScript])
    simp only []
    obtain ⟨h1, h2⟩ := catchBlock_quiet obs hE request err
      { data := { s.data with req := some request.id, res := some request.id,
                              next := some request.id },
        trace := s.trace ++ [.emitted "FoliaServerEvent_ON_REQUEST_START"]
          ++ [.emitted "FoliaServerEvent_BEFORE_CONTROLLER_INIT"] ++ [.construct request.id],
        world := (emit obs "FoliaServerEvent_BEFORE_CONTROLLER_INIT"
          { s.data with req := some request.id, res := some request.id,
                        next := some request.id }
          (emit obs "FoliaServerEvent_ON_REQUEST_START"
            { s.data with req := some request.id, res := some request.id,
                          next := some request.id } s.world).state).state }
    refine ⟨h1, ?_⟩
    rw [h2]
    simp [dispatchScript, hc]
  | none =>
    have eAC := emitReq_quiet_eq obs _ (by decide)
      (hq "FoliaServerEvent_AFTER_CONTROLLER_INIT" (by simp [dispatchScript, hc]))
    have hBA := hq "FoliaServerEvent_BEFORE_ACTION" (by simp [dispatchScript, hc])
    simp only [eAC]
    generalize hs3 : ({ data := _, trace := _, world := _ } : DispatchState ω) = s3
    have htr3 : s3.trace = s.trace ++ [.emitted "FoliaServerEvent_ON_REQUEST_START",
        .emitted "FoliaServerEvent_BEFORE_CONTROLLER_INIT", .construct request.id,
        .emitted "FoliaServerEvent_AFTER_CONTROLLER_INIT"] := by
      rw [← hs3]; simp
    have hd3 : s3.data.path = s.data.path ∧ s3.data.action = s.data.action := by
      rw [← hs3]; exact ⟨rfl, rfl⟩
    have hra := runAction_quiet obs request s3 hBA (by
      rintro ⟨r, hr⟩
      exact hq "FoliaServerEvent_AFTER_ACTION" (by simp [dispatchScript, hc, hr]))
    rw [completion_eta (runAction obs request s3)]
    cases hres : request.resolved with
    | error err =>
      have hE := hq "FoliaServerEvent_ON_REQUEST_END"
        (by simp [dispatchScript, hc, hres, failureScript])
      rw [hres] at hra
      simp only [] at hra
      rw [hra.2.2.1]
      simp only []
      obtain ⟨h1, h2⟩ := catchBlock_quiet obs hE request err (runAction obs request s3).state
      refine ⟨h1, ?_⟩
      rw [h2, hra.2.2.2, htr3, hd3.2]
      simp [dispatchScript, hc, hres]
    | ok r =>
      rw [hres] at hra
      simp only [] at hra
      rw [hra.2.2.1]
      simp only []
      generalize (runAction obs request s3).state = s4 at hra ⊢
      have hpath : s4.data.path = s.data.path := hra.1.trans hd3.1
      have hhr := handleResponse_quiet obs request s4 r hra.2.2.2.1
        (by
          rw [hpath]
          intro hm
          exact hq _ (by simp [dispatchScript, hc, hres, hm]))
        (by
          rw [hpath]
          intro hm
          exact hq _ (by simp [dispatchScript, hc, hres, hm]))
      rw [hpath] at hhr
      rw [completion_eta (handleResponse obs request s4)]
      cases hrs : (responseScript request s.data.path r).2 with
      | some err =>
        have hE := hq "FoliaServerEvent_ON_REQUEST_END"
          (by simp [dispatchScript, hc, hres, hrs, failureScript])
        rw [hrs] at hhr
        rw [hhr.1]
        simp only []
        obtain ⟨h1, h2⟩ := catchBlock_quiet obs hE request err
          (handleResponse obs request s4).state
        refine ⟨h1, ?_⟩
        rw [h2, hhr.2, hra.2.2.2.2, htr3, hd3.2]
        simp [dispatchScript, hc, hres, hrs]
      | none =>
        have eE := emitReq_quiet_eq obs _ (by decide) (hq "FoliaServerEvent_ON_REQUEST_END"
          (by simp [dispatchScript, hc, hres, hrs]))
        rw [hrs] at hhr
        rw [hhr.1]
        simp only [eE]
        refine ⟨rfl, ?_⟩
        change (handleResponse obs request s4).state.trace ++ _ = _
        rw [hhr.2, hra.2.2.2.2, htr3, hd3.2]
        simp [dispatchScript, hc, hres, hrs]

/-- C8, amended. For every request in which the construction of the controller, the
action or the response step throws, the observers of the lifecycle events emitted before
that step and the observers of `ON_REQUEST_END` not throwing, the handler completes, emits
`ON_REQUEST_END` once, after the throw, then calls `next` once, with an error, and sends
nothing after the throw. When the constructor or the action threw, the error given to
`next` is the one thrown and nothing was sent through the transport response; when
`prepare` or `send` of a response object threw, it is a new error with the message
`Error while sending response ! At route <path>`; when the transport response threw while
the handler sent the status 204 or a raw value, it is the error thrown. -/
theorem dispatch_error_path {ω : Type} (obs : EventsObservers RouteData ω)
    (request : Request) (s : DispatchState ω)
    (hstart : QuietOn obs "FoliaServerEvent_ON_REQUEST_START")
    (hbci : QuietOn obs "FoliaServerEvent_BEFORE_CONTROLLER_INIT")
    (hend : QuietOn obs "FoliaServerEvent_ON_REQUEST_END") :
    (∀ err, request.construct = some err →
        (dispatch obs request s).isNormal = true
        ∧ (dispatch obs request s).state.trace
          = s.trace ++ [.emitted "FoliaServerEvent_ON_REQUEST_START",
              .emitted "FoliaServerEvent_BEFORE_CONTROLLER_INIT", .construct request.id,
              .consoleError err, .emitted "FoliaServerEvent_ON_REQUEST_END",
              .next request.id err])
    ∧ (QuietOn obs "FoliaServerEvent_AFTER_CONTROLLER_INIT" →
        QuietOn obs "FoliaServerEvent_BEFORE_ACTION" →
        ∀ err, request.construct = none → request.resolved = .error err →
        (dispatch obs request s).isNormal = true
        ∧ (dispatch obs request s).state.trace
          = s.trace ++ [.emitted "FoliaServerEvent_ON_REQUEST_START",
              .emitted "FoliaServerEvent_BEFORE_CONTROLLER_INIT", .construct request.id,
              .emitted "FoliaServerEvent_AFTER_CONTROLLER_INIT",
              .emitted "FoliaServerEvent_BEFORE_ACTION", .action s.data.action request.id,
              .consoleError err, .emitted "FoliaServerEvent_ON_REQUEST_END",
              .next request.id err])
    ∧ (QuietOn obs "FoliaServerEvent_AFTER_CONTROLLER_INIT" →
        QuietOn obs "FoliaServerEvent_BEFORE_ACTION" →
        QuietOn obs "FoliaServerEvent_AFTER_ACTION" →
        QuietOn obs "FoliaServerEvent_BEFORE_RESPONSE_SENT" →
        ∀ sendThrows err, request.construct = none →
        request.resolved = .ok (.protocol (.method sendThrows) (.method (some err))) →
        (dispatch obs request s).isNormal = true
        ∧ (dispatch obs request s).state.trace
          = s.trace ++ [.emitted "FoliaServerEvent_ON_REQUEST_START",
              .emitted "FoliaServerEvent_BEFORE_CONTROLLER_INIT", .construct request.id,
              .emitted "FoliaServerEvent_AFTER_CONTROLLER_INIT",
              .emitted "FoliaServerEvent_BEFORE_ACTION", .action s.data.action request.id,
              .emitted "FoliaServerEvent_AFTER_ACTION",
              .emitted "FoliaServerEvent_BEFORE_RESPONSE_SENT", .prepare request.id,
              .consoleError err,
              .consoleError ("Error while sending response ! At route " ++ s.data.path),
              .emitted "FoliaServerEvent_ON_REQUEST_END",
              .next request.id ("Error while sending response ! At route " ++ s.data.path)])
    ∧ (QuietOn obs "FoliaServerEvent_AFTER_CONTROLLER_INIT" →
        QuietOn obs "FoliaServerEvent_BEFORE_ACTION" →
        QuietOn obs "FoliaServerEvent_AFTER_ACTION" →
        QuietOn obs "FoliaServerEvent_BEFORE_RESPONSE_SENT" →
        ∀ prepare err, request.construct = none →
        request.resolved = .ok (.protocol (.method (some err)) prepare) →
        (∀ e, prepare ≠ .method (some e)) →
        (dispatch obs request s).isNormal = true
        ∧ (dispatch obs request s).state.trace
          = s.trace ++ [.emitted "FoliaServerEvent_ON_REQUEST_START",
              .emitted "FoliaServerEvent_BEFORE_CONTROLLER_INIT", .construct request.id,
              .emitted "FoliaServerEvent_AFTER_CONTROLLER_INIT",
              .emitted "FoliaServerEvent_BEFORE_ACTION", .action s.data.action request.id,
              .emitted "FoliaServerEvent_AFTER_ACTION",
              .emitted "FoliaServerEvent_BEFORE_RESPONSE_SENT"]
            ++ prepareCalls request prepare
            ++ [.send request.id, .consoleError err,
              .consoleError ("Error while sending response ! At route " ++ s.data.path),
              .emitted "FoliaServerEvent_ON_REQUEST_END",
              .next request.id ("Error while sending response ! At route " ++ s.data.path)])
    ∧ (QuietOn obs "FoliaServerEvent_AFTER_CONTROLLER_INIT" →
        QuietOn obs "FoliaServerEvent_BEFORE_ACTION" →
        QuietOn obs "FoliaServerEvent_AFTER_ACTION" →
        ∀ r err, request.construct = none → request.resolved = .ok r →
        (∀ sendThrows prepare, r.truthy = true → r ≠ .protocol (.method sendThrows) prepare) →
        request.transport = some err →
        (dispatch obs request s).isNormal = true
        ∧ (dispatch obs request s).state.trace
          = s.trace ++ [.emitted "FoliaServerEvent_ON_REQUEST_START",
              .emitted "FoliaServerEvent_BEFORE_CONTROLLER_INIT", .construct request.id,
              .emitted "FoliaServerEvent_AFTER_CONTROLLER_INIT",
              .emitted "FoliaServerEvent_BEFORE_ACTION", .action s.data.action request.id,
              .emitted "FoliaServerEvent_AFTER_ACTION",
              (if r.truthy then .resSend request.id r else .status204 request.id),
              .consoleError err, .emitted "FoliaServerEvent_ON_REQUEST_END",
              .next request.id err]) := by
  refine ⟨?_, ?_, ?_, ?_, ?_⟩
  · intro err hc
    have hs : dispatchScript request s.data
        = [.emitted "FoliaServerEvent_ON_REQUEST_START",
            .emitted "FoliaServerEvent_BEFORE_CONTROLLER_INIT", .construct request.id,
            .consoleError err, .emitted "FoliaServerEvent_ON_REQUEST_END",
            .next request.id err] := by
      simp [dispatchScript, hc, failureScript]
    have h := dispatch_quiet obs request s (by
      intro event hm
      rw [hs] at hm
      simp at hm
      rcases hm with rfl | rfl | rfl <;> assumption)
    rw [hs] at h
    exact h
  · intro haci hba err hc hres
    have hs : dispatchScript request s.data
        = [.emitted "FoliaServerEvent_ON_REQUEST_START",
            .emitted "FoliaServerEvent_BEFORE_CONTROLLER_INIT", .construct request.id,
            .emitted "FoliaServerEvent_AFTER_CONTROLLER_INIT",
            .emitted "FoliaServerEvent_BEFORE_ACTION", .action s.data.action request.id,
            .consoleError err, .emitted "FoliaServerEvent_ON_REQUEST_END",
            .next request.id err] := by
      simp [dispatchScript, hc, hres, failureScript]
    have h := dispatch_quiet obs request s (by
      intro event hm
      rw [hs] at hm
      simp at hm
      rcases hm with rfl | rfl | rfl | rfl | rfl <;> assumption)
    rw [hs] at h
    exact h
  · intro haci hba haa hbrs sendThrows err hc hres
    have hs : dispatchScript request s.data
        = [.emitted "FoliaServerEvent_ON_REQUEST_START",
            .emitted "FoliaServerEvent_BEFORE_CONTROLLER_INIT", .construct request.id,
            .emitted "FoliaServerEvent_AFTER_CONTROLLER_INIT",
            .emitted "FoliaServerEvent_BEFORE_ACTION", .action s.data.action request.id,
            .emitted "FoliaServerEvent_AFTER_ACTION",
            .emitted "FoliaServerEvent_BEFORE_RESPONSE_SENT", .prepare request.id,
            .consoleError err,
            .consoleError ("Error while sending response ! At route " ++ s.data.path),
            .emitted "FoliaServerEvent_ON_REQUEST_END",
            .next request.id ("Error while sending response ! At route " ++ s.data.path)] := by
      simp [dispatchScript, hc, hres, failureScript, responseScript, Response.truthy]
    have h := dispatch_quiet obs request s (by
      intro event hm
      rw [hs] at hm
      simp at hm
      rcases hm with rfl | rfl | rfl | rfl | rfl | rfl | rfl <;> assumption)
    rw [hs] at h
    exact h
  · intro haci hba haa hbrs prepare err hc hres hprep
    have hs : dispatchScript request s.data
        = [.emitted "FoliaServerEvent_ON_REQUEST_START",
            .emitted "FoliaServerEvent_BEFORE_CONTROLLER_INIT", .construct request.id,
            .emitted "FoliaServerEvent_AFTER_CONTROLLER_INIT",
            .emitted "FoliaServerEvent_BEFORE_ACTION", .action s.data.action request.id,
            .emitted "FoliaServerEvent_AFTER_ACTION",
            .emitted "FoliaServerEvent_BEFORE_RESPONSE_SENT"]
          ++ prepareCalls request prepare
          ++ [.send request.id, .consoleError err,
            .consoleError ("Error while sending response ! At route " ++ s.data.path),
            .emitted "FoliaServerEvent_ON_REQUEST_END",
            .next request.id ("Error while sending response ! At route " ++ s.data.path)] := by
      cases prepare with
      | absent =>
        simp [dispatchScript, hc, hres, failureScript, responseScript, Response.truthy,
          prepareCalls]
      | notCallable =>
        simp [dispatchScript, hc, hres, failureScript, responseScript, Response.truthy,
          prepareCalls]
      | method throws =>
        cases throws with
        | some e => exact absurd rfl (hprep e)
        | none =>
          simp [dispatchScript, hc, hres, failureScript, responseScript, Response.truthy,
            prepareCalls]
    have h := dispatch_quiet obs request s (by
      intro event hm
      rw [hs] at hm
      have hp : Effect.emitted event ∉ prepareCalls request prepare := by
        cases prepare <;> simp [prepareCalls]
      simp [hp] at hm
      rcases hm with rfl | rfl | rfl | rfl | rfl | rfl | rfl <;> assumption)
    rw [hs] at h
    exact ⟨h.1, by rw [h.2]; simp [List.append_assoc]⟩
  · intro haci hba haa r err hc hres hne htr
    have hs : dispatchScript request s.data
        = [.emitted "FoliaServerEvent_ON_REQUEST_START",
            .emitted "FoliaServerEvent_BEFORE_CONTROLLER_INIT", .construct request.id,
            .emitted "FoliaServerEvent_AFTER_CONTROLLER_INIT",
            .emitted "FoliaServerEvent_BEFORE_ACTION", .action s.data.action request.id,
            .emitted "FoliaServerEvent_AFTER_ACTION",
            (if r.truthy then .resSend request.id r else .status204 request.id),
            .consoleError err, .emitted "FoliaServerEvent_ON_REQUEST_END",
            .next request.id err] := by
      by_cases ht : r.truthy = true
      · cases r with
        | value v =>
          simp [dispatchScript, hc, hres, failureScript, responseScript, ht, htr]
        | protocol send prepare =>
          cases send with
          | absent => simp [dispatchScript, hc, hres, failureScript, responseScript, ht, htr]
          | notCallable =>
            simp [dispatchScript, hc, hres, failureScript, responseScript, ht, htr]
          | method sendThrows => exact absurd rfl (hne sendThrows prepare ht)
      · simp [dispatchScript, hc, hres, failureScript, responseScript, ht, htr]
    have h := dispatch_quiet obs request s (by
      intro event hm
      rw [hs] at hm
      have hp : Effect.emitted event
          ≠ (if r.truthy then Effect.resSend request.id r else .status204 request.id) := by
        split <;> simp
      simp [hp] at hm
      rcases hm with rfl | rfl | rfl | rfl | rfl | rfl <;> assumption)
    rw [hs] at h
    exact h

/-- C8, witness: on a bus without observers, a request whose controller constructor
throws. -/
theorem dispatch_error_path_witness :
    (dispatch EventsObservers.empty Example.failingConstructor Example.idle).isNormal = true
    ∧ (dispatch EventsObservers.empty Example.failingConstructor Example.idle).state.trace
      = Example.idle.trace ++ [.emitted "FoliaServerEvent_ON_REQUEST_START",
          .emitted "FoliaServerEvent_BEFORE_CONTROLLER_INIT",
          .construct Example.failingConstructor.id,
          .consoleError "constructor failed", .emitted "FoliaServerEvent_ON_REQUEST_END",
          .next Example.failingConstructor.id "constructor failed"] :=
  (dispatch_error_path EventsObservers.empty Example.failingConstructor Example.idle
    (quietOn_empty _) (quietOn_empty _) (quietOn_empty _)).1 "constructor failed" rfl

/-- C8, counterexample. The constructor of the controller throws and an observer of
`ON_REQUEST_END` throws: the `catch` block emits `ON_REQUEST_END`, the emission throws, and
`next` is never called; the handler rejects with the observer's error. -/
theorem dispatch_next_not_called :
    dispatch
        (FoliaServer.on EventsObservers.empty "FoliaServerEvent_ON_REQUEST_END" Example.failing).state
        Example.failingConstructor Example.idle
      = .throw "observer failed"
          { data := { Example.idle.data with req := some 1, res := some 1, next := some 1 },
            trace := [.emitted "FoliaServerEvent_ON_REQUEST_START",
              .emitted "FoliaServerEvent_BEFORE_CONTROLLER_INIT", .construct 1,
              .consoleError "constructor failed",
              .emitted "FoliaServerEvent_ON_REQUEST_END"],
            world := () } := by
  rfl

theorem get_append (a b : JsObject) (key : String) :
    JsObject.get (a ++ b) key
      = match JsObject.get b key with
        | some v => some v
        | none => JsObject.get a key := by
  induction a with
  | nil =>
    rw [List.nil_append]
    cases JsObject.get b key <;> rfl
  | cons e rest ih =>
    obtain ⟨k, v⟩ := e
    rw [List.cons_append]
    simp only [JsObject.get, ih]
    cases JsObject.get b key with
    | some x => rfl
    | none => rfl

theorem get_of_not_has (obj : JsObject) (key : String) (h : obj.has key = false) :
    obj.get key = none := by
  induction obj with
  | nil => rfl
  | cons e rest ih =>
    obtain ⟨k, v⟩ := e
    simp only [JsObject.has, List.any_cons, Bool.or_eq_false_iff, beq_eq_false_iff_ne] at h
    have hr : JsObject.has rest key = false := h.2
    simp only [JsObject.get, ih hr]
    simp [h.1]

theorem get_cons (k : String) (v : JsValue) (rest : JsObject) (key : String) :
    JsObject.get ((k, v) :: rest) key
      = match JsObject.get rest key with
        | some later => some later
        | none => if k = key then some v else none := rfl

theorem get_map_set (obj : JsObject) (key : String) (value : JsValue) (k : String) :
    JsObject.get (obj.map fun entry => if entry.1 == key then (key, value) else entry) k
      = if k = key then (if obj.has key then some value else none) else obj.get k := by
  induction obj with
  | nil => simp [JsObject.get, JsObject.has]
  | cons e rest ih =>
    obtain ⟨k1, v1⟩ := e
    rw [List.map_cons]
    by_cases hk1 : k1 = key
    · have hf : (if ((k1, v1) : String × JsValue).1 == key then (key, value) else (k1, v1))
          = (key, value) := by simp [hk1]
      simp only [] at hf ⊢
      rw [hf, get_cons, ih, get_cons]
      by_cases hk : k = key
      · have hh : JsObject.has ((k1, v1) :: rest) key = true := by simp [JsObject.has, hk1]
        rw [if_pos hk, if_pos hk, hh, if_pos rfl, if_pos hk.symm]
        cases JsObject.has rest key <;> rfl
      · have hk' : ¬ key = k := fun h => hk h.symm
        have hk1' : ¬ k1 = k := fun h => hk (h.symm.trans hk1)
        rw [if_neg hk, if_neg hk, if_neg hk', if_neg hk1']
    · have hf : (if ((k1, v1) : String × JsValue).1 == key then (key, value) else (k1, v1))
          = (k1, v1) := by simp [hk1]
      simp only [] at hf ⊢
      rw [hf, get_cons, ih, get_cons]
      by_cases hk : k = key
      · have hh : JsObject.has ((k1, v1) :: rest) key = JsObject.has rest key := by
          simp [JsObject.has, hk1]
        have hk1' : ¬ k1 = k := fun h => hk1 (h.trans hk)
        rw [if_pos hk, if_pos hk, hh, if_neg hk1']
        cases JsObject.has rest key <;> rfl
      · rw [if_neg hk, if_neg hk]

theorem get_set (obj : JsObject) (key : String) (value : JsValue) (k : String) :
    (obj.set key value).get k = if k = key then some value else obj.get k := by
  unfold JsObject.set
  by_cases hany : obj.any (fun entry => entry.1 == key) = true
  · rw [if_pos hany, get_map_set]
    simp [JsObject.has, hany]
  · rw [if_neg hany, get_append]
    simp only [JsObject.get]
    by_cases hk : k = key
    · subst hk; simp
    · have hk' : ¬ key = k := fun h => hk h.symm
      simp [hk, hk']

theorem has_set (obj : JsObject) (key : String) (value : JsValue) (k : String) :
    (obj.set key value).has k = (obj.has k || k == key) := by
  unfold JsObject.set JsObject.has
  by_cases hany : obj.any (fun entry => entry.1 == key) = true
  · rw [if_pos hany]
    have hmap : ∀ l : JsObject,
        (l.map fun entry => if entry.1 == key then (key, value) else entry).any
            (fun entry => entry.1 == k)
          = l.any (fun entry => entry.1 == k) := by
      intro l
      induction l with
      | nil => rfl
      | cons e rest ih =>
        simp only [List.map_cons, List.any_cons, ih]
        by_cases he : e.1 = key
        · simp [he]
        · have hb : (e.1 == key) = false := by simpa using he
          simp [hb]
    rw [hmap]
    by_cases hk : k = key
    · subst hk; simp [hany]
    · have hb : (k == key) = false := by simpa using hk
      simp [hb]
  · rw [if_neg hany]
    simp only [List.any_append, List.any_cons, List.any_nil, Bool.or_false]
    congr 1
    by_cases hk : k = key
    · subst hk; simp
    · have hk' : ¬ key = k := fun h => hk h.symm
      simp [hk, hk']

theorem get_spread (target source : JsObject) (k : String) :
    (JsObject.spread target source).get k
      = match source.get k with
        | some v => some v
        | none => target.get k := by
  induction source generalizing target with
  | nil => rfl
  | cons e rest ih =>
    obtain ⟨k1, v1⟩ := e
    simp only [JsObject.spread, List.foldl_cons] at ih ⊢
    rw [ih, get_set]
    simp only [JsObject.get]
    cases JsObject.get rest k with
    | some x => rfl
    | none =>
      by_cases hk : k = k1
      · subst hk; simp
      · have hk' : ¬ k1 = k := fun h => hk h.symm
        simp [hk, hk']

theorem has_spread (target source : JsObject) (k : String) :
    (JsObject.spread target source).has k = (target.has k || source.has k) := by
  induction source generalizing target with
  | nil => simp [JsObject.spread, JsObject.has]
  | cons e rest ih =>
    obtain ⟨k1, v1⟩ := e
    simp only [JsObject.spread, List.foldl_cons] at ih ⊢
    rw [ih, has_set]
    simp only [JsObject.has, List.any_cons]
    by_cases hk : k = k1
    · subst hk; simp
    · have hb : (k == k1) = false := by simpa using hk
      have hb' : (k1 == k) = false := by simpa using fun h : k1 = k => hk h.symm
      simp [hb, hb']

theorem get_merge (first second : JsObject) (k : String) :
    (JsObject.merge first second).get k
      = match second.get k with
        | some v => some v
        | none => first.get k := by
  unfold JsObject.merge
  rw [get_spread, get_spread]
  cases second.get k with
  | some v => rfl
  | none =>
    simp only [JsObject.get]
    cases first.get k <;> rfl

theorem has_merge (first second : JsObject) (k : String) :
    (JsObject.merge first second).has k = (first.has k || second.has k) := by
  unfold JsObject.merge
  rw [has_spread, has_spread]
  simp [JsObject.has]

/-! ## Routes: the call made for a route -/

theorem callRouter_state {ω : Type} (router : Router) (method : String)
    (args : List TransportArg) (s : RoutesState ω) :
    ((callRouter router method args s).isNormal = false
        ∧ (callRouter router method args s).state.calls = s.calls)
      ∨ (callRouter router method args s).state.calls
          = s.calls ++ [{ router := router.name, method := method, args := args }] := by
  unfold callRouter
  by_cases hc : router.callable method = true
  · right
    rw [if_pos hc]
    cases router.invoke method args <;> rfl
  · left; rw [if_neg hc]; exact ⟨rfl, rfl⟩

theorem callRouter_callable {ω : Type} (router : Router) (method : String)
    (args : List TransportArg) (s : RoutesState ω) (hc : router.callable method = true) :
    (callRouter router method args s).state.calls
      = s.calls ++ [{ router := router.name, method := method, args := args }] := by
  unfold callRouter
  rw [if_pos hc]
  cases router.invoke method args <;> rfl

theorem bind_normal {σ τ : Type} (s : σ) (lift : σ → τ) (k : σ → Completion τ) :
    (Completion.normal s).bind lift k = k s := rfl

theorem bind_throw {σ τ : Type} (err : String) (s : σ) (lift : σ → τ)
    (k : σ → Completion τ) : (Completion.throw err s).bind lift k = .throw err (lift s) := rfl

theorem then_emitRoute {ω : Type} (obs : EventsObservers RouteEvent ω) (event : String)
    (data : RouteEvent) (c : Completion (RoutesState ω)) :
    (c.bind id fun s2 => emitRoute obs event data s2).state.calls = c.state.calls
      ∧ (c.isNormal = false
          → (c.bind id fun s2 => emitRoute obs event data s2).isNormal = false) := by
  cases c with
  | normal s2 =>
    rw [bind_normal]
    exact ⟨emitRoute_calls obs event data s2, fun h => by simp [Completion.isNormal] at h⟩
  | throw err s2 => exact ⟨rfl, fun _ => rfl⟩

theorem registerUse_state {ω : Type} (router : Router) (route : Route)
    (middlewares : List JsValue) (s : RoutesState ω) :
    ((registerUse router route middlewares s).isNormal = false
        ∧ (registerUse router route middlewares s).state.calls = s.calls)
      ∨ (checkHandler route = .ok ()
          ∧ (registerUse router route middlewares s).state.calls
            = s.calls
                ++ [{ router := router.name, method := "use",
                      args := if route.path.truthy then
                          [.path route.path, .middlewares middlewares, .handler route.handler]
                        else [.handler route.handler] }]) := by
  unfold registerUse
  cases hc : checkHandler route with
  | error err => exact Or.inl ⟨rfl, rfl⟩
  | ok u =>
    cases u
    simp only []
    by_cases hp : route.path.truthy = true
    · simp only [hp, if_true]
      rcases callRouter_state router "use"
          [.path route.path, .middlewares middlewares, .handler route.handler] s with h | h
      · exact Or.inl h
      · exact Or.inr ⟨trivial, h⟩
    · have hp1 : route.path.truthy = false := by simpa using hp
      simp only [hp1, Bool.false_eq_true, if_false]
      rcases callRouter_state router "use" [.handler route.handler] s with h | h
      · exact Or.inl h
      · exact Or.inr ⟨trivial, h⟩

theorem registerController_state {ω : Type} (router : Router) (method : String)
    (route : Route) (middlewares : List JsValue) (s : RoutesState ω) :
    ((registerController router method route middlewares s).isNormal = false
        ∧ (registerController router method route middlewares s).state.calls = s.calls)
      ∨ ∃ name action, checkController route = .ok (name, action)
          ∧ (registerController router method route middlewares s).state.calls
            = s.calls
                ++ [{ router := router.name, method := method,
                      args := [.path route.path, .middlewares middlewares,
                               .dispatch name action] }] := by
  unfold registerController
  cases hc : checkController route with
  | error err => exact Or.inl ⟨rfl, rfl⟩
  | ok na =>
    obtain ⟨name, action⟩ := na
    simp only []
    rcases callRouter_state router method
        [.path route.path, .middlewares middlewares, .dispatch name action] s with h | h
    · exact Or.inl h
    · exact Or.inr ⟨name, action, rfl, h⟩

/-- What processing a route leaves in the transport layer: nothing when it throws before
the call, and otherwise exactly one call, whose arguments are the path, the normalised
middlewares and the handler (for a `use` route without path: the handler alone). -/
theorem loadRoute_calls {ω : Type} (obs : EventsObservers RouteEvent ω) (app : Router)
    (route : Route) (s : RoutesState ω) :
    ((loadRoute obs app route s).isNormal = false
        ∧ (loadRoute obs app route s).state.calls = s.calls)
      ∨ ∃ method middlewares, validateRoute route = .ok (method, middlewares)
          ∧ ((method = "use" ∧ checkHandler route = .ok ()
                ∧ (loadRoute obs app route s).state.calls
                    = s.calls ++ [{ router := (route.router.getD app).name, method := "use",
                                    args := if route.path.truthy then
                                        [.path route.path, .middlewares middlewares,
                                         .handler route.handler]
                                      else [.handler route.handler] }])
              ∨ (method ≠ "use" ∧ ∃ name action, checkController route = .ok (name, action)
                ∧ (loadRoute obs app route s).state.calls
                    = s.calls ++ [{ router := (route.router.getD app).name, method := method,
                                    args := [.path route.path, .middlewares middlewares,
                                             .dispatch name action] }])) := by
  have hb := emitRoute_calls obs "FoliaServerEvent_BEFORE_ROUTE_LOADED" (.before route) s
  unfold loadRoute
  cases he : emitRoute obs "FoliaServerEvent_BEFORE_ROUTE_LOADED" (.before route) s with
  | throw err s1 => rw [he] at hb; exact Or.inl ⟨rfl, hb⟩
  | normal s1 =>
    rw [he] at hb
    simp only [Completion.state] at hb
    rw [bind_normal]
    cases hv : validateRoute route with
    | error err => exact Or.inl ⟨rfl, hb⟩
    | ok mm =>
      obtain ⟨method, middlewares⟩ := mm
      simp only []
      by_cases hu : method = "use"
      · subst hu
        simp only [if_true]
        obtain ⟨hcalls, hnormal⟩ := then_emitRoute obs "FoliaServerEvent_AFTER_ROUTE_LOADED"
          (.after route middlewares) (registerUse (route.router.getD app) route middlewares s1)
        rcases registerUse_state (route.router.getD app) route middlewares s1
          with ⟨hn, hs⟩ | ⟨hc, hok⟩
        · exact Or.inl ⟨hnormal hn, by rw [hcalls, hs, hb]⟩
        · refine Or.inr ⟨"use", middlewares, rfl, Or.inl ⟨rfl, hc, ?_⟩⟩
          rw [hcalls, hok, hb]
      · simp only [hu, if_false]
        obtain ⟨hcalls, hnormal⟩ := then_emitRoute obs "FoliaServerEvent_AFTER_ROUTE_LOADED"
          (.after route middlewares)
          (registerController (route.router.getD app) method route middlewares s1)
        rcases registerController_state (route.router.getD app) method route middlewares s1
          with ⟨hn, hs⟩ | ⟨name, action, hc, hok⟩
        · exact Or.inl ⟨hnormal hn, by rw [hcalls, hs, hb]⟩
        · refine Or.inr ⟨method, middlewares, rfl, Or.inr ⟨hu, name, action, hc, ?_⟩⟩
          rw [hcalls, hok, hb]

/-- A route whose processing completes made exactly one call to the transport layer. -/
theorem loadRoute_normal_one {ω : Type} (obs : EventsObservers RouteEvent ω) (app : Router)
    (route : Route) (s s1 : RoutesState ω) (h : loadRoute obs app route s = .normal s1) :
    ∃ call, s1.calls = s.calls ++ [call] := by
  rcases loadRoute_calls obs app route s with ⟨hn, -⟩ | ⟨method, ms, -, h1 | h2⟩
  · rw [h] at hn; simp [Completion.isNormal] at hn
  · rw [h] at h1; exact ⟨_, h1.2.2⟩
  · obtain ⟨-, name, action, -, hcalls⟩ := h2
    rw [h] at hcalls; exact ⟨_, hcalls⟩

theorem loadRoute_loop_normal {ω : Type} (obs : EventsObservers RouteEvent ω) (app : Router)
    (routes : List Route) (s s1 : RoutesState ω)
    (h : seqAll (loadRoute obs app) routes s = .normal s1) :
    ∃ calls, s1.calls = s.calls ++ calls ∧ calls.length = routes.length := by
  induction routes generalizing s with
  | nil =>
    simp only [seqAll, Completion.normal.injEq] at h
    subst h
    exact ⟨[], by simp, rfl⟩
  | cons r rest ih =>
    simp only [seqAll] at h
    cases hr : loadRoute obs app r s with
    | throw err s2 => rw [hr] at h; simp at h
    | normal s2 =>
      rw [hr] at h
      obtain ⟨call, hcall⟩ := loadRoute_normal_one obs app r s s2 hr
      obtain ⟨calls, hcalls, hlen⟩ := ih s2 h
      exact ⟨call :: calls, by rw [hcalls, hcall]; simp, by simp [hlen]⟩

/-! ## Modules -/

theorem emitMod_state {ω : Type} (obs : EventsObservers ModulesEvent ω) (event : String)
    (data : ModulesEvent) (s : ModulesState ω) :
    (emitMod obs event data s).state.bundles = s.bundles
      ∧ (emitMod obs event data s).state.calls = s.calls
      ∧ (emitMod obs event data s).state.errorHandler = s.errorHandler := by
  unfold emitMod
  cases emit obs event data s.world <;> exact ⟨rfl, rfl, rfl⟩

theorem emitMod_normal {ω : Type} (obs : EventsObservers ModulesEvent ω) (event : String)
    (data : ModulesEvent) (s s1 : ModulesState ω) (h : emitMod obs event data s = .normal s1) :
    s1.bundles = s.bundles ∧ s1.calls = s.calls ∧ s1.errorHandler = s.errorHandler := by
  have hs := emitMod_state obs event data s
  rw [h] at hs
  exact hs

theorem then_emitMod {ω : Type} (obs : EventsObservers ModulesEvent ω) (event : String)
    (data : ModulesEvent) (c : Completion (ModulesState ω)) :
    (c.bind id fun s2 => emitMod obs event data s2).state.bundles = c.state.bundles
      ∧ (c.bind id fun s2 => emitMod obs event data s2).state.calls = c.state.calls := by
  cases c with
  | normal s2 =>
    rw [bind_normal]
    exact ⟨(emitMod_state obs event data s2).1, (emitMod_state obs event data s2).2.1⟩
  | throw err s2 => exact ⟨rfl, rfl⟩

theorem recordRoutes_state {ω : Type} (module : String) (s : ModulesState ω)
    (c : Completion (RoutesState ω)) :
    (recordRoutes module s c).state.bundles = s.bundles
      ∧ (recordRoutes module s c).state.calls
          = s.calls ++ c.state.calls.map (fun call => (module, call))
      ∧ ((recordRoutes module s c).isNormal = c.isNormal) := by
  unfold recordRoutes
  cases c <;> exact ⟨rfl, rfl, rfl⟩

/-- Every call of `#loadRoutes` is recorded with its `moduleData`, whatever happens next. -/
theorem loadRoutes_bundles {ω : Type} (obs : EventsObservers ModulesEvent ω) (app : Router)
    (b : ModuleBundle) (s : ModulesState ω) :
    (loadRoutes obs app b s).state.bundles = s.bundles ++ [b] := by
  unfold loadRoutes
  have h0 := (emitMod_state obs "FoliaServerEvent_BEFORE_MODULE_ROUTES_LOADED" (.bundle b)
    { s with bundles := s.bundles ++ [b] }).1
  cases he : emitMod obs "FoliaServerEvent_BEFORE_MODULE_ROUTES_LOADED" (.bundle b)
      { s with bundles := s.bundles ++ [b] } with
  | throw err s1 => rw [he] at h0; exact h0
  | normal s1 =>
    rw [he] at h0
    simp only [Completion.state] at h0
    rw [bind_normal, (then_emitMod obs _ _ _).1, (recordRoutes_state _ _ _).1, h0]

/-- A completed call of `#loadRoutes` made one call to the transport layer per route. -/
theorem loadRoutes_normal {ω : Type} (obs : EventsObservers ModulesEvent ω) (app : Router)
    (b : ModuleBundle) (s s1 : ModulesState ω) (h : loadRoutes obs app b s = .normal s1) :
    s1.calls.map Prod.fst = s.calls.map Prod.fst ++ List.replicate b.routes.length b.module := by
  unfold loadRoutes at h
  cases he : emitMod obs "FoliaServerEvent_BEFORE_MODULE_ROUTES_LOADED" (.bundle b)
      { s with bundles := s.bundles ++ [b] } with
  | throw err s2 => rw [he] at h; simp [Completion.bind] at h
  | normal s2 =>
    have h2 := (emitMod_normal obs _ _ _ s2 he).2.1
    simp only [] at h2
    rw [he, bind_normal, forEach_const] at h
    cases hl : seqAll (loadRoute (routeObservers obs) app) b.routes
        { calls := [], world := s2.world } with
    | throw err r =>
      rw [hl] at h
      simp [recordRoutes, Completion.bind] at h
    | normal r =>
      rw [hl] at h
      obtain ⟨calls, hcalls, hlen⟩ := loadRoute_loop_normal _ app b.routes _ r hl
      simp only [List.nil_append] at hcalls
      have h3 : recordRoutes b.module s2 (.normal r)
          = .normal { s2 with calls := s2.calls ++ r.calls.map (fun call => (b.module, call)),
                              world := r.world } := rfl
      rw [h3, bind_normal] at h
      have h4 := (emitMod_normal obs _ _ _ s1 h).2.1
      simp only [] at h4
      rw [h4, h2, hcalls, List.map_append, List.map_map, ← hlen]
      congr 1
      clear hcalls hl h h3 h4 hlen
      induction calls with
      | nil => rfl
      | cons c rest ih => simp [List.replicate_succ, ih]

/-- The bundle `#loadModules` builds for the module `module`. -/
theorem loadModule_state {ω : Type} (obs : EventsObservers ModulesEvent ω) (app : Router)
    (project : String → ModuleFiles) (G GP : JsObject) (module : String)
    (s : ModulesState ω) :
    ((loadModule obs app project G GP module s).state.bundles = s.bundles
        ∧ ((loadModule obs app project G GP module s).isNormal = true →
            module = "Application"
              ∧ (loadModule obs app project G GP module s).state.calls = s.calls))
      ∨ (module ≠ "Application"
          ∧ ∃ c r p, (project module).config = .ok c ∧ (project module).routes = .ok r
            ∧ loadPlugins (project module).plugins = .ok p
            ∧ (loadModule obs app project G GP module s).state.bundles
                = s.bundles ++ [{ module := module, config := JsObject.merge G c, routes := r,
                                  plugins := JsObject.merge GP p }]
            ∧ ((loadModule obs app project G GP module s).isNormal = true →
                (loadModule obs app project G GP module s).state.calls.map Prod.fst
                  = s.calls.map Prod.fst ++ List.replicate r.length module)) := by
  unfold loadModule
  by_cases hm : module = "Application"
  · left
    simp [hm, Completion.state, Completion.isNormal]
  · have hb : (module != "Application") = true := by simpa using hm
    rw [if_pos hb]
    cases hc : (project module).config with
    | error err => left; exact ⟨rfl, fun h => by simp [Completion.isNormal] at h⟩
    | ok c =>
      cases hr : (project module).routes with
      | error err => left; exact ⟨rfl, fun h => by simp [Completion.isNormal] at h⟩
      | ok r =>
        cases hp : loadPlugins (project module).plugins with
        | error err => left; exact ⟨rfl, fun h => by simp [Completion.isNormal] at h⟩
        | ok p =>
          simp only []
          have h0 := emitMod_state obs "FoliaServerEvent_BEFORE_MODULE_LOADED"
            (.bundle { module := module, config := JsObject.merge G c, routes := r,
                       plugins := JsObject.merge GP p }) s
          cases he : emitMod obs "FoliaServerEvent_BEFORE_MODULE_LOADED"
              (.bundle { module := module, config := JsObject.merge G c, routes := r,
                         plugins := JsObject.merge GP p }) s with
          | throw err s1 =>
            left
            rw [he] at h0
            exact ⟨h0.1, fun h => by simp [Completion.bind, Completion.isNormal] at h⟩
          | normal s1 =>
            right
            rw [he] at h0
            simp only [Completion.state] at h0
            refine ⟨hm, c, r, p, rfl, rfl, rfl, ?_, ?_⟩
            · rw [bind_normal, (then_emitMod obs _ _ _).1, loadRoutes_bundles, h0.1]
            · rw [bind_normal, (then_emitMod obs _ _ _).2]
              intro hn
              cases hl : loadRoutes obs app
                  { module := module, config := JsObject.merge G c, routes := r,
                    plugins := JsObject.merge GP p } s1 with
              | throw err s2 => rw [hl] at hn; simp [Completion.bind, Completion.isNormal] at hn
              | normal s2 =>
                have := loadRoutes_normal obs app _ s1 s2 hl
                simp only [Completion.state]
                rw [this, h0.2.1]

/-- The loop over the modules: the bundles it adds are those of the modules other than
`Application`, in enumeration order, up to the point where it stops. -/
theorem loadModule_loop {ω : Type} (obs : EventsObservers ModulesEvent ω) (app : Router)
    (project : String → ModuleFiles) (G GP : JsObject) (modules : List String)
    (s : ModulesState ω) :
    ∃ bs : List ModuleBundle,
      (seqAll (loadModule obs app project G GP) modules s).state.bundles = s.bundles ++ bs
      ∧ bs.map (fun b => b.module) <+: modules.filter (fun module => module != "Application")
      ∧ (∀ b ∈ bs, b.module ≠ "Application"
          ∧ ∃ c p, (project b.module).config = .ok c
            ∧ loadPlugins (project b.module).plugins = .ok p
            ∧ (project b.module).routes = .ok b.routes
            ∧ b.config = JsObject.merge G c ∧ b.plugins = JsObject.merge GP p)
      ∧ ((seqAll (loadModule obs app project G GP) modules s).isNormal = true →
          bs.map (fun b => b.module) = modules.filter (fun module => module != "Application")
          ∧ (seqAll (loadModule obs app project G GP) modules s).state.calls.map Prod.fst
              = s.calls.map Prod.fst
                ++ bs.flatMap fun b => List.replicate b.routes.length b.module) := by
  induction modules generalizing s with
  | nil => exact ⟨[], by simp [seqAll, Completion.state], by simp, by simp,
      fun _ => by simp [seqAll, Completion.state]⟩
  | cons m rest ih =>
    simp only [seqAll]
    rcases loadModule_state obs app project G GP m s with ⟨hb, hn⟩ | ⟨hm, c, r, p, hc, hr, hp, hb, hn⟩
    · cases hl : loadModule obs app project G GP m s with
      | throw err s1 =>
        rw [hl] at hb
        exact ⟨[], by simpa [Completion.state] using hb, by simp, by simp,
          fun h => by simp [Completion.isNormal] at h⟩
      | normal s1 =>
        rw [hl] at hb hn
        simp only [Completion.state] at hb hn
        obtain ⟨hm, hcalls⟩ := hn rfl
        obtain ⟨bs, h1, h2, h3, h4⟩ := ih s1
        refine ⟨bs, by rw [h1, hb], ?_, h3, fun h => ?_⟩
        · simpa [List.filter_cons, hm] using h2
        · obtain ⟨h5, h6⟩ := h4 h
          refine ⟨by simpa [List.filter_cons, hm] using h5, ?_⟩
          rw [h6, hcalls]
    · have hfilter : (m :: rest).filter (fun module => module != "Application")
          = m :: rest.filter (fun module => module != "Application") := by
        simp [List.filter_cons, hm]
      rw [hfilter]
      have hgood : ∀ b ∈ [ModuleBundle.mk m (JsObject.merge G c) r (JsObject.merge GP p)],
          b.module ≠ "Application"
            ∧ ∃ c p, (project b.module).config = .ok c
              ∧ loadPlugins (project b.module).plugins = .ok p
              ∧ (project b.module).routes = .ok b.routes
              ∧ b.config = JsObject.merge G c ∧ b.plugins = JsObject.merge GP p := by
        intro b hb0
        simp only [List.mem_singleton] at hb0
        subst hb0
        exact ⟨hm, c, p, hc, hp, hr, rfl, rfl⟩
      cases hl : loadModule obs app project G GP m s with
      | throw err s1 =>
        rw [hl] at hb
        simp only [Completion.state] at hb ⊢
        refine ⟨[ModuleBundle.mk m (JsObject.merge G c) r (JsObject.merge GP p)], hb, ?_, hgood,
          fun h => by simp [Completion.isNormal] at h⟩
        exact ⟨rest.filter (fun module => module != "Application"), rfl⟩
      | normal s1 =>
        rw [hl] at hb hn
        simp only [Completion.state] at hb hn
        have hcalls := hn rfl
        obtain ⟨bs, h1, h2, h3, h4⟩ := ih s1
        refine ⟨ModuleBundle.mk m (JsObject.merge G c) r (JsObject.merge GP p) :: bs,
          by rw [h1, hb]; simp, ?_, ?_, fun h => ?_⟩
        · simp only [List.map_cons]
          obtain ⟨t, ht⟩ := h2
          exact ⟨t, by simp [← ht]⟩
        · intro b hb0
          rcases List.mem_cons.mp hb0 with rfl | hb1
          · exact hgood _ (List.mem_singleton_self _)
          · exact h3 b hb1
        · obtain ⟨h5, h6⟩ := h4 h
          refine ⟨by simp [h5], ?_⟩
          rw [h6, hcalls]
          simp [List.flatMap_cons]

/-- What `#loadModules` hands to `#loadRoutes`, from the enumerated module list on: no
bundle at all when it throws before the global routes are loaded; otherwise the bundle of
the global module first, then the merged bundles of the other modules in enumeration
order. -/
theorem loadModulesFrom_state {ω : Type} (obs : EventsObservers ModulesEvent ω) (app : Router)
    (project : String → ModuleFiles) (modules : List String) (s : ModulesState ω) :
    ((loadModulesFrom obs app project modules s).state.bundles = s.bundles
        ∧ (loadModulesFrom obs app project modules s).isNormal = false)
      ∨ ∃ G GR GP, (project "Application").config = .ok G
          ∧ (project "Application").routes = .ok GR
          ∧ loadPlugins (project "Application").plugins = .ok GP
          ∧ ∃ bs : List ModuleBundle,
            (loadModulesFrom obs app project modules s).state.bundles
              = s.bundles ++ ModuleBundle.mk "Application" G GR GP :: bs
            ∧ bs.map (fun b => b.module)
                <+: modules.filter (fun module => module != "Application")
            ∧ (∀ b ∈ bs, b.module ≠ "Application"
                ∧ ∃ c p, (project b.module).config = .ok c
                  ∧ loadPlugins (project b.module).plugins = .ok p
                  ∧ (project b.module).routes = .ok b.routes
                  ∧ b.config = JsObject.merge G c ∧ b.plugins = JsObject.merge GP p)
            ∧ ((loadModulesFrom obs app project modules s).isNormal = true →
                bs.map (fun b => b.module)
                    = modules.filter (fun module => module != "Application")
                ∧ (loadModulesFrom obs app project modules s).state.calls.map Prod.fst
                    = s.calls.map Prod.fst ++ List.replicate GR.length "Application"
                      ++ bs.flatMap fun b => List.replicate b.routes.length b.module) := by
  unfold loadModulesFrom
  have h0 := emitMod_state obs "FoliaServerEvent_BEFORE_MODULES_LOADED" (.modules modules) s
  cases he : emitMod obs "FoliaServerEvent_BEFORE_MODULES_LOADED" (.modules modules) s with
  | throw err s1 => rw [he] at h0; exact Or.inl ⟨h0.1, rfl⟩
  | normal s1 =>
    rw [he] at h0
    simp only [Completion.state] at h0
    rw [bind_normal]
    cases hc : (project "Application").config with
    | error err => exact Or.inl ⟨h0.1, rfl⟩
    | ok G =>
      cases hr : (project "Application").routes with
      | error err => exact Or.inl ⟨h0.1, rfl⟩
      | ok GR =>
        cases hp : loadPlugins (project "Application").plugins with
        | error err => exact Or.inl ⟨h0.1, rfl⟩
        | ok GP =>
          simp only []
          right
          refine ⟨G, GR, GP, rfl, rfl, rfl, ?_⟩
          have hlb := loadRoutes_bundles obs app
            { module := "Application", routes := GR, config := G, plugins := GP } s1
          cases hl : loadRoutes obs app
              { module := "Application", routes := GR, config := G, plugins := GP } s1 with
          | throw err s2 =>
            rw [hl] at hlb
            simp only [Completion.state] at hlb
            refine ⟨[], ?_, by simp, by simp, fun h => by simp [Completion.bind, Completion.isNormal] at h⟩
            rw [bind_throw]
            simp only [Completion.state, id]
            rw [hlb, h0.1]
          | normal s2 =>
            rw [hl] at hlb
            simp only [Completion.state] at hlb
            have hlc := loadRoutes_normal obs app _ s1 s2 hl
            simp only [] at hlc
            rw [bind_normal, forEach_const]
            obtain ⟨bs, h1, h2, h3, h4⟩ := loadModule_loop obs app project G GP modules s2
            refine ⟨bs, ?_, h2, h3, ?_⟩
            · cases hloop : seqAll (loadModule obs app project G GP) modules s2 with
              | throw err s3 =>
                rw [hloop] at h1
                rw [bind_throw]
                simp only [Completion.state, id] at h1 ⊢
                rw [h1, hlb, h0.1]
                simp
              | normal s3 =>
                rw [hloop] at h1
                rw [bind_normal]
                simp only [Completion.state] at h1
                rw [(emitMod_state obs _ _ _).1]
                simp only []
                rw [h1, hlb, h0.1]
                simp
            · intro hn
              cases hloop : seqAll (loadModule obs app project G GP) modules s2 with
              | throw err s3 => rw [hloop] at hn; simp [Completion.bind, Completion.isNormal] at hn
              | normal s3 =>
                rw [hloop] at h4
                obtain ⟨h5, h6⟩ := h4 rfl
                refine ⟨h5, ?_⟩
                rw [bind_normal]
                simp only [Completion.state] at h6
                rw [(emitMod_state obs _ _ _).2.1]
                simp only []
                rw [h6, hlc, h0.2.1]

/-- C11. In every run of `#loadModules`, completed or not, every bundle handed to
`#loadRoutes` for a module other than `Application` is the merge of the global module's
config and plugins with the module's own: each key has the module's own value when the
module defines it and the global value otherwise, the keys are those of either map, the
global maps read are those imported from the `Application` module (the same for every
module, whatever was merged before), and the routes are the module's own routes. -/
theorem loadModules_bundle_merge {ω : Type} (obs : EventsObservers ModulesEvent ω)
    (app : Router) (project : String → ModuleFiles) (modules : List String) (w : ω) :
    ∃ G GP, ∀ b ∈ (loadModulesFrom obs app project modules (ModulesState.fresh w)).state.bundles,
      (b.module = "Application"
        ∧ (project "Application").config = .ok G
        ∧ loadPlugins (project "Application").plugins = .ok GP
        ∧ b.config = G ∧ b.plugins = GP ∧ (project "Application").routes = .ok b.routes)
      ∨ (b.module ≠ "Application"
        ∧ (project "Application").config = .ok G
        ∧ loadPlugins (project "Application").plugins = .ok GP
        ∧ ∃ c p, (project b.module).config = .ok c
          ∧ loadPlugins (project b.module).plugins = .ok p
          ∧ (∀ k, b.config.get k
                = match c.get k with
                  | some own => some own
                  | none => G.get k)
          ∧ (∀ k, b.config.has k = (G.has k || c.has k))
          ∧ (∀ k, b.plugins.get k
                = match p.get k with
                  | some own => some own
                  | none => GP.get k)
          ∧ (∀ k, b.plugins.has k = (GP.has k || p.has k))
          ∧ (project b.module).routes = .ok b.routes) := by
  rcases loadModulesFrom_state obs app project modules (ModulesState.fresh w)
    with ⟨hb, -⟩ | ⟨G, GR, GP, hG, hGR, hGP, bs, hbs, -, hgood, -⟩
  · refine ⟨[], [], fun b hmem => ?_⟩
    rw [hb] at hmem
    simp [ModulesState.fresh] at hmem
  · refine ⟨G, GP, fun b hmem => ?_⟩
    rw [hbs] at hmem
    simp only [ModulesState.fresh, List.nil_append, List.mem_cons] at hmem
    rcases hmem with rfl | hmem
    · exact Or.inl ⟨rfl, hG, hGP, rfl, rfl, hGR⟩
    · obtain ⟨hne, c, p, hc, hp, hr, hcfg, hpl⟩ := hgood b hmem
      refine Or.inr ⟨hne, hG, hGP, c, p, hc, hp, ?_, ?_, ?_, ?_, hr⟩
      · intro k; rw [hcfg]; exact get_merge G c k
      · intro k; rw [hcfg]; exact has_merge G c k
      · intro k; rw [hpl]; exact get_merge GP p k
      · intro k; rw [hpl]; exact has_merge GP p k

theorem count_registrationOrder_application (modules : List String) :
    (registrationOrder modules).count "Application" = 1 := by
  unfold registrationOrder
  rw [List.count_cons_self]
  have : (modules.filter fun module => module != "Application").count "Application" = 0 := by
    rw [List.count_eq_zero]
    intro hmem
    simp at hmem
  rw [this]

theorem count_registrationOrder (modules : List String) (hnodup : modules.Nodup) (m : String)
    (hm : m ∈ modules) : (registrationOrder modules).count m = 1 := by
  by_cases hApp : m = "Application"
  · rw [hApp]; exact count_registrationOrder_application modules
  · unfold registrationOrder
    rw [List.count_cons_of_ne hApp]
    apply List.count_eq_one_of_mem (hnodup.filter _)
    simp [hm, hApp]

/-- C17. In every run of `#loadModules` from the enumerated module list on, `#loadRoutes` is
called first for the module name `Application` and then for the other modules in
enumeration order, the `Application` entry of the list being skipped: the module names of
the calls made form a prefix of that order, and the whole of it when the run completes. A
completed run registered the routes of each module under that module, one transport call
per route, module after module in that order; `Application` was loaded exactly once and,
the enumerated names being distinct, so was every enumerated module. -/
theorem loadModules_registration_order {ω : Type} (obs : EventsObservers ModulesEvent ω)
    (app : Router) (project : String → ModuleFiles) (modules : List String) (w : ω) :
    ((loadModulesFrom obs app project modules (ModulesState.fresh w)).state.bundles.map
        (fun b => b.module) <+: registrationOrder modules)
    ∧ (∀ s1, loadModulesFrom obs app project modules (ModulesState.fresh w) = .normal s1 →
        s1.bundles.map (fun b => b.module) = registrationOrder modules
        ∧ (∀ b ∈ s1.bundles, (project b.module).routes = .ok b.routes)
        ∧ s1.calls.map Prod.fst
            = s1.bundles.flatMap (fun b => List.replicate b.routes.length b.module)
        ∧ (s1.bundles.map (fun b => b.module)).count "Application" = 1
        ∧ (modules.Nodup →
            ∀ m ∈ modules, (s1.bundles.map (fun b => b.module)).count m = 1)) := by
  rcases loadModulesFrom_state obs app project modules (ModulesState.fresh w)
    with ⟨hb, hn⟩ | ⟨G, GR, GP, hG, hGR, hGP, bs, hbs, hpre, hgood, hnormal⟩
  · refine ⟨?_, fun s1 h1 => ?_⟩
    · rw [hb]; simp [ModulesState.fresh]
    · rw [h1] at hn; simp [Completion.isNormal] at hn
  · refine ⟨?_, fun s1 h1 => ?_⟩
    · rw [hbs]
      simp only [ModulesState.fresh, List.nil_append, List.map_cons, registrationOrder]
      obtain ⟨t, ht⟩ := hpre
      exact ⟨t, by simp [← ht]⟩
    · rw [h1] at hbs hnormal
      simp only [Completion.state, ModulesState.fresh, List.nil_append, List.map_nil] at hbs hnormal
      obtain ⟨hnames, hcalls⟩ := hnormal rfl
      have horder : s1.bundles.map (fun b => b.module) = registrationOrder modules := by
        rw [hbs]
        simp only [List.map_cons, registrationOrder, hnames]
      refine ⟨horder, ?_, ?_, ?_, ?_⟩
      · intro b hmem
        rw [hbs] at hmem
        rcases List.mem_cons.mp hmem with rfl | hmem
        · exact hGR
        · exact (hgood b hmem).2.choose_spec.choose_spec.2.2.1
      · rw [hcalls, hbs]
        simp [List.flatMap_cons]
      · rw [horder]; exact count_registrationOrder_application modules
      · intro hnodup m hm
        rw [horder]; exact count_registrationOrder modules hnodup m hm

/-- Run of `#loadModules` on the example project with the enumerated modules `Blog` and
`Application`, without observers. -/
theorem loadModulesFrom_example :
    loadModulesFrom (EventsObservers.empty : EventsObservers ModulesEvent Unit) Example.app
        Example.project ["Blog", "Application"] (ModulesState.fresh ())
      = .normal
          { bundles :=
              [{ module := "Application",
                 config := [("title", .string "Folia"), ("debug", .bool false)],
                 routes := [Example.useRoute],
                 plugins := [("Mailer", .object "globalMailer"), ("Logger", .object "logger")] },
               { module := "Blog",
                 config := [("title", .string "Blog"), ("debug", .bool false)],
                 routes := [Example.postsRoute],
                 plugins := [("Mailer", .object "blogMailer"), ("Logger", .object "logger")] }],
            calls :=
              [("Application",
                 { router := "app", method := "use", args := [.handler (.function "handler")] }),
               ("Blog",
                 { router := "app", method := "get",
                   args := [.path (.string "/posts"), .middlewares [],
                            .dispatch "Posts" "list"] })],
            errorHandler := true, world := () } := by
  simp only [loadModulesFrom, loadRoutes, loadModule, seqAll, forEach_const]
  rfl

/-! ## Boot -/

theorem bootExtensions_state {ω : Type} (obs : EventsObservers ExtensionsData ω)
    (extensionsFile : Except String (List Extension)) (s : BootState ω) :
    (bootExtensions obs extensionsFile s).state.stages = s.stages ++ [.extensions]
      ∧ (bootExtensions obs extensionsFile s).state.fs = s.fs
      ∧ (bootExtensions obs extensionsFile s).state.fsCalls = s.fsCalls
      ∧ (∀ exts, extensionsFile = .ok exts →
          (bootExtensions obs extensionsFile s).state.initialised
            = (loadExtensions obs exts
                { extensions := s.extensions, initialised := s.initialised,
                  world := s.world }).state.initialised) := by
  unfold bootExtensions
  cases extensionsFile with
  | error err => exact ⟨rfl, rfl, rfl, fun exts h => by simp at h⟩
  | ok extensions =>
    simp only []
    cases hl : loadExtensions obs extensions
        { extensions := s.extensions, initialised := s.initialised, world := s.world } with
    | normal e =>
      refine ⟨rfl, rfl, rfl, fun exts h => ?_⟩
      simp only [Except.ok.injEq] at h
      subst h
      rw [hl]; rfl
    | throw err e =>
      refine ⟨rfl, rfl, rfl, fun exts h => ?_⟩
      simp only [Except.ok.injEq] at h
      subst h
      rw [hl]; rfl

theorem bootArchitecture_state {ω : Type} (base modulesTree : List ArchitectureEntry)
    (localFiles : Option String) (s : BootState ω) :
    (bootArchitecture base modulesTree localFiles s).state.stages
        = s.stages ++ [.architecture]
      ∧ (bootArchitecture base modulesTree localFiles s).state.initialised = s.initialised := by
  unfold bootArchitecture
  cases loadArchitecture s.fs base modulesTree with
  | normal a => cases localFiles <;> exact ⟨rfl, rfl⟩
  | throw err a => exact ⟨rfl, rfl⟩

theorem bootModules_state {ω : Type} (obs : EventsObservers ModulesEvent ω) (app : Router)
    (project : String → ModuleFiles) (s : BootState ω) :
    (bootModules obs app project s).state.stages = s.stages ++ [.modules]
      ∧ (bootModules obs app project s).state.initialised = s.initialised := by
  unfold bootModules
  cases loadModules obs app project s.fs
      { bundles := s.bundles, calls := s.calls, errorHandler := s.errorHandler,
        world := s.world } <;> exact ⟨rfl, rfl⟩

/-- C18, amended. `init()` enters the stages in the order extension loading, architecture
reconciliation, module loading, each at most once and each only when the one before it
completed: the stages entered are the first one, two or three of that order, and all three
when `init` completes. Every `init` of an extension is invoked during the first stage, on
the file system as it was before the boot: the extensions initialised are those that
`#loadExtensions` alone initialises, and a boot that stops in the first stage has made no
call to `mkdirSync` or `writeFileSync`. -/
theorem init_stage_order {ω : Type} (obsExtensions : EventsObservers ExtensionsData ω)
    (obsModules : EventsObservers ModulesEvent ω) (app : Router)
    (extensionsFile : Except String (List Extension))
    (base modulesTree : List ArchitectureEntry) (localFiles : Option String)
    (project : String → ModuleFiles) (s : BootState ω) :
    ((init obsExtensions obsModules app extensionsFile base modulesTree localFiles project
          s).state.stages = s.stages ++ [.extensions]
      ∨ (init obsExtensions obsModules app extensionsFile base modulesTree localFiles project
          s).state.stages = s.stages ++ [.extensions, .architecture]
      ∨ (init obsExtensions obsModules app extensionsFile base modulesTree localFiles project
          s).state.stages = s.stages ++ [.extensions, .architecture, .modules])
    ∧ ((init obsExtensions obsModules app extensionsFile base modulesTree localFiles project
          s).isNormal = true →
        (init obsExtensions obsModules app extensionsFile base modulesTree localFiles project
          s).state.stages = s.stages ++ [.extensions, .architecture, .modules])
    ∧ (∀ exts, extensionsFile = .ok exts →
        (init obsExtensions obsModules app extensionsFile base modulesTree localFiles project
          s).state.initialised
          = (loadExtensions obsExtensions exts
              { extensions := s.extensions, initialised := s.initialised,
                world := s.world }).state.initialised)
    ∧ ((init obsExtensions obsModules app extensionsFile base modulesTree localFiles project
          s).state.stages = s.stages ++ [.extensions] →
        (init obsExtensions obsModules app extensionsFile base modulesTree localFiles project
          s).state.fs = s.fs
        ∧ (init obsExtensions obsModules app extensionsFile base modulesTree localFiles project
          s).state.fsCalls = s.fsCalls) := by
  obtain ⟨he1, he2, he3, he4⟩ := bootExtensions_state obsExtensions extensionsFile s
  unfold init
  cases hE : bootExtensions obsExtensions extensionsFile s with
  | throw err s1 =>
    rw [hE] at he1 he2 he3 he4
    simp only [Completion.state] at he1 he2 he3 he4
    rw [bind_throw]
    simp only [Completion.state, id]
    exact ⟨Or.inl he1, fun h => by simp [Completion.isNormal] at h, he4, fun _ => ⟨he2, he3⟩⟩
  | normal s1 =>
    rw [hE] at he1 he2 he3 he4
    simp only [Completion.state] at he1 he2 he3 he4
    rw [bind_normal]
    obtain ⟨ha1, ha2⟩ := bootArchitecture_state base modulesTree localFiles s1
    cases hA : bootArchitecture base modulesTree localFiles s1 with
    | throw err s2 =>
      rw [hA] at ha1 ha2
      simp only [Completion.state] at ha1 ha2
      rw [bind_throw]
      simp only [Completion.state, id]
      have hst : s2.stages = s.stages ++ [.extensions, .architecture] := by
        rw [ha1, he1]; simp
      refine ⟨Or.inr (Or.inl hst), fun h => by simp [Completion.isNormal] at h,
        fun exts h => by rw [ha2]; exact he4 exts h, fun h => ?_⟩
      rw [hst] at h
      simp at h
    | normal s2 =>
      rw [hA] at ha1 ha2
      simp only [Completion.state] at ha1 ha2
      rw [bind_normal]
      obtain ⟨hm1, hm2⟩ := bootModules_state obsModules app project s2
      have hst : (bootModules obsModules app project s2).state.stages
          = s.stages ++ [.extensions, .architecture, .modules] := by
        rw [hm1, ha1, he1]; simp
      refine ⟨Or.inr (Or.inr hst), fun _ => hst,
        fun exts h => by rw [hm2, ha2]; exact he4 exts h, fun h => ?_⟩
      rw [hst] at h
      simp at h

/-- Boot of the example project (extension `A`, base tree `cfg/x.txt`, no module besides the
global one), without observers: `init` completes. -/
theorem init_example :
    init (EventsObservers.empty : EventsObservers ExtensionsData Unit) EventsObservers.empty
        Example.app (.ok [Example.extA]) Example.cfgTree [] none Example.project
        (BootState.fresh Example.emptyProject ())
      = .normal
          { stages := [.extensions, .architecture, .modules],
            extensions := [Example.extA], initialised := [Example.extA],
            fs := [(["module"], .directory), (["cfg"], .directory),
                   (["cfg", "x.txt"], .file "hi")],
            fsCalls := [.mkdir "./cfg", .writeFile "./cfg/x.txt" (.str "hi")],
            bundles :=
              [{ module := "Application",
                 config := [("title", .string "Folia"), ("debug", .bool false)],
                 routes := [Example.useRoute],
                 plugins := [("Mailer", .object "globalMailer"), ("Logger", .object "logger")] }],
            calls :=
              [("Application",
                 { router := "app", method := "use", args := [.handler (.function "handler")] })],
            errorHandler := true, world := () } := by
  simp only [init, bootExtensions, bootArchitecture, bootModules, loadExtensions,
    loadArchitecture_eq, loadModules, loadModulesFrom, loadRoutes, forEach_const]
  rfl

/-- C18, witness: the boot of the example project completes, having entered the three stages
in the order extensions, architecture, modules. -/
theorem init_stage_order_witness :
    (init (EventsObservers.empty : EventsObservers ExtensionsData Unit) EventsObservers.empty
        Example.app (.ok [Example.extA]) Example.cfgTree [] none Example.project
        (BootState.fresh Example.emptyProject ())).isNormal = true
    ∧ (init (EventsObservers.empty : EventsObservers ExtensionsData Unit) EventsObservers.empty
        Example.app (.ok [Example.extA]) Example.cfgTree [] none Example.project
        (BootState.fresh Example.emptyProject ())).state.stages
      = [] ++ [.extensions, .architecture, .modules] := by
  have hn : (init (EventsObservers.empty : EventsObservers ExtensionsData Unit)
      EventsObservers.empty Example.app (.ok [Example.extA]) Example.cfgTree [] none
      Example.project (BootState.fresh Example.emptyProject ())).isNormal = true := by
    rw [init_example]; rfl
  exact ⟨hn, (init_stage_order EventsObservers.empty EventsObservers.empty Example.app
    (.ok [Example.extA]) Example.cfgTree [] none Example.project
    (BootState.fresh Example.emptyProject ())).2.1 hn⟩

/-- C18, counterexample. On a project where the directory `cfg` of the base tree is missing,
with the single extension `Failing` whose `init` throws: `init()` throws the error of the
extension, the `init` of the extension has been invoked, and the architecture has not been
reconciled (no stage but the extension stage was entered, no call to `mkdirSync` was made,
`cfg` is still missing). -/
theorem init_initialises_extension_before_architecture :
    init (EventsObservers.empty : EventsObservers ExtensionsData Unit) EventsObservers.empty
        Example.app (.ok [Example.extFailing]) Example.cfgTree [] none Example.project
        (BootState.fresh Example.emptyProject ())
      = .throw "init failed"
          { stages := [.extensions],
            extensions := [Example.extFailing], initialised := [Example.extFailing],
            fs := Example.emptyProject, fsCalls := [], bundles := [], calls := [],
            errorHandler := false, world := () }
    ∧ existsSync Example.emptyProject "cfg" = false := by
  refine ⟨?_, by decide⟩
  simp only [init, bootExtensions, loadExtensions, forEach_const]
  rfl

/-- C17, witness: on the example project with the enumerated modules `Blog` and
`Application`, `#loadModules` completes; the routes of `Application` are registered first,
then those of `Blog`. -/
theorem loadModules_registration_order_witness :
    (loadModulesFrom (EventsObservers.empty : EventsObservers ModulesEvent Unit) Example.app
        Example.project ["Blog", "Application"] (ModulesState.fresh ())).isNormal = true
    ∧ registrationOrder ["Blog", "Application"] = ["Application", "Blog"]
    ∧ (loadModulesFrom (EventsObservers.empty : EventsObservers ModulesEvent Unit) Example.app
        Example.project ["Blog", "Application"] (ModulesState.fresh ())).state.bundles.map
          (fun b => b.module) = registrationOrder ["Blog", "Application"]
    ∧ (loadModulesFrom (EventsObservers.empty : EventsObservers ModulesEvent Unit) Example.app
        Example.project ["Blog", "Application"] (ModulesState.fresh ())).state.calls.map
          Prod.fst = ["Application", "Blog"] := by
  have h := (loadModules_registration_order (EventsObservers.empty :
    EventsObservers ModulesEvent Unit) Example.app Example.project ["Blog", "Application"]
    ()).2 _ loadModulesFrom_example
  refine ⟨by rw [loadModulesFrom_example]; rfl, by decide, ?_, ?_⟩
  · rw [loadModulesFrom_example]; exact h.1
  · rw [loadModulesFrom_example]; rfl

/-- C11, witness: in the example project the global module and the module `Blog` both set
`title` and both have a plugin `Mailer`; the bundle of `Blog` has the title and the mailer
of `Blog`, and the `debug` setting and the logger of the global module. -/
theorem loadModules_bundle_merge_witness :
    ∃ b ∈ (loadModulesFrom (EventsObservers.empty : EventsObservers ModulesEvent Unit)
        Example.app Example.project ["Blog", "Application"] (ModulesState.fresh ())).state.bundles,
      b.module = "Blog"
      ∧ b.config.get "title" = some (.string "Blog")
      ∧ b.config.get "debug" = some (.bool false)
      ∧ b.plugins.get "Mailer" = some (.object "blogMailer")
      ∧ b.plugins.get "Logger" = some (.object "logger") := by
  obtain ⟨G, GP, h⟩ := loadModules_bundle_merge (EventsObservers.empty :
    EventsObservers ModulesEvent Unit) Example.app Example.project ["Blog", "Application"] ()
  rw [loadModulesFrom_example] at h ⊢
  refine ⟨_, List.mem_cons_of_mem _ (List.mem_singleton_self _), rfl, ?_⟩
  rcases h _ (List.mem_cons_of_mem _ (List.mem_singleton_self _)) with
    ⟨happ, -⟩ | ⟨-, hG, hGP, c, p, hc, hp, hcfg, -, hpl, -, -⟩
  · exact absurd happ (by decide)
  · have h1 : G = [("title", .string "Folia"), ("debug", .bool false)] := by
      have : (Example.project "Application").config
          = .ok [("title", .string "Folia"), ("debug", .bool false)] := rfl
      rw [this] at hG
      exact (Except.ok.inj hG).symm
    have h2 : GP = [("Mailer", .object "globalMailer"), ("Logger", .object "logger")] := by
      have : loadPlugins (Example.project "Application").plugins
          = .ok [("Mailer", .object "globalMailer"), ("Logger", .object "logger")] := rfl
      rw [this] at hGP
      exact (Except.ok.inj hGP).symm
    have h3 : c = [("title", .string "Blog")] := by
      have : (Example.project "Blog").config = .ok [("title", .string "Blog")] := rfl
      simp only [] at hc
      rw [this] at hc
      exact (Except.ok.inj hc).symm
    have h4 : p = [("Mailer", .object "blogMailer")] := by
      have : loadPlugins (Example.project "Blog").plugins
          = .ok [("Mailer", .object "blogMailer")] := rfl
      simp only [] at hp
      rw [this] at hp
      exact (Except.ok.inj hp).symm
    subst h1 h2 h3 h4
    exact ⟨by rw [hcfg]; rfl, by rw [hcfg]; rfl, by rw [hpl]; rfl, by rw [hpl]; rfl⟩

/-! ## Routes: middlewares -/

theorem normaliseHooks_ok_iff (path : JsValue) (hooks : List Hook) (ms : List JsValue) :
    normaliseHooks path hooks = .ok ms ↔ hooks.map Hook.normalised = ms.map some := by
  induction hooks generalizing ms with
  | nil =>
    simp only [normaliseHooks, List.map_nil]
    constructor
    · intro h
      have : ms = [] := (Except.ok.inj h).symm
      rw [this]; rfl
    · intro h
      have : ms = [] := by
        cases ms with
        | nil => rfl
        | cons m rest => simp at h
      rw [this]
  | cons hook rest ih =>
    have hmap : ∀ v, (Except.map (fun vs => v :: vs) (normaliseHooks path rest) = .ok ms
        ↔ ∃ tail, ms = v :: tail ∧ normaliseHooks path rest = .ok tail) := by
      intro v
      cases hr : normaliseHooks path rest with
      | error err => simp [Except.map]
      | ok tail0 =>
        simp only [Except.map, Except.ok.injEq]
        constructor
        · intro h; exact ⟨tail0, h.symm, rfl⟩
        · rintro ⟨tail, h1, h2⟩; rw [h1, h2]
    cases hook with
    | function name =>
      simp only [normaliseHooks, List.map_cons, Hook.normalised]
      rw [hmap]
      constructor
      · rintro ⟨tail, rfl, h⟩
        rw [List.map_cons, (ih tail).mp h]
      · intro h
        cases ms with
        | nil => simp at h
        | cons m tail =>
          simp only [List.map_cons, List.cons.injEq, Option.some.injEq] at h
          exact ⟨tail, by rw [h.1], (ih tail).mpr h.2⟩
    | invokable result =>
      cases result with
      | error err =>
        simp only [normaliseHooks, List.map_cons, Hook.normalised]
        constructor
        · intro h; simp at h
        · intro h
          cases ms with
          | nil => simp at h
          | cons m tail => simp at h
      | ok v =>
        simp only [normaliseHooks, List.map_cons, Hook.normalised]
        rw [hmap]
        constructor
        · rintro ⟨tail, rfl, h⟩
          rw [List.map_cons, (ih tail).mp h]
        · intro h
          cases ms with
          | nil => simp at h
          | cons m tail =>
            simp only [List.map_cons, List.cons.injEq, Option.some.injEq] at h
            exact ⟨tail, by rw [h.1], (ih tail).mpr h.2⟩
    | other v =>
      simp only [normaliseHooks, List.map_cons, Hook.normalised]
      constructor
      · intro h; split at h <;> simp at h
      · intro h
        cases ms with
        | nil => simp at h
        | cons m tail => simp at h

theorem normaliseHooks_error_of_mem (path : JsValue) (hooks : List Hook)
    (h : ∃ hook ∈ hooks, hook.normalised = none) :
    ∃ err, normaliseHooks path hooks = .error err := by
  cases hn : normaliseHooks path hooks with
  | error err => exact ⟨err, rfl⟩
  | ok ms =>
    exfalso
    have hmap := (normaliseHooks_ok_iff path hooks ms).mp hn
    obtain ⟨hook, hmem, hnone⟩ := h
    have : hook.normalised ∈ hooks.map Hook.normalised := List.mem_map.mpr ⟨hook, hmem, rfl⟩
    rw [hmap, hnone] at this
    simp at this

/-- The error of the first entry that is neither a function nor has an `invoke` member:
the route-hook error, unless the entry is `null` or `undefined`. -/
theorem normaliseHooks_first_other (path : JsValue) (pre post : List Hook) (v : JsValue)
    (hpre : ∀ hook ∈ pre, hook.normalised ≠ none) :
    normaliseHooks path (pre ++ .other v :: post)
      = .error
          (if v = .undefined || v = .null then
            "TypeError: Cannot read properties of " ++ v.display ++ " (reading 'invoke')"
          else
            "Incorrect type for route's hook ! Expected 'Function' or 'Object' with a " ++
            "'invoke' method but found '" ++ v.json ++ "'\nAt route with path '" ++
            path.display ++ "'") := by
  induction pre with
  | nil =>
    simp only [List.nil_append, normaliseHooks]
    split <;> rfl
  | cons hook rest ih =>
    have hrest := ih (fun h hh => hpre h (List.mem_cons_of_mem _ hh))
    have hhook := hpre hook (List.mem_cons_self _ _)
    rw [List.cons_append]
    cases hook with
    | function name => simp only [normaliseHooks, hrest]; rfl
    | invokable result =>
      cases result with
      | error err => simp [Hook.normalised] at hhook
      | ok w => simp only [normaliseHooks, hrest]; rfl
    | other w => simp [Hook.normalised] at hhook

theorem validateRoute_array (route : Route) (hooks : List Hook)
    (hm : route.middlewares = .array hooks) (method : String) (ms : List JsValue)
    (h : validateRoute route = .ok (method, ms)) :
    normaliseHooks route.path hooks = .ok ms := by
  unfold validateRoute at h
  split at h
  · simp at h
  · split at h
    · simp at h
    · split at h
      · simp at h
      · split at h
        · rw [hm] at h
          simp only [] at h
          cases hn : normaliseHooks route.path hooks with
          | error err => rw [hn] at h; simp [Except.map] at h
          | ok ms0 =>
            rw [hn] at h
            simp only [Except.map, Except.ok.injEq, Prod.mk.injEq] at h
            rw [h.2]
        · simp at h

theorem validateRoute_error_of_hooks (route : Route) (hooks : List Hook)
    (hm : route.middlewares = .array hooks) (err : String)
    (h : normaliseHooks route.path hooks = .error err) :
    ∃ err1, validateRoute route = .error err1 := by
  cases hv : validateRoute route with
  | error err1 => exact ⟨err1, rfl⟩
  | ok mm =>
    obtain ⟨method, ms⟩ := mm
    rw [validateRoute_array route hooks hm method ms hv] at h
    simp at h

/-- Once `path` and `method` are accepted, the outcome of the validation is that of the
normalisation of the middlewares. -/
theorem validateRoute_of_falsy (route : Route) (hooks : List Hook)
    (hm : route.middlewares = .array hooks) (method : String)
    (h : validateRoute { route with middlewares := .falsy } = .ok (method, [])) :
    validateRoute route = (normaliseHooks route.path hooks).map (fun ms => (method, ms)) := by
  unfold validateRoute at h ⊢
  simp only [] at h
  split
  · rename_i h1; rw [if_pos h1] at h; simp at h
  · rename_i h1
    rw [if_neg h1] at h
    split
    · rename_i h2; rw [if_pos h2] at h; simp at h
    · rename_i h2
      rw [if_neg h2] at h
      split
      · rename_i h3; rw [if_pos h3] at h; simp at h
      · rename_i h3
        rw [if_neg h3] at h
        cases hmeth : route.method with
        | string m =>
          rw [hmeth] at h
          simp only [Except.ok.injEq, Prod.mk.injEq, and_true] at h
          simp only [hm, h]
        | undefined => rw [hmeth] at h; simp at h
        | null => rw [hmeth] at h; simp at h
        | bool b => rw [hmeth] at h; simp at h
        | number n => rw [hmeth] at h; simp at h
        | nan => rw [hmeth] at h; simp at h
        | function f => rw [hmeth] at h; simp at h
        | object t => rw [hmeth] at h; simp at h

theorem loadRoute_validation_error {ω : Type} (obs : EventsObservers RouteEvent ω)
    (app : Router) (route : Route) (s : RoutesState ω)
    (hq : QuietOn obs "FoliaServerEvent_BEFORE_ROUTE_LOADED") (err : String)
    (hv : validateRoute route = .error err) :
    (loadRoute obs app route s).error? = some err := by
  have hn := emitRoute_quiet obs _ (by decide) hq (.before route) s
  unfold loadRoute
  cases he : emitRoute obs "FoliaServerEvent_BEFORE_ROUTE_LOADED" (.before route) s with
  | throw e s1 => rw [he] at hn; simp [Completion.isNormal] at hn
  | normal s1 =>
    rw [bind_normal, hv]
    rfl

/-- C14, amended. For a route whose `middlewares` is an array: when processing the route
completes, the normalised list has the length and the order of the declared one, a
declared function (without `invoke` member) being kept and an entry with an `invoke` member
being replaced by what `invoke()` returns, whatever that is; this list is handed to the
transport layer as the second argument of the one call made, except for a `use` route
without path, whose call has the handler as only argument. An entry that is neither a
function nor has an `invoke` member that returns makes processing throw with no call made;
when `path` and `method` are accepted and no observer of `BEFORE_ROUTE_LOADED` throws, the
error thrown for the first such entry, when it has no `invoke` member and is neither `null`
nor `undefined`, is the route-hook error. -/
theorem loadRoute_normalises_middlewares {ω : Type} (obs : EventsObservers RouteEvent ω)
    (app : Router) (route : Route) (hooks : List Hook)
    (hm : route.middlewares = .array hooks) (s : RoutesState ω) :
    (∀ s1, loadRoute obs app route s = .normal s1 →
        ∃ method ms, validateRoute route = .ok (method, ms)
          ∧ hooks.map Hook.normalised = ms.map some
          ∧ ∃ call, s1.calls = s.calls ++ [call]
            ∧ ((method = "use" ∧ route.path.truthy = false
                  ∧ call.args = [.handler route.handler])
              ∨ call.args.get? 1 = some (.middlewares ms)))
    ∧ ((∃ hook ∈ hooks, hook.normalised = none) →
        (loadRoute obs app route s).isNormal = false
          ∧ (loadRoute obs app route s).state.calls = s.calls)
    ∧ (∀ method, validateRoute { route with middlewares := .falsy } = .ok (method, []) →
        QuietOn obs "FoliaServerEvent_BEFORE_ROUTE_LOADED" →
        ∀ pre v post, hooks = pre ++ .other v :: post →
          (∀ hook ∈ pre, hook.normalised ≠ none) →
          v ≠ .undefined → v ≠ .null →
          (loadRoute obs app route s).error?
            = some
                ("Incorrect type for route's hook ! Expected 'Function' or 'Object' with a "
                  ++ "'invoke' method but found '" ++ v.json ++ "'\nAt route with path '" ++
                  route.path.display ++ "'")) := by
  refine ⟨fun s1 h1 => ?_, fun hbad => ?_,
    fun method hfalsy hq pre v post hsplit hpre hu hn => ?_⟩
  · rcases loadRoute_calls obs app route s with ⟨hn, -⟩ | ⟨method, ms, hv, huse | hctl⟩
    · rw [h1] at hn; simp [Completion.isNormal] at hn
    · obtain ⟨hmeth, -, hcalls⟩ := huse
      rw [h1] at hcalls
      simp only [Completion.state] at hcalls
      refine ⟨method, ms, hv,
        (normaliseHooks_ok_iff _ _ _).mp (validateRoute_array route hooks hm method ms hv),
        _, hcalls, ?_⟩
      by_cases hp : route.path.truthy = true
      · right; simp [hp]
      · left
        have hp1 : route.path.truthy = false := by simpa using hp
        exact ⟨hmeth, hp1, by simp [hp1]⟩
    · obtain ⟨-, name, action, -, hcalls⟩ := hctl
      rw [h1] at hcalls
      simp only [Completion.state] at hcalls
      exact ⟨method, ms, hv,
        (normaliseHooks_ok_iff _ _ _).mp (validateRoute_array route hooks hm method ms hv),
        _, hcalls, Or.inr rfl⟩
  · obtain ⟨err, herr⟩ := normaliseHooks_error_of_mem route.path hooks hbad
    obtain ⟨err1, herr1⟩ := validateRoute_error_of_hooks route hooks hm err herr
    rcases loadRoute_calls obs app route s with h | ⟨method, ms, hv, -⟩
    · exact h
    · rw [herr1] at hv; simp at hv
  · apply loadRoute_validation_error obs app route s hq
    rw [validateRoute_of_falsy route hooks hm method hfalsy, hsplit,
      normaliseHooks_first_other route.path pre post v hpre]
    simp [hu, hn, Except.map]

/-- C14, witness: the route `GET /posts` with the middlewares `auth` (a function) and an
object whose `invoke()` returns the function `cors` is registered with the middlewares
`[auth, cors]`. -/
theorem loadRoute_normalises_middlewares_witness :
    Example.guardedRoute.middlewares
        = .array [.function "auth", .invokable (.ok (.function "cors"))]
    ∧ loadRoute (EventsObservers.empty : EventsObservers RouteEvent Unit) Example.app
        Example.guardedRoute Example.noRoutes
      = .normal
          { calls := [{ router := "app", method := "get",
                        args := [.path (.string "/posts"),
                                 .middlewares [.function "auth", .function "cors"],
                                 .dispatch "Posts" "list"] }],
            world := () }
    ∧ ∃ method ms, validateRoute Example.guardedRoute = .ok (method, ms)
        ∧ [Hook.function "auth", .invokable (.ok (.function "cors"))].map Hook.normalised
            = ms.map some
        ∧ ∃ call,
            [({ router := "app", method := "get",
                args := [.path (.string "/posts"),
                         .middlewares [.function "auth", .function "cors"],
                         .dispatch "Posts" "list"] } : TransportCall)]
              = Example.noRoutes.calls ++ [call]
            ∧ ((method = "use" ∧ Example.guardedRoute.path.truthy = false
                  ∧ call.args = [.handler Example.guardedRoute.handler])
              ∨ call.args.get? 1 = some (.middlewares ms)) :=
  ⟨rfl, rfl,
    (loadRoute_normalises_middlewares EventsObservers.empty Example.app Example.guardedRoute
      _ rfl Example.noRoutes).1 _ rfl⟩

/-- C14, counterexample. A middleware whose `invoke()` returns the number 5 passes the
normalisation, and the list handed to the transport layer holds the number 5, which is not a
function; and the middleware `null`, which is neither a function nor an object with
`invoke`, does not fail with the route-hook error but with a `TypeError`. -/
theorem loadRoute_hands_over_non_function :
    loadRoute (EventsObservers.empty : EventsObservers RouteEvent Unit) Example.app
        Example.numberHookRoute Example.noRoutes
      = .normal
          { calls := [{ router := "app", method := "get",
                        args := [.path (.string "/posts"), .middlewares [.number 5],
                                 .dispatch "Posts" "list"] }],
            world := () }
    ∧ (JsValue.number 5).typeof = "number"
    ∧ loadRoute (EventsObservers.empty : EventsObservers RouteEvent Unit) Example.app
        Example.nullHookRoute Example.noRoutes
      = .throw "TypeError: Cannot read properties of null (reading 'invoke')"
          Example.noRoutes := by
  exact ⟨rfl, rfl, rfl⟩

/-- C15, amended. For a `use` route whose handler is a function, whose middlewares are
absent or an array of entries that normalise to the list `ms`, on a router whose `use` is
callable and a server whose observers of `BEFORE_ROUTE_LOADED` do not throw: registration
makes exactly one call `router.use(...)`; with a path declared its arguments are the path,
`ms` and the handler; without a path its only argument is the handler, and no declared
middleware is bound to the transport layer. -/
theorem loadRoute_use_binding {ω : Type} (obs : EventsObservers RouteEvent ω) (app : Router)
    (route : Route) (s : RoutesState ω) (ms : List JsValue) (name : String)
    (hhandler : route.handler = .function name)
    (hvalid : validateRoute route = .ok ("use", ms))
    (hcallable : (route.router.getD app).callable "use" = true)
    (hq : QuietOn obs "FoliaServerEvent_BEFORE_ROUTE_LOADED") :
    (loadRoute obs app route s).state.calls
      = s.calls ++ [{ router := (route.router.getD app).name, method := "use",
                      args := if route.path.truthy then
                          [.path route.path, .middlewares ms, .handler route.handler]
                        else [.handler route.handler] }] := by
  have hn := emitRoute_quiet obs _ (by decide) hq (.before route) s
  have hb := emitRoute_calls obs "FoliaServerEvent_BEFORE_ROUTE_LOADED" (.before route) s
  unfold loadRoute
  cases he : emitRoute obs "FoliaServerEvent_BEFORE_ROUTE_LOADED" (.before route) s with
  | throw e s1 => rw [he] at hn; simp [Completion.isNormal] at hn
  | normal s1 =>
    rw [he] at hb
    simp only [Completion.state] at hb
    rw [bind_normal, hvalid]
    simp only [if_true]
    rw [(then_emitRoute obs _ _ _).1]
    have hch : checkHandler route = .ok () := by
      simp [checkHandler, hhandler, JsValue.truthy, JsValue.typeof]
    unfold registerUse
    rw [hch]
    simp only []
    by_cases hp : route.path.truthy = true
    · simp only [hp, if_true]
      rw [callRouter_callable _ _ _ _ hcallable, hb]
    · have hp1 : route.path.truthy = false := by simpa using hp
      simp only [hp1, Bool.false_eq_true, if_false]
      rw [callRouter_callable _ _ _ _ hcallable, hb]

/-- C15, witness: the `use` route with path `/admin`, a handler and the middleware `auth`
is bound as `app.use('/admin', [auth], handler)`. -/
theorem loadRoute_use_binding_witness :
    (loadRoute (EventsObservers.empty : EventsObservers RouteEvent Unit) Example.app
        Example.adminUseRoute Example.noRoutes).state.calls
      = Example.noRoutes.calls
        ++ [{ router := (Example.adminUseRoute.router.getD Example.app).name, method := "use",
              args := if Example.adminUseRoute.path.truthy then
                  [.path Example.adminUseRoute.path, .middlewares [.function "auth"],
                   .handler Example.adminUseRoute.handler]
                else [.handler Example.adminUseRoute.handler] }] :=
  loadRoute_use_binding EventsObservers.empty Example.app Example.adminUseRoute
    Example.noRoutes [.function "auth"] "handler" rfl rfl rfl
    (quietOn_empty "FoliaServerEvent_BEFORE_ROUTE_LOADED")

/-- C15, counterexample. The valid `use` route without path that declares the middleware
`auth` is registered by the call `app.use(handler)`: the declared middleware is not bound
to the transport layer. -/
theorem loadRoute_use_without_path_drops_middlewares :
    Example.guardedUseRoute.middlewares = .array [.function "auth"]
    ∧ validateRoute Example.guardedUseRoute = .ok ("use", [.function "auth"])
    ∧ loadRoute (EventsObservers.empty : EventsObservers RouteEvent Unit) Example.app
        Example.guardedUseRoute Example.noRoutes
      = .normal
          { calls := [{ router := "app", method := "use",
                        args := [.handler (.function "handler")] }],
            world := () } := by
  exact ⟨rfl, rfl, rfl⟩

/-! ## Request dispatch: the context of a request -/

theorem emitReq_recorder_start (s : DispatchState (List RouteData)) :
    emitReq contextRecorder "FoliaServerEvent_ON_REQUEST_START" s
      = .normal { s with trace := s.trace ++ [.emitted "FoliaServerEvent_ON_REQUEST_START"],
                         world := s.world ++ [s.data] } := rfl

theorem emitReq_recorder_other (event : String)
    (h : event ≠ "FoliaServerEvent_ON_REQUEST_START") (hown : event ∉ objectPrototypeKeys)
    (s : DispatchState (List RouteData)) :
    emitReq contextRecorder event s
      = .normal { s with trace := s.trace ++ [.emitted event] } := by
  have hobs : contextRecorder event = none := by
    unfold contextRecorder
    rw [on_state_other _ _ _ _ h]
    rfl
  simp [emitReq, emit, hobs, hown, Completion.bind]

theorem then_emitReq_recorder (event : String)
    (h : event ≠ "FoliaServerEvent_ON_REQUEST_START") (hown : event ∉ objectPrototypeKeys)
    (c : Completion (DispatchState (List RouteData))) :
    (c.bind id fun s1 => emitReq contextRecorder event s1).state.data = c.state.data
      ∧ (c.bind id fun s1 => emitReq contextRecorder event s1).state.world = c.state.world := by
  cases c with
  | normal s1 => rw [bind_normal, emitReq_recorder_other event h hown]; exact ⟨rfl, rfl⟩
  | throw err s1 => exact ⟨rfl, rfl⟩

theorem transportSend_frame {ω : Type} (request : Request) (effect : Effect)
    (s : DispatchState ω) :
    (transportSend request effect s).state.data = s.data
      ∧ (transportSend request effect s).state.world = s.world := by
  unfold transportSend
  cases request.transport <;> exact ⟨rfl, rfl⟩

theorem sendProtocol_frame {ω : Type} (request : Request) (sendThrows : Option String)
    (prepare : Member) (s : DispatchState ω) :
    (sendProtocol request sendThrows prepare s).state.data = s.data
      ∧ (sendProtocol request sendThrows prepare s).state.world = s.world := by
  unfold sendProtocol
  cases prepare with
  | absent => cases sendThrows <;> exact ⟨rfl, rfl⟩
  | notCallable => cases sendThrows <;> exact ⟨rfl, rfl⟩
  | method throws =>
    cases throws with
    | some err => exact ⟨rfl, rfl⟩
    | none => cases sendThrows <;> exact ⟨rfl, rfl⟩

theorem handleResponse_recorder (request : Request) (s : DispatchState (List RouteData)) :
    (handleResponse contextRecorder request s).state.data = s.data
      ∧ (handleResponse contextRecorder request s).state.world = s.world := by
  have eBR := emitReq_recorder_other "FoliaServerEvent_BEFORE_RESPONSE_SENT" (by decide) (by decide)
  unfold handleResponse
  cases hr : s.data.response with
  | none => exact transportSend_frame _ _ _
  | some r =>
    simp only []
    by_cases ht : r.truthy = true
    · simp only [ht, Bool.not_true, Bool.false_eq_true, if_false]
      cases r with
      | value v => exact transportSend_frame _ _ _
      | protocol send prepare =>
        cases send with
        | absent => exact transportSend_frame _ _ _
        | notCallable => exact transportSend_frame _ _ _
        | method sendThrows =>
          simp only [eBR, bind_normal]
          obtain ⟨h1, h2⟩ := then_emitReq_recorder "FoliaServerEvent_AFTER_RESPONSE_SENT"
            (by decide) (by decide)
            (sendProtocol request sendThrows prepare
              { s with trace := s.trace ++ [.emitted "FoliaServerEvent_BEFORE_RESPONSE_SENT"] })
          rw [h1, h2]
          exact sendProtocol_frame _ _ _ _
    · simp only [ht, Bool.not_false, if_true]
      exact transportSend_frame _ _ _

theorem runAction_recorder (request : Request) (s : DispatchState (List RouteData)) :
    (runAction contextRecorder request s).state.world = s.world
      ∧ (runAction contextRecorder request s).state.data
          = match request.action with
            | .error _ => s.data
            | .ok r =>
              { s.data with
                response :=
                  match request.early with
                  | .unset => some r
                  | .value v => if v.truthy then some v else some r
                  | .promise (.ok v) => some v
                  | .promise (.error _) => some r } := by
  have eBA := emitReq_recorder_other "FoliaServerEvent_BEFORE_ACTION" (by decide) (by decide)
  have eAA := emitReq_recorder_other "FoliaServerEvent_AFTER_ACTION" (by decide) (by decide)
  unfold runAction
  rw [eBA, bind_normal]
  cases request.action with
  | error err => exact ⟨rfl, rfl⟩
  | ok r =>
    simp only []
    cases request.early with
    | unset => simp only [eAA]; exact ⟨rfl, rfl⟩
    | value v =>
      by_cases hv : v.truthy = true
      · simp only [hv, if_true, eAA]; exact ⟨rfl, rfl⟩
      · simp only [hv, if_false, eAA]
        refine ⟨rfl, ?_⟩
        simp [Completion.state]
    | promise outcome =>
      cases outcome with
      | error err => exact ⟨rfl, rfl⟩
      | ok v => simp only [eAA]; exact ⟨rfl, rfl⟩

theorem catchBlock_recorder (request : Request) (err : String)
    (s : DispatchState (List RouteData)) :
    (catchBlock contextRecorder request err s).state.data = s.data
      ∧ (catchBlock contextRecorder request err s).state.world = s.world := by
  unfold catchBlock
  rw [emitReq_recorder_other "FoliaServerEvent_ON_REQUEST_END" (by decide) (by decide)]
  exact ⟨rfl, rfl⟩

theorem tryBody_recorder (request : Request) (s : DispatchState (List RouteData)) :
    (tryBody contextRecorder request s).state.world = s.world
      ∧ (tryBody contextRecorder request s).state.data
          = match request.construct with
            | some _ => s.data
            | none =>
              match request.action with
              | .error _ => { s.data with controllerInstance := some request.id }
              | .ok r =>
                { s.data with
                  controllerInstance := some request.id,
                  response :=
                    match request.early with
                    | .unset => some r
                    | .value v => if v.truthy then some v else some r
                    | .promise (.ok v) => some v
                    | .promise (.error _) => some r } := by
  have eBC := emitReq_recorder_other "FoliaServerEvent_BEFORE_CONTROLLER_INIT" (by decide) (by decide)
  have eAC := emitReq_recorder_other "FoliaServerEvent_AFTER_CONTROLLER_INIT" (by decide) (by decide)
  unfold tryBody initController
  rw [eBC, bind_normal]
  cases request.construct with
  | some err => exact ⟨rfl, rfl⟩
  | none =>
    simp only [eAC, bind_normal]
    obtain ⟨hw, hd⟩ := runAction_recorder request
      { data := { s.data with controllerInstance := some request.id },
        trace := s.trace ++ [.emitted "FoliaServerEvent_BEFORE_CONTROLLER_INIT"]
          ++ [.construct request.id] ++ [.emitted "FoliaServerEvent_AFTER_CONTROLLER_INIT"],
        world := s.world }
    cases hrun : runAction contextRecorder request
      { data := { s.data with controllerInstance := some request.id },
        trace := s.trace ++ [.emitted "FoliaServerEvent_BEFORE_CONTROLLER_INIT"]
          ++ [.construct request.id] ++ [.emitted "FoliaServerEvent_AFTER_CONTROLLER_INIT"],
        world := s.world } with
    | throw err s2 =>
      rw [hrun] at hw hd
      simp only [Completion.state] at hw hd
      rw [bind_throw]
      simp only [Completion.state, id]
      exact ⟨hw, by rw [hd]⟩
    | normal s2 =>
      rw [hrun] at hw hd
      simp only [Completion.state] at hw hd
      rw [bind_normal]
      obtain ⟨h1, h2⟩ := handleResponse_recorder request s2
      rw [h1, h2]
      exact ⟨hw, by rw [hd]⟩

/-- With the recorder as only observer: what a request leaves in the object `data` of the
route, and what the recorder wrote down. -/
theorem dispatch_recorder (request : Request) (s : DispatchState (List RouteData)) :
    (dispatch contextRecorder request s).state.data = request.leaves s.data
      ∧ (dispatch contextRecorder request s).state.world
          = s.world ++ [requestContext request s.data] := by
  unfold dispatch
  rw [emitReq_recorder_start, bind_normal]
  obtain ⟨hw, hd⟩ := tryBody_recorder request
    { data := { s.data with req := some request.id, res := some request.id,
                            next := some request.id },
      trace := s.trace ++ [.emitted "FoliaServerEvent_ON_REQUEST_START"],
      world := s.world ++ [{ s.data with req := some request.id, res := some request.id,
                                         next := some request.id }] }
  obtain ⟨h1, h2⟩ := then_emitReq_recorder "FoliaServerEvent_ON_REQUEST_END" (by decide) (by decide)
    (tryBody contextRecorder request
      { data := { s.data with req := some request.id, res := some request.id,
                              next := some request.id },
        trace := s.trace ++ [.emitted "FoliaServerEvent_ON_REQUEST_START"],
        world := s.world ++ [{ s.data with req := some request.id, res := some request.id,
                                           next := some request.id }] })
  rw [hd] at h1
  rw [hw] at h2
  have hleaves : request.leaves s.data
      = match request.construct with
        | some _ =>
          { s.data with req := some request.id, res := some request.id,
                        next := some request.id }
        | none =>
          match request.action with
          | .error _ =>
            { s.data with req := some request.id, res := some request.id,
                          next := some request.id, controllerInstance := some request.id }
          | .ok r =>
            { s.data with
              req := some request.id, res := some request.id, next := some request.id,
              controllerInstance := some request.id,
              response :=
                match request.early with
                | .unset => some r
                | .value v => if v.truthy then some v else some r
                | .promise (.ok v) => some v
                | .promise (.error _) => some r } := by
    unfold Request.leaves requestContext
    cases request.construct with
    | some err => rfl
    | none => cases request.action <;> rfl
  rw [hleaves]
  unfold tryBlock
  cases hb : (tryBody contextRecorder request
      { data := { s.data with req := some request.id, res := some request.id,
                              next := some request.id },
        trace := s.trace ++ [.emitted "FoliaServerEvent_ON_REQUEST_START"],
        world := s.world ++ [{ s.data with req := some request.id, res := some request.id,
                                           next := some request.id }] }).bind id
      fun s1 => emitReq contextRecorder "FoliaServerEvent_ON_REQUEST_END" s1 with
  | normal s2 =>
    rw [hb] at h1 h2
    simp only [Completion.state] at h1 h2 ⊢
    exact ⟨h1, h2⟩
  | throw err s2 =>
    rw [hb] at h1 h2
    simp only [Completion.state] at h1 h2
    simp only []
    obtain ⟨h3, h4⟩ := catchBlock_recorder request err s2
    rw [h3, h4]
    exact ⟨h1, h2⟩

/-- The request context is the object `data` of the route, shared by all the requests
dispatched on it. For every route and every sequence of requests dispatched one
after the other on it, with an observer of `ON_REQUEST_START` that writes down the context
it receives and no other observer: the context of a request holds the `req`, `res` and
`next` of that request, those of the request before it being replaced, and it still
carries the `controllerInstance` and the `response` that the requests before it left in
the object: the instance of the last request whose constructor returned, and the response
of the last request whose action returned. -/
theorem serve_shares_route_data (requests : List Request)
    (s : DispatchState (List RouteData)) :
    (serve contextRecorder requests s).world = s.world ++ contextsSeen requests s.data
    ∧ (∀ (request : Request) (data : RouteData),
        (requestContext request data).req = some request.id
        ∧ (requestContext request data).res = some request.id
        ∧ (requestContext request data).next = some request.id
        ∧ (requestContext request data).controllerInstance = data.controllerInstance
        ∧ (requestContext request data).response = data.response)
    ∧ (∀ (request : Request) (data : RouteData),
        (request.leaves data).req = some request.id
        ∧ (request.construct = none →
            (request.leaves data).controllerInstance = some request.id)
        ∧ (∀ r, request.construct = none → request.action = .ok r →
            request.early = .unset → (request.leaves data).response = some r)) := by
  refine ⟨?_, fun request data => ⟨rfl, rfl, rfl, rfl, rfl⟩, fun request data => ?_⟩
  · induction requests generalizing s with
    | nil => simp [serve, contextsSeen]
    | cons request rest ih =>
      obtain ⟨hd, hw⟩ := dispatch_recorder request s
      simp only [serve, contextsSeen]
      rw [ih, hd, hw]
      simp
  · refine ⟨?_, fun hc => ?_, fun r hc ha he => ?_⟩
    · unfold Request.leaves
      cases request.construct with
      | some err => rfl
      | none => cases request.action <;> rfl
    · unfold Request.leaves
      rw [hc]
      cases request.action <;> rfl
    · unfold Request.leaves
      rw [hc, ha, he]

/-- C16, evaluation at the failing input. Two requests dispatched one after the other on the
route `/items`: the action of the first returns the text `done`, the action of the second
returns nothing.
The context handed to the observers of `ON_REQUEST_START` for the second request carries
the controller instance and the response of the first request; and the object that was the
context of the first request holds the `req`, `res` and `next` of the second. -/
theorem dispatch_context_carries_previous_request :
    (serve contextRecorder [Example.returning (.value (.string "done")), Example.second]
        Example.idleRecorded).world
      = [{ path := "/items", controller := "C", action := "list", req := some 1,
           res := some 1, next := some 1, controllerInstance := none, response := none },
         { path := "/items", controller := "C", action := "list", req := some 2,
           res := some 2, next := some 2, controllerInstance := some 1,
           response := some (.value (.string "done")) }]
    ∧ (dispatch contextRecorder (Example.returning (.value (.string "done")))
        Example.idleRecorded).state.data.req = some 1
    ∧ (serve contextRecorder [Example.returning (.value (.string "done")), Example.second]
        Example.idleRecorded).data.req = some 2 := by
  exact ⟨rfl, rfl, rfl⟩

/-! ## Architecture: files, directories and guards -/

theorem mem_setFile_self (files : List (String × Templated)) (key : String)
    (content : Templated) : (key, content) ∈ setFile files key content := by
  unfold setFile
  split
  · rename_i hany
    simp only [List.any_eq_true, beq_iff_eq] at hany
    obtain ⟨e, he, hek⟩ := hany
    exact List.mem_map.mpr ⟨e, he, by simp [hek]⟩
  · simp

/-- C19, amended. In the architecture scan an entry is treated as a file exactly when its
content is truthy, and as a directory when it has no content or the empty string as
content. For an entry with truthy content, the segments of the path before the last one are
the directories considered (each is recorded unless it exists or is recorded already), the
last one is not; when the last segment is not empty and the file does not exist, the file is
recorded in `filesToCreate` with that content, and otherwise `filesToCreate` is unchanged.
For an entry without truthy content every segment, the last one included, is considered as
a directory, and `filesToCreate` is unchanged. -/
theorem verifyArchitecture_file_iff_truthy (fs : FileSystem) (p : String)
    (content : Option Templated) (data : ArchitectureData) :
    (Templated.truthy content = true →
      ∃ text file data1, content = some text ∧ (split p).getLast? = some file
        ∧ verifyArchitecture fs (.str p) content data = .normal data1
        ∧ data1.directoriesToCreate
            = recordAll fs (dirPaths (split p).dropLast ".") data.directoriesToCreate
        ∧ (∀ q ∈ dirPaths (split p).dropLast ".",
            existsSync fs q = true ∨ q ∈ data1.directoriesToCreate)
        ∧ (file ≠ "" →
            existsSync fs (joinPath (split p).dropLast "." ++ "/" ++ file) = false →
            (joinPath (split p).dropLast "." ++ "/" ++ file, text) ∈ data1.filesToCreate)
        ∧ ((file = "" ∨ existsSync fs (joinPath (split p).dropLast "." ++ "/" ++ file) = true)
            → data1.filesToCreate = data.filesToCreate))
    ∧ (Templated.truthy content = false →
      ∃ data1, verifyArchitecture fs (.str p) content data = .normal data1
        ∧ data1.directoriesToCreate
            = recordAll fs (dirPaths (split p) ".") data.directoriesToCreate
        ∧ (∀ q ∈ dirPaths (split p) ".",
            existsSync fs q = true ∨ q ∈ data1.directoriesToCreate)
        ∧ joinPath (split p) "." ∈ dirPaths (split p) "."
        ∧ data1.filesToCreate = data.filesToCreate) := by
  constructor
  · intro ht
    cases hc : content with
    | none => rw [hc] at ht; simp [Templated.truthy] at ht
    | some text =>
      cases hl : (split p).getLast? with
      | none => exact absurd (List.getLast?_eq_none_iff.mp hl) (split_ne_nil p)
      | some file =>
        rw [hc] at ht
        have hd : dirTargets p (some text) = dirPaths (split p).dropLast "." := by
          simp [dirTargets, ht]
        refine ⟨text, file, _, rfl, rfl, verifyArchitecture_str fs p (some text) data, ?_, ?_,
          ?_, ?_⟩
        · simp only [hd]
        · intro q hq
          simp only [hd]
          exact recordAll_mem fs _ _ q hq
        · intro hfile hex
          have hft : fileTarget p (some text)
              = some (joinPath (split p).dropLast "." ++ "/" ++ file, text) := by
            simp [fileTarget, ht, hl, hfile]
          simp only [hft, hex, Bool.not_false, if_true]
          exact mem_setFile_self _ _ _
        · intro hor
          by_cases hfile : file = ""
          · have hft : fileTarget p (some text) = none := by
              simp [fileTarget, ht, hl, hfile]
            simp only [hft]
          · have hex : existsSync fs (joinPath (split p).dropLast "." ++ "/" ++ file) = true := by
              rcases hor with h | h
              · exact absurd h hfile
              · exact h
            have hft : fileTarget p (some text)
                = some (joinPath (split p).dropLast "." ++ "/" ++ file, text) := by
              simp [fileTarget, ht, hl, hfile]
            simp only [hft, hex, Bool.not_true, Bool.false_eq_true, if_false]
  · intro ht
    have hd : dirTargets p content = dirPaths (split p) "." := by
      simp [dirTargets, ht]
    have hft : fileTarget p content = none := by
      simp [fileTarget, ht]
    refine ⟨_, verifyArchitecture_str fs p content data, ?_, ?_,
      joinPath_mem_dirPaths _ _ (split_ne_nil p), ?_⟩
    · simp only [hd]
    · intro q hq
      simp only [hd]
      exact recordAll_mem fs _ _ q hq
    · simp only [hft]

/-- C19, counterexample. The entry `cfg/empty.txt` whose content is the empty string, on a
project without `cfg`: the scan records `./cfg` and `./cfg/empty.txt` as directories to
create and no file, and `#loadArchitecture` creates `cfg/empty.txt` as a directory. -/
theorem loadArchitecture_empty_content_makes_directory :
    loadArchitecture Example.emptyProject Example.emptyFileTree []
      = .normal
          { fs := [(["module"], .directory), (["cfg"], .directory),
                   (["cfg", "empty.txt"], .directory)],
            data := { modules := [], directoriesToCreate := ["./cfg", "./cfg/empty.txt"],
                      filesToCreate := [] },
            calls := [.mkdir "./cfg", .mkdir "./cfg/empty.txt"] } := by
  rw [loadArchitecture_eq]; rfl

theorem getEntriesToCreate_append (pre post : List ArchitectureEntry)
    (parentPath : Option Templated) :
    getEntriesToCreate (pre ++ post) parentPath
      = getEntriesToCreate pre parentPath ++ getEntriesToCreate post parentPath := by
  induction pre with
  | nil => simp [getEntriesToCreate]
  | cons e rest ih =>
    rw [List.cons_append]
    simp only [getEntriesToCreate, ih, List.append_assoc]

/-- C13, amended. An entry that declares a non-empty `requirePath` which exists at scan time
(for a module entry: exists under `module/m`) records nothing itself. Its descendants are
not covered by that `requirePath`: in the flattened list the entry keeps its own
`requirePath`, and a child that declares none gets the composed path of the entry as its
`requirePath`; such a child is handed to `verifyArchitecture`, and so recorded as missing,
whenever the path of the entry does not exist. -/
theorem scan_requirePath_guards_entry (fs : FileSystem) (data : ArchitectureData)
    (parentPath : Option Templated) (path : Templated) (content : Option Templated)
    (children : List ArchitectureEntry) (r : String) (hr : r ≠ "") :
    ({ path := childPath parentPath path, content := content,
       requirePath := some (.str r) } : EntryToCreate)
      ∈ entriesOfEntry (.mk path content children (some (.str r))) parentPath
    ∧ (existsSync fs r = true →
        verifyBaseEntry fs
          { path := childPath parentPath path, content := content,
            requirePath := some (.str r) } data = .normal data)
    ∧ (∀ m, existsSync fs ("module/" ++ m ++ "/" ++ r) = true →
        verifyModuleEntry fs m
          { path := childPath parentPath path, content := content,
            requirePath := some (.str r) } data = .normal data)
    ∧ (∀ pre post cpath ccontent cchildren p,
        children = pre ++ .mk cpath ccontent cchildren none :: post →
        childPath parentPath path = .str p → p ≠ "" →
        ({ path := childPath (some (.str p)) cpath, content := ccontent,
           requirePath := some (.str p) } : EntryToCreate)
          ∈ entriesOfEntry (.mk path content children (some (.str r))) parentPath
        ∧ (existsSync fs p = false →
            verifyBaseEntry fs
              { path := childPath (some (.str p)) cpath, content := ccontent,
                requirePath := some (.str p) } data
              = verifyArchitecture fs (childPath (some (.str p)) cpath) ccontent data)
        ∧ (∀ m, existsSync fs ("module/" ++ m ++ "/" ++ p) = false →
            verifyModuleEntry fs m
              { path := childPath (some (.str p)) cpath, content := ccontent,
                requirePath := some (.str p) } data
              = verifyArchitecture fs
                  (.str ("module/" ++ m ++ "/" ++ (childPath (some (.str p)) cpath).resolve m))
                  (ccontent.map fun c => Templated.str (c.resolve m)) data)) := by
  have hreq : childRequirePath parentPath (some (.str r)) = some (.str r) := by
    unfold childRequirePath
    simp [Templated.truthy, hr]
  have hflat : entriesOfEntry (.mk path content children (some (.str r))) parentPath
      = { path := childPath parentPath path, content := content,
          requirePath := some (.str r) }
        :: getEntriesToCreate children (some (childPath parentPath path)) := by
    simp only [entriesOfEntry, hreq]
  refine ⟨?_, ?_, ?_, ?_⟩
  · rw [hflat]; exact List.mem_cons_self _ _
  · intro hex
    simp [verifyBaseEntry, Templated.truthy, hr, existsSyncValue, hex]
  · intro m hex
    simp [verifyModuleEntry, Templated.truthy, hr, Templated.toString, hex]
  · intro pre post cpath ccontent cchildren p hsplit hp hpne
    have hcreq : childRequirePath (some (.str p)) none = some (.str p) := by
      unfold childRequirePath
      simp [Templated.truthy, hpne]
    refine ⟨?_, ?_, ?_⟩
    · rw [hflat, hsplit, hp, getEntriesToCreate_append]
      refine List.mem_cons_of_mem _ (List.mem_append_right _ ?_)
      simp only [getEntriesToCreate, entriesOfEntry, hcreq]
      exact List.mem_append_left _ (List.mem_cons_self _ _)
    · intro hex
      simp [verifyBaseEntry, Templated.truthy, hpne, existsSyncValue, hex]
    · intro m hex
      simp [verifyModuleEntry, Templated.truthy, hpne, Templated.toString, hex]

/-- C13, witness: in the tree `app` with the child `x.txt`, guarded by the `requirePath`
`module`, on a project where `module` exists and `app` does not: the entry `app` records
nothing, and its child is handed to `verifyArchitecture`. -/
theorem scan_requirePath_guards_entry_witness :
    "module" ≠ ""
    ∧ verifyBaseEntry Example.emptyProject
        { path := childPath none (.str "app"), content := none,
          requirePath := some (.str "module") } (ArchitectureData.initial [])
      = .normal (ArchitectureData.initial [])
    ∧ verifyBaseEntry Example.emptyProject
        { path := childPath (some (.str "app")) (.str "x.txt"), content := some (.str "hi"),
          requirePath := some (.str "app") } (ArchitectureData.initial [])
      = verifyArchitecture Example.emptyProject (childPath (some (.str "app")) (.str "x.txt"))
          (some (.str "hi")) (ArchitectureData.initial []) := by
  have h := scan_requirePath_guards_entry Example.emptyProject (ArchitectureData.initial [])
    none (.str "app") none [.mk (.str "x.txt") (some (.str "hi")) [] none] "module"
    (by decide)
  exact ⟨by decide, h.2.1 (by decide),
    (h.2.2.2 [] [] (.str "x.txt") (some (.str "hi")) [] "app" rfl rfl (by decide)).2.1
      (by decide)⟩

/-- C13, counterexample. The base entry `app` declares the `requirePath` `module`, which
exists, and has the child file `x.txt`; `app` itself does not exist. The scan skips the
entry `app` but not its child: it records `./app` in `directoriesToCreate` and `./app/x.txt`
in `filesToCreate`, and `#loadArchitecture` creates both. -/
theorem loadArchitecture_scans_child_of_guarded_entry :
    existsSync Example.emptyProject "module" = true
    ∧ loadArchitecture Example.emptyProject Example.guardedTree []
      = .normal
          { fs := [(["module"], .directory), (["app"], .directory),
                   (["app", "x.txt"], .file "hi")],
            data := { modules := [], directoriesToCreate := ["./app"],
                      filesToCreate := [("./app/x.txt", .str "hi")] },
            calls := [.mkdir "./app", .writeFile "./app/x.txt" (.str "hi")] } := by
  refine ⟨by decide, ?_⟩
  rw [loadArchitecture_eq]; rfl

/-! ## Architecture: parents before children -/

theorem components_append_segment (acc d : String) (hd : split d = [d]) :
    components (acc ++ "/" ++ d)
      = components acc ++ (if d != "" && d != "." then [d] else []) := by
  unfold components
  rw [split_append_slash, hd, List.filter_append]
  congr 1
  by_cases h : (d != "" && d != ".") = true
  · simp [List.filter_cons, h]
  · simp [List.filter_cons, h]

theorem parentReady_mono (fs : FileSystem) (pre pre1 : List String) (q : String)
    (h : ParentReady fs pre q) (hsub : pre ⊆ pre1) : ParentReady fs pre1 q := by
  rcases h with h | ⟨q1, hq1, hc⟩
  · exact Or.inl h
  · exact Or.inr ⟨q1, hsub hq1, hc⟩

theorem parentReady_of_mem (fs : FileSystem) (paths : List String)
    (h : ParentsFirst fs paths) (q : String) (hq : q ∈ paths) : ParentReady fs paths q := by
  obtain ⟨pre, post, hsplit⟩ := List.append_of_mem hq
  refine parentReady_mono fs pre paths q (h pre q post hsplit) ?_
  rw [hsplit]
  exact List.subset_append_left _ _

theorem parentsFirst_snoc (fs : FileSystem) (paths : List String) (q : String)
    (h : ParentsFirst fs paths) (hq : ParentReady fs paths q) :
    ParentsFirst fs (paths ++ [q]) := by
  intro pre x post hsplit
  rcases List.eq_nil_or_concat post with rfl | ⟨post1, last, rfl⟩
  · have hsplit1 : paths ++ [q] = pre ++ [x] := hsplit
    obtain ⟨h1, h2⟩ := List.append_inj' hsplit1 rfl
    simp only [List.cons.injEq, and_true] at h2
    rw [← h1, ← h2]
    exact hq
  · have hsplit1 : paths ++ [q] = (pre ++ x :: post1) ++ [last] := by
      rw [hsplit]; simp
    obtain ⟨h1, -⟩ := List.append_inj' hsplit1 rfl
    exact h pre x post1 h1

theorem settled_mono (fs : FileSystem) (recorded recorded1 : List String) (path : String)
    (h : Settled fs recorded path) (hsub : recorded ⊆ recorded1) :
    Settled fs recorded1 path := by
  rcases h with h | ⟨q1, hq1, hc⟩
  · exact Or.inl h
  · exact Or.inr ⟨q1, hsub hq1, hc⟩

/-- The loop of `verifyArchitecture` over the segments of a path keeps the recorded
directories in an order where parents come first. -/
theorem recordAll_parentsFirst (fs : FileSystem) (segs : List String)
    (hsegs : ∀ d ∈ segs, split d = [d]) (acc : String) (recorded : List String)
    (hdir : ∀ q ∈ dirPaths segs acc, existsSync fs q = true →
      fs.nodeAt (components q) = some .directory)
    (hord : ParentsFirst fs recorded) (hacc : Settled fs recorded acc) :
    ParentsFirst fs (recordAll fs (dirPaths segs acc) recorded)
      ∧ Settled fs (recordAll fs (dirPaths segs acc) recorded) (joinPath segs acc) := by
  induction segs generalizing acc recorded with
  | nil => exact ⟨hord, hacc⟩
  | cons d rest ih =>
    have hd : split d = [d] := hsegs d (List.mem_cons_self _ _)
    have hcomp := components_append_segment acc d hd
    simp only [dirPaths, recordAll, joinPath]
    have hrest : ∀ q ∈ dirPaths rest (acc ++ "/" ++ d), existsSync fs q = true →
        fs.nodeAt (components q) = some .directory :=
      fun q hq => hdir q (by simp only [dirPaths]; exact List.mem_cons_of_mem _ hq)
    have hsegs1 : ∀ x ∈ rest, split x = [x] := fun x hx => hsegs x (List.mem_cons_of_mem _ hx)
    by_cases hrec : (!existsSync fs (acc ++ "/" ++ d) && !recorded.contains (acc ++ "/" ++ d))
        = true
    · rw [if_pos hrec]
      simp only [Bool.and_eq_true, Bool.not_eq_true'] at hrec
      obtain ⟨hex, -⟩ := hrec
      have hnone : fs.nodeAt (components (acc ++ "/" ++ d)) = none := by
        unfold existsSync at hex
        cases hn : fs.nodeAt (components (acc ++ "/" ++ d)) with
        | none => rfl
        | some n => rw [hn] at hex; simp at hex
      have hready : ParentReady fs recorded (acc ++ "/" ++ d) := by
        by_cases hp : (d != "" && d != ".") = true
        · rw [if_pos hp] at hcomp
          unfold ParentReady
          rw [hcomp, List.dropLast_concat]
          rcases hacc with h | ⟨q1, hq1, hc⟩
          · exact Or.inl h
          · exact Or.inr ⟨q1, hq1, hc⟩
        · rw [if_neg hp, List.append_nil] at hcomp
          rcases hacc with h | ⟨q1, hq1, hc⟩
          · rw [hcomp, h] at hnone
            simp at hnone
          · have h1 := parentReady_of_mem fs recorded hord q1 hq1
            unfold ParentReady at h1 ⊢
            rw [hcomp, ← hc]
            exact h1
      exact ih hsegs1 (acc ++ "/" ++ d) (recorded ++ [acc ++ "/" ++ d]) hrest
        (parentsFirst_snoc fs recorded _ hord hready)
        (Or.inr ⟨_, List.mem_append_right _ (List.mem_singleton_self _), rfl⟩)
    · rw [if_neg hrec]
      have hsettled : Settled fs recorded (acc ++ "/" ++ d) := by
        by_cases hex : existsSync fs (acc ++ "/" ++ d) = true
        · exact Or.inl (hdir _ (by simp [dirPaths]) hex)
        · have hmem : acc ++ "/" ++ d ∈ recorded := by
            by_contra hno
            apply hrec
            simp [hex, hno]
          exact Or.inr ⟨_, hmem, rfl⟩
      exact ih hsegs1 (acc ++ "/" ++ d) recorded hrest hord hsettled

theorem settled_dot (fs : FileSystem) (recorded : List String) : Settled fs recorded "." := by
  left
  have : components "." = [] := by decide
  rw [this]
  rfl

/-- What the scan has recorded is in an order where parents come first, and the parent of
every recorded file is a directory or a recorded directory. -/
theorem scanStep_parentsFirst (fs : FileSystem) (item : ScanItem) (d d1 : ArchitectureData)
    (h : scanStep fs item d = .normal d1)
    (hway : ∀ q ∈ pathsOnTheWay fs item, existsSync fs q = true →
      fs.nodeAt (components q) = some .directory)
    (hord : ParentsFirst fs d.directoriesToCreate)
    (hfiles : ∀ k ∈ fileKeys d, ParentReady fs d.directoriesToCreate k) :
    ParentsFirst fs d1.directoriesToCreate
      ∧ ∀ k ∈ fileKeys d1, ParentReady fs d1.directoriesToCreate k := by
  rcases scanStep_cases fs item d d1 h with ⟨-, rfl⟩ | ⟨hpass, p, hp, rfl⟩
  · exact ⟨hord, hfiles⟩
  · have hway1 : ∀ q ∈ dirTargets p item.content, existsSync fs q = true →
        fs.nodeAt (components q) = some .directory := by
      intro q hq
      apply hway
      simp only [pathsOnTheWay, hpass, if_true, hp]
      exact hq
    have hseg : ∀ x ∈ split p, split x = [x] := fun x hx => split_segment p x hx
    have hsegs : ∀ x ∈ (if Templated.truthy item.content = true then (split p).dropLast
        else split p), split x = [x] := by
      intro x hx
      by_cases ht : Templated.truthy item.content = true
      · rw [if_pos ht] at hx
        exact hseg x (List.mem_of_mem_dropLast hx)
      · rw [if_neg ht] at hx
        exact hseg x hx
    obtain ⟨hord1, hsettled⟩ := recordAll_parentsFirst fs _ hsegs "." d.directoriesToCreate
      hway1 hord (settled_dot fs _)
    refine ⟨hord1, ?_⟩
    have hold : ∀ k ∈ fileKeys d, ParentReady fs
        (recordAll fs (dirTargets p item.content) d.directoriesToCreate) k :=
      fun k hk => parentReady_mono fs _ _ k (hfiles k hk) (recordAll_subset fs _ _)
    intro k hk
    simp only [fileKeys] at hk
    cases hft : fileTarget p item.content with
    | none =>
      rw [hft] at hk
      exact hold k hk
    | some kt =>
      obtain ⟨key, text⟩ := kt
      rw [hft] at hk
      simp only [] at hk
      by_cases hex : existsSync fs key = true
      · simp only [hex, Bool.not_true, Bool.false_eq_true, if_false] at hk
        exact hold k hk
      · simp only [hex, Bool.not_false, if_true] at hk
        rcases (mem_keys_setFile _ _ _ _).mp hk with hk1 | rfl
        · exact hold k hk1
        · -- the new key
          unfold fileTarget at hft
          cases hc : item.content with
          | none => rw [hc] at hft; simp [Templated.truthy] at hft
          | some text0 =>
            rw [hc] at hft hsettled
            by_cases ht : Templated.truthy (some text0) = true
            · simp only [ht, if_true] at hft hsettled
              cases hl : (split p).getLast? with
              | none => rw [hl] at hft; simp at hft
              | some file =>
                rw [hl] at hft
                simp only [] at hft
                by_cases hfile : file = ""
                · simp [hfile] at hft
                · have hne : (file != "") = true := by simpa using hfile
                  simp only [hne, if_true, Option.some.injEq, Prod.mk.injEq] at hft
                  obtain ⟨hkey, -⟩ := hft
                  have hfseg : split file = [file] :=
                    hseg file (List.mem_of_getLast?_eq_some hl)
                  have hcomp := components_append_segment
                    (joinPath (split p).dropLast ".") file hfseg
                  rw [hkey] at hcomp
                  have hd : dirTargets p (some text0) = dirPaths (split p).dropLast "." := by
                    simp [dirTargets, ht]
                  show ParentReady fs
                    (recordAll fs (dirTargets p (some text0)) d.directoriesToCreate) k
                  rw [hd]
                  replace hord1 : ParentsFirst fs
                      (recordAll fs (dirPaths (split p).dropLast ".") d.directoriesToCreate) := by
                    simpa only [hc, ht, if_true] using hord1
                  by_cases hproper : (file != "" && file != ".") = true
                  · rw [if_pos hproper] at hcomp
                    unfold ParentReady
                    rw [hcomp, List.dropLast_concat]
                    exact hsettled
                  · rw [if_neg hproper, List.append_nil] at hcomp
                    have hnone : fs.nodeAt (components k) = none := by
                      have hex1 : existsSync fs k = false := by simpa using hex
                      unfold existsSync at hex1
                      cases hn : fs.nodeAt (components k) with
                      | none => rfl
                      | some n => rw [hn] at hex1; simp at hex1
                    rcases hsettled with h1 | ⟨q1, hq1, hc1⟩
                    · rw [hcomp, h1] at hnone; simp at hnone
                    · have h2 := parentReady_of_mem fs _ hord1 q1 hq1
                      unfold ParentReady at h2 ⊢
                      rw [hcomp, ← hc1]
                      exact h2
            · simp [ht] at hft

theorem scan_parentsFirst (fs : FileSystem) (items : List ScanItem)
    (d d1 : ArchitectureData) (h : seqAll (scanStep fs) items d = .normal d1)
    (hway : ∀ item ∈ items, ∀ q ∈ pathsOnTheWay fs item, existsSync fs q = true →
      fs.nodeAt (components q) = some .directory)
    (hord : ParentsFirst fs d.directoriesToCreate)
    (hfiles : ∀ k ∈ fileKeys d, ParentReady fs d.directoriesToCreate k) :
    ParentsFirst fs d1.directoriesToCreate
      ∧ ∀ k ∈ fileKeys d1, ParentReady fs d1.directoriesToCreate k := by
  induction items generalizing d with
  | nil =>
    simp only [seqAll, Completion.normal.injEq] at h
    subst h
    exact ⟨hord, hfiles⟩
  | cons item rest ih =>
    simp only [seqAll] at h
    cases hs : scanStep fs item d with
    | throw err d2 => rw [hs] at h; simp at h
    | normal d2 =>
      rw [hs] at h
      obtain ⟨h1, h2⟩ := scanStep_parentsFirst fs item d d2 hs
        (hway item (List.mem_cons_self _ _)) hord hfiles
      exact ih d2 h (fun it hit => hway it (List.mem_cons_of_mem _ hit)) h1 h2

theorem createDirectory_normal_dir (path : String) (s s1 : ArchitectureState)
    (h : createDirectory path s = .normal s1) :
    s1.fs.nodeAt (components path) = some .directory
      ∧ ∀ key n, s.fs.nodeAt key = some n → s1.fs.nodeAt key = some n := by
  unfold createDirectory at h
  cases hm : mkdirSync s.fs path with
  | throw err fs1 => rw [hm] at h; simp [Completion.bind] at h
  | normal fs1 =>
    rw [hm] at h
    simp only [Completion.bind, Completion.normal.injEq] at h
    subst h
    obtain ⟨-, h2, h3⟩ := mkdirSync_normal s.fs fs1 path hm
    exact ⟨h2, h3⟩

/-- After the directories `paths` were created one after the other, each of them is a
directory, and so is every directory that was there before. -/
theorem createDirectories_normal (paths : List String) (s s1 : ArchitectureState)
    (h : seqAll createDirectory paths s = .normal s1) :
    (∀ q ∈ paths, s1.fs.nodeAt (components q) = some .directory)
      ∧ (∀ key n, s.fs.nodeAt key = some n → s1.fs.nodeAt key = some n) := by
  constructor
  · exact seqAll_normal_each (fun q t => t.fs.nodeAt (components q) = some .directory)
      createDirectory
      (fun x t t1 hx => (createDirectory_normal_dir x t t1 hx).1)
      (fun x y t t1 hq hy => (createDirectory_normal_dir y t t1 hy).2 _ _ hq) paths s s1 h
  · exact seqAll_normal_keep (fun t => ∀ key n, s.fs.nodeAt key = some n →
        t.fs.nodeAt key = some n) createDirectory
      (fun y t t1 ht hy key n hk => (createDirectory_normal_dir y t t1 hy).2 key n (ht key n hk))
      paths s s1 (fun _ _ hk => hk) h

theorem createFile_keeps_directory (file : String × Templated) (s : ArchitectureState)
    (key : List String) (h : s.fs.nodeAt key = some .directory) :
    (createFile file s).state.fs.nodeAt key = some .directory := by
  by_cases hk : key = components file.1
  · unfold createFile
    cases hc : file.2 with
    | fn source f => exact h
    | str content =>
      simp only []
      unfold writeFileSync
      rw [← hk, h]
      exact h
  · rw [(createFile_state file s).2.1 key hk]
    exact h

theorem createFiles_keep_directory (files : List (String × Templated))
    (s s1 : ArchitectureState) (h : seqAll createFile files s = .normal s1)
    (key : List String) (hkey : s.fs.nodeAt key = some .directory) :
    s1.fs.nodeAt key = some .directory :=
  seqAll_normal_keep (fun t => t.fs.nodeAt key = some .directory) createFile
    (fun y t t1 ht hy => by
      have := createFile_keeps_directory y t key ht
      rw [hy] at this
      exact this)
    files s s1 hkey h

theorem parentExists_of_ready (fs0 fs1 : FileSystem) (earlier : List String) (path : String)
    (h : ParentReady fs0 earlier path)
    (hkeep : ∀ key, fs0.nodeAt key = some .directory → fs1.nodeAt key = some .directory)
    (hmade : ∀ q ∈ earlier, fs1.nodeAt (components q) = some .directory) :
    parentExists fs1 path = true := by
  unfold parentExists
  rcases h with h | ⟨q, hq, hc⟩
  · rw [hkeep _ h]; rfl
  · rw [← hc, hmade q hq]; rfl

/-- When the parent of `path` exists, `mkdirSync(path)` fails only when `path` exists. -/
theorem mkdirSync_of_parentExists (fs : FileSystem) (path : String)
    (h : parentExists fs path = true) :
    (mkdirSync fs path).isNormal = true ∨ existsSync fs path = true := by
  unfold parentExists at h
  have hdir : fs.nodeAt (components path).dropLast = some .directory := by simpa using h
  unfold mkdirSync existsSync
  by_cases hex : (fs.nodeAt (components path)).isSome = true
  · exact Or.inr hex
  · left
    rw [if_neg hex, if_pos hdir]
    rfl

/-! ## Architecture: the calls of the update -/

theorem perform_state (call : FsCall) (s : ArchitectureState) :
    (call.perform s).state.calls = s.calls ++ [call]
      ∧ (call.perform s).state.fs = call.leaves s.fs
      ∧ (call.perform s).state.data = s.data := by
  cases call with
  | mkdir path =>
    show (createDirectory path s).state.calls = s.calls ++ [.mkdir path]
      ∧ (createDirectory path s).state.fs = (mkdirSync s.fs path).state
      ∧ (createDirectory path s).state.data = s.data
    unfold createDirectory
    cases mkdirSync s.fs path <;> exact ⟨rfl, rfl, rfl⟩
  | writeFile path content =>
    cases content with
    | fn source f => exact ⟨rfl, rfl, rfl⟩
    | str text =>
      show (createFile (path, .str text) s).state.calls = s.calls ++ [.writeFile path (.str text)]
        ∧ (createFile (path, .str text) s).state.fs = (writeFileSync s.fs path text).state
        ∧ (createFile (path, .str text) s).state.data = s.data
      unfold createFile
      simp only []
      cases writeFileSync s.fs path text <;> exact ⟨rfl, rfl, rfl⟩

/-- A call made while the parent of its path exists does not fail for a missing parent. -/
theorem perform_error (call : FsCall) (s : ArchitectureState)
    (hp : parentExists s.fs call.path = true) (err : String)
    (h : (call.perform s).error? = some err) :
    (∃ q, call = .mkdir q ∧ err = "EEXIST: file already exists, mkdir '" ++ q ++ "'")
      ∨ ∃ p content, call = .writeFile p content
          ∧ (err = "EISDIR: illegal operation on a directory, open '" ++ p ++ "'"
              ∨ err = "TypeError [ERR_INVALID_ARG_TYPE]: The \"data\" argument must be of "
                  ++ "type string") := by
  unfold parentExists at hp
  have hdir : s.fs.nodeAt (components call.path).dropLast = some .directory := by
    simpa using hp
  cases call with
  | mkdir path =>
    left
    refine ⟨path, rfl, ?_⟩
    change (createDirectory path s).error? = some err at h
    change s.fs.nodeAt (components path).dropLast = some .directory at hdir
    unfold createDirectory mkdirSync at h
    by_cases hex : (s.fs.nodeAt (components path)).isSome = true
    · rw [if_pos hex] at h
      simp only [Completion.bind, Completion.error?, Option.some.injEq] at h
      exact h.symm
    · rw [if_neg hex, if_pos hdir] at h
      simp [Completion.bind, Completion.error?] at h
  | writeFile path content =>
    right
    refine ⟨path, content, rfl, ?_⟩
    change (createFile (path, content) s).error? = some err at h
    change s.fs.nodeAt (components path).dropLast = some .directory at hdir
    unfold createFile at h
    cases content with
    | fn source f =>
      right
      simp only [Completion.error?, Option.some.injEq] at h
      rw [← h]
      rfl
    | str text =>
      left
      simp only [] at h
      unfold writeFileSync at h
      cases hn : s.fs.nodeAt (components path) with
      | none =>
        rw [hn] at h
        simp only [if_pos hdir] at h
        simp [Completion.bind, Completion.error?] at h
      | some node =>
        rw [hn] at h
        cases node with
        | directory =>
          simp only [Completion.bind, Completion.error?, Option.some.injEq] at h
          exact h.symm
        | file old => simp [Completion.bind, Completion.error?] at h

/-- A call that returns keeps the directories, and `mkdirSync` leaves a directory. -/
theorem perform_normal (call : FsCall) (s s1 : ArchitectureState)
    (h : call.perform s = .normal s1) :
    (∀ key, s.fs.nodeAt key = some .directory → s1.fs.nodeAt key = some .directory)
      ∧ (∀ q, call = .mkdir q → s1.fs.nodeAt (components q) = some .directory) := by
  cases call with
  | mkdir path =>
    change createDirectory path s = .normal s1 at h
    obtain ⟨h1, h2⟩ := createDirectory_normal_dir path s s1 h
    refine ⟨fun key hk => h2 key _ hk, fun q hq => ?_⟩
    simp only [FsCall.mkdir.injEq] at hq
    rw [← hq]
    exact h1
  | writeFile path content =>
    change createFile (path, content) s = .normal s1 at h
    refine ⟨fun key hk => ?_, fun q hq => by simp at hq⟩
    have := createFile_keeps_directory (path, content) s key hk
    rw [h] at this
    exact this

theorem fsAfter_cons (fs : FileSystem) (call : FsCall) (calls : List FsCall) :
    fsAfter fs (call :: calls) = fsAfter (call.leaves fs) calls := rfl

/-- The run of a list of calls of which each comes after the directory that holds its path
was made, unless that directory was there: the calls made, in order, are the first calls of
the list, all of it when the run completes; each was made where the parent of its path
existed; and the run does not fail for a missing parent. -/
theorem perform_all (fs0 : FileSystem) (calls : List FsCall) (Made : String → Prop)
    (s : ArchitectureState)
    (hkeep : ∀ key, fs0.nodeAt key = some .directory → s.fs.nodeAt key = some .directory)
    (hmade : ∀ q, Made q → s.fs.nodeAt (components q) = some .directory)
    (hready : ∀ pre call post, calls = pre ++ call :: post →
      fs0.nodeAt (components call.path).dropLast = some .directory
        ∨ ∃ q, (Made q ∨ FsCall.mkdir q ∈ pre)
            ∧ components q = (components call.path).dropLast) :
    ∃ done, done <+: calls
      ∧ (seqAll FsCall.perform calls s).state.calls = s.calls ++ done
      ∧ (seqAll FsCall.perform calls s).state.fs = fsAfter s.fs done
      ∧ (seqAll FsCall.perform calls s).state.data = s.data
      ∧ ((seqAll FsCall.perform calls s).isNormal = true → done = calls)
      ∧ (∀ pre call post, done = pre ++ call :: post →
          parentExists (fsAfter s.fs pre) call.path = true)
      ∧ (∀ err, (seqAll FsCall.perform calls s).error? = some err →
          (∃ q, FsCall.mkdir q ∈ calls
              ∧ err = "EEXIST: file already exists, mkdir '" ++ q ++ "'")
            ∨ ∃ p content, FsCall.writeFile p content ∈ calls
                ∧ (err = "EISDIR: illegal operation on a directory, open '" ++ p ++ "'"
                    ∨ err = "TypeError [ERR_INVALID_ARG_TYPE]: The \"data\" argument must "
                        ++ "be of type string")) := by
  induction calls generalizing s Made with
  | nil =>
    refine ⟨[], List.prefix_refl _, by simp [seqAll, Completion.state], rfl, rfl,
      fun _ => rfl, fun pre call post h => by simp at h, fun err h => ?_⟩
    simp [seqAll, Completion.error?] at h
  | cons call rest ih =>
    have hp : parentExists s.fs call.path = true := by
      unfold parentExists
      rcases hready [] call rest rfl with h | ⟨q, hq | hq, hc⟩
      · rw [hkeep _ h]; rfl
      · rw [← hc, hmade q hq]; rfl
      · simp at hq
    obtain ⟨hcalls, hfs, hdata⟩ := perform_state call s
    simp only [seqAll]
    cases hstep : call.perform s with
    | throw err s1 =>
      rw [hstep] at hcalls hfs hdata
      refine ⟨[call], by simp, hcalls, hfs, hdata,
        fun h => by simp [Completion.isNormal] at h, fun pre c post h => ?_, fun e he => ?_⟩
      · have hpre : pre = [] := by
          cases pre with
          | nil => rfl
          | cons x xs =>
            have := congrArg List.length h
            simp at this
        subst hpre
        simp only [List.nil_append, List.cons.injEq] at h
        rw [← h.1]
        exact hp
      · have herr : (call.perform s).error? = some e := by rw [hstep]; exact he
        rcases perform_error call s hp e herr with ⟨q, hq, hm⟩ | ⟨p, content, hq, hm⟩
        · exact Or.inl ⟨q, by rw [hq]; exact List.mem_cons_self _ _, hm⟩
        · exact Or.inr ⟨p, content, by rw [hq]; exact List.mem_cons_self _ _, hm⟩
    | normal s1 =>
      rw [hstep] at hcalls hfs hdata
      obtain ⟨hk1, hm1⟩ := perform_normal call s s1 hstep
      obtain ⟨done, hpre, h1, h2, h3, h4, h5, h6⟩ := ih (fun q => Made q ∨ FsCall.mkdir q = call)
        s1 (fun key hk => hk1 key (hkeep key hk))
        (fun q hq => by
          rcases hq with hq | hq
          · exact hk1 _ (hmade q hq)
          · exact hm1 q hq.symm)
        (fun pre c post hsplit => by
          rcases hready (call :: pre) c post (by rw [hsplit]; rfl) with h | ⟨q, hq | hq, hc⟩
          · exact Or.inl h
          · exact Or.inr ⟨q, Or.inl (Or.inl hq), hc⟩
          · rcases List.mem_cons.mp hq with hq | hq
            · exact Or.inr ⟨q, Or.inl (Or.inr hq), hc⟩
            · exact Or.inr ⟨q, Or.inr hq, hc⟩)
      change s1.calls = s.calls ++ [call] at hcalls
      change s1.fs = call.leaves s.fs at hfs
      change s1.data = s.data at hdata
      refine ⟨call :: done, (List.prefix_cons_inj call).mpr hpre, ?_, ?_, ?_, ?_, ?_, ?_⟩
      · rw [h1, hcalls]; simp
      · rw [h2, hfs, fsAfter_cons]
      · rw [h3, hdata]
      · intro hn; rw [h4 hn]
      · intro pre c post hsplit
        cases pre with
        | nil =>
          simp only [List.nil_append, List.cons.injEq] at hsplit
          rw [← hsplit.1]
          exact hp
        | cons x xs =>
          simp only [List.cons_append, List.cons.injEq] at hsplit
          rw [← hsplit.1, fsAfter_cons, ← hfs]
          exact h5 xs c post hsplit.2
      · intro err he
        rcases h6 err he with ⟨q, hq, hm⟩ | ⟨p, content, hq, hm⟩
        · exact Or.inl ⟨q, List.mem_cons_of_mem _ hq, hm⟩
        · exact Or.inr ⟨p, content, List.mem_cons_of_mem _ hq, hm⟩

/-- The update makes the calls `mkdirSync` for the directories to create, in the order of
the list, and then the calls `writeFileSync` for the files to create. -/
theorem updateArchitecture_perform (s : ArchitectureState) :
    updateArchitecture s
      = seqAll FsCall.perform
          (s.data.directoriesToCreate.map FsCall.mkdir
            ++ s.data.filesToCreate.map (fun file => FsCall.writeFile file.1 file.2)) s := by
  rw [updateArchitecture_eq, seqAll_append, seqAll_map]
  have hd : (fun x => FsCall.perform (FsCall.mkdir x)) = createDirectory := rfl
  have hf : (fun (x : String × Templated) => FsCall.perform (FsCall.writeFile x.1 x.2))
      = createFile := rfl
  rw [hd]
  cases hrun : seqAll createDirectory s.data.directoriesToCreate s with
  | throw err s1 => rfl
  | normal s1 =>
    have hdata : s1.data = s.data :=
      seqAll_normal_keep (fun t => t.data = s.data) createDirectory
        (fun y t t1 ht hy => ((createDirectory_keeps y t t1 hy).1).trans ht)
        _ s s1 rfl hrun
    show seqAll createFile s1.data.filesToCreate s1 = seqAll FsCall.perform _ s1
    rw [seqAll_map, hf, hdata]

theorem updateCalls_ready (fs0 : FileSystem) (dirs : List String)
    (files : List (String × Templated)) (hord : ParentsFirst fs0 dirs)
    (hfiles : ∀ file ∈ files, ParentReady fs0 dirs file.1) :
    ∀ pre call post,
      dirs.map FsCall.mkdir ++ files.map (fun file => FsCall.writeFile file.1 file.2)
        = pre ++ call :: post →
      fs0.nodeAt (components call.path).dropLast = some .directory
        ∨ ∃ q, (False ∨ FsCall.mkdir q ∈ pre)
            ∧ components q = (components call.path).dropLast := by
  intro pre call post h
  have hfile : ∀ a, dirs.map FsCall.mkdir ⊆ pre →
      files.map (fun file => FsCall.writeFile file.1 file.2) = a ++ call :: post →
      fs0.nodeAt (components call.path).dropLast = some .directory
        ∨ ∃ q, (False ∨ FsCall.mkdir q ∈ pre)
            ∧ components q = (components call.path).dropLast := by
    intro a hsub hrest
    have hmem : call ∈ files.map (fun file => FsCall.writeFile file.1 file.2) := by
      rw [hrest]; simp
    obtain ⟨file, hfile, rfl⟩ := List.mem_map.mp hmem
    rcases hfiles file hfile with h1 | ⟨q, hq, hc⟩
    · exact Or.inl h1
    · exact Or.inr ⟨q, Or.inr (hsub (List.mem_map_of_mem _ hq)), hc⟩
  rcases List.append_eq_append_iff.mp h with ⟨a, hpre, hrest⟩ | ⟨c, hdirs, hrest⟩
  · exact hfile a (by rw [hpre]; exact List.subset_append_left _ _) hrest
  · cases c with
    | nil =>
      simp only [List.append_nil] at hdirs
      simp only [List.nil_append] at hrest
      exact hfile [] (by rw [hdirs]; exact List.Subset.refl _) hrest.symm
    | cons x rest =>
      simp only [List.cons_append, List.cons.injEq] at hrest
      obtain ⟨l1, l2, hsplit, hl1, hl2⟩ := List.map_eq_append_iff.mp hdirs
      cases l2 with
      | nil => simp at hl2
      | cons q l3 =>
        simp only [List.map_cons, List.cons.injEq] at hl2
        rw [hrest.1, ← hl2.1]
        rcases hord l1 q l3 hsplit with h1 | ⟨q1, hq1, hc⟩
        · exact Or.inl h1
        · refine Or.inr ⟨q1, Or.inr ?_, hc⟩
          rw [← hl1]
          exact List.mem_map_of_mem _ hq1

/-- C20. The creation phase of `#loadArchitecture`, run on what the scan recorded on a file
system where every existing path on the way to a scanned entry is a directory.
`directoriesToCreate` lists every directory after its parent, unless the parent is a
directory that existed. The update is the creation phase of the reconciliation; the calls
it makes are, in order, the first calls of: `mkdirSync` for each directory to create, in
the order of the list, then `writeFileSync` for each file to create, and all of them when
the update completes. Each call, `mkdirSync(path)` or `writeFileSync(path, content)`, is
made on the file system left by the calls before it, and there the parent of `path` is a
directory. So the update never fails for a missing parent: when it throws, `mkdirSync` has
met a path that exists, or `writeFileSync` a directory or a content that is a function. -/
theorem update_never_misses_parent (fs0 : FileSystem) (base modules : List ArchitectureEntry)
    (discovered : List String) (d : ArchitectureData)
    (hscan : scanArchitecture fs0 base modules (ArchitectureData.initial discovered)
      = .normal d)
    (hway : ∀ item ∈ architectureItems base modules discovered,
      ∀ q ∈ pathsOnTheWay fs0 item, existsSync fs0 q = true →
        fs0.nodeAt (components q) = some .directory) :
    ParentsFirst fs0 d.directoriesToCreate
    ∧ (readdirSync fs0 "./module" = some discovered →
        loadArchitecture fs0 base modules
          = updateArchitecture { fs := fs0, data := d, calls := [] })
    ∧ (updateArchitecture { fs := fs0, data := d, calls := [] }).state.calls
        <+: d.directoriesToCreate.map FsCall.mkdir
              ++ d.filesToCreate.map (fun file => FsCall.writeFile file.1 file.2)
    ∧ ((updateArchitecture { fs := fs0, data := d, calls := [] }).isNormal = true →
        (updateArchitecture { fs := fs0, data := d, calls := [] }).state.calls
          = d.directoriesToCreate.map FsCall.mkdir
              ++ d.filesToCreate.map (fun file => FsCall.writeFile file.1 file.2))
    ∧ (updateArchitecture { fs := fs0, data := d, calls := [] }).state.fs
        = fsAfter fs0 (updateArchitecture { fs := fs0, data := d, calls := [] }).state.calls
    ∧ (∀ pre call post,
        (updateArchitecture { fs := fs0, data := d, calls := [] }).state.calls
          = pre ++ call :: post →
        parentExists (fsAfter fs0 pre) call.path = true)
    ∧ (∀ err, (updateArchitecture { fs := fs0, data := d, calls := [] }).error? = some err →
        (∃ q ∈ d.directoriesToCreate,
            err = "EEXIST: file already exists, mkdir '" ++ q ++ "'")
          ∨ ∃ file ∈ d.filesToCreate,
              err = "EISDIR: illegal operation on a directory, open '" ++ file.1 ++ "'"
                ∨ err = "TypeError [ERR_INVALID_ARG_TYPE]: The \"data\" argument must be of "
                    ++ "type string") := by
  have hscan0 := hscan
  rw [scanArchitecture_eq] at hscan
  have hinit : ParentsFirst fs0 (ArchitectureData.initial discovered).directoriesToCreate := by
    intro pre q post hsplit
    simp [ArchitectureData.initial] at hsplit
  obtain ⟨hord, hfiles⟩ := scan_parentsFirst fs0 _ _ d hscan hway hinit
    (fun k hk => by simp [ArchitectureData.initial, fileKeys] at hk)
  have hready := updateCalls_ready fs0 d.directoriesToCreate d.filesToCreate hord
    (fun file hfile => hfiles file.1 (List.mem_map_of_mem _ hfile))
  obtain ⟨done, hpre, h1, h2, -, h4, h5, h6⟩ := perform_all fs0 _ (fun _ => False)
    { fs := fs0, data := d, calls := [] } (fun key hk => hk) (fun q hq => hq.elim) hready
  have hrun := updateArchitecture_perform { fs := fs0, data := d, calls := [] }
  simp only [] at hrun
  rw [← hrun] at h1 h2 h4 h6
  simp only [List.nil_append] at h1
  refine ⟨hord, fun hread => ?_, ?_, ?_, ?_, ?_, ?_⟩
  · unfold loadArchitecture
    rw [hread]
    simp only []
    have hi : ({ modules := discovered, directoriesToCreate := [], filesToCreate := [] }
        : ArchitectureData) = ArchitectureData.initial discovered := rfl
    rw [hi, hscan0]
  · rw [h1]; exact hpre
  · intro hn; rw [h1]; exact h4 hn
  · rw [h2, h1]
  · intro pre call post hsplit
    rw [h1] at hsplit
    exact h5 pre call post hsplit
  · intro err he
    rcases h6 err he with ⟨q, hq, hm⟩ | ⟨p, content, hq, hm⟩
    · left
      refine ⟨q, ?_, hm⟩
      rcases List.mem_append.mp hq with hq | hq
      · obtain ⟨q1, hq1, heq⟩ := List.mem_map.mp hq
        simp only [FsCall.mkdir.injEq] at heq
        rw [← heq]; exact hq1
      · obtain ⟨file, -, heq⟩ := List.mem_map.mp hq
        simp at heq
    · right
      rcases List.mem_append.mp hq with hq | hq
      · obtain ⟨q1, -, heq⟩ := List.mem_map.mp hq
        simp at heq
      · obtain ⟨file, hfile, heq⟩ := List.mem_map.mp hq
        simp only [FsCall.writeFile.injEq] at heq
        refine ⟨file, hfile, ?_⟩
        rw [heq.1]
        exact hm

/-- C20, witness: the base tree `module/Application` with the child `config/local.js` on a
project without `module/Application`. The update makes the calls
`mkdirSync('./module/Application')`, `mkdirSync('./module/Application/config')` and
`writeFileSync('./module/Application/config/local.js', ...)` in this order and completes;
when the second runs `./module/Application` is a directory, and when the file is written
`./module/Application/config` is one. -/
theorem update_never_misses_parent_witness :
    scanArchitecture Example.emptyProject Example.localTree [] (ArchitectureData.initial [])
      = .normal
          { modules := [],
            directoriesToCreate := ["./module/Application", "./module/Application/config"],
            filesToCreate :=
              [("./module/Application/config/local.js", .str "export default 0")] }
    ∧ (∀ item ∈ architectureItems Example.localTree [] [],
        ∀ q ∈ pathsOnTheWay Example.emptyProject item,
          existsSync Example.emptyProject q = true →
            FileSystem.nodeAt Example.emptyProject (components q) = some .directory)
    ∧ (loadArchitecture Example.emptyProject Example.localTree []).state.calls
        = [.mkdir "./module/Application", .mkdir "./module/Application/config",
           .writeFile "./module/Application/config/local.js" (.str "export default 0")]
    ∧ (loadArchitecture Example.emptyProject Example.localTree []).isNormal = true
    ∧ parentExists (fsAfter Example.emptyProject [.mkdir "./module/Application"])
        "./module/Application/config" = true
    ∧ parentExists
        (fsAfter Example.emptyProject
          [.mkdir "./module/Application", .mkdir "./module/Application/config"])
        "./module/Application/config/local.js" = true := by
  have hscan : scanArchitecture Example.emptyProject Example.localTree []
      (ArchitectureData.initial [])
      = .normal
          { modules := [],
            directoriesToCreate := ["./module/Application", "./module/Application/config"],
            filesToCreate :=
              [("./module/Application/config/local.js", .str "export default 0")] } := by
    rw [scanArchitecture_eq]; rfl
  have hway : ∀ item ∈ architectureItems Example.localTree [] [],
      ∀ q ∈ pathsOnTheWay Example.emptyProject item,
        existsSync Example.emptyProject q = true →
          FileSystem.nodeAt Example.emptyProject (components q) = some .directory := by
    decide
  have h := update_never_misses_parent Example.emptyProject Example.localTree [] [] _ hscan
    hway
  have hload := h.2.1 rfl
  have hcalls : (updateArchitecture
      { fs := Example.emptyProject,
        data := { modules := [],
                  directoriesToCreate :=
                    ["./module/Application", "./module/Application/config"],
                  filesToCreate :=
                    [("./module/Application/config/local.js", .str "export default 0")] },
        calls := [] }).state.calls
      = [.mkdir "./module/Application", .mkdir "./module/Application/config",
         .writeFile "./module/Application/config/local.js" (.str "export default 0")] := by
    rw [updateArchitecture_eq]; rfl
  refine ⟨hscan, hway, ?_, ?_, ?_, ?_⟩
  · rw [hload]; exact hcalls
  · rw [hload, updateArchitecture_eq]; rfl
  · exact h.2.2.2.2.2.1 [.mkdir "./module/Application"]
      (.mkdir "./module/Application/config")
      [.writeFile "./module/Application/config/local.js" (.str "export default 0")] hcalls
  · exact h.2.2.2.2.2.1
      [.mkdir "./module/Application", .mkdir "./module/Application/config"]
      (.writeFile "./module/Application/config/local.js" (.str "export default 0")) [] hcalls

/-- C12, evaluation at the failing input. The module tree declares a parent whose path is
the function `(module) => module + 'Dir'`, with the child file `a.js`; the module `Blog` is
discovered. The path of the parent resolves to `BlogDir`, but the path composed for the
child is the source text of the function followed by `/a.js`: the scan records the directory
`./module/Blog/(module) => module + 'Dir'` and the file `a.js` in it, not the file
`./module/Blog/BlogDir/a.js`. -/
theorem scan_function_valued_parent :
    (getEntriesToCreate Example.templatedParentTree none).map
        (fun e => "module/Blog/" ++ e.path.resolve "Blog")
      = ["module/Blog/BlogDir", "module/Blog/(module) => module + 'Dir'/a.js"]
    ∧ (scanArchitecture Example.blogProject [] Example.templatedParentTree
        (ArchitectureData.initial ["Blog"])).isNormal = true
    ∧ (scanArchitecture Example.blogProject [] Example.templatedParentTree
        (ArchitectureData.initial ["Blog"])).state.directoriesToCreate
      = ["./module/Blog/BlogDir", "./module/Blog/(module) => module + 'Dir'"]
    ∧ fileKeys (scanArchitecture Example.blogProject [] Example.templatedParentTree
        (ArchitectureData.initial ["Blog"])).state
      = ["./module/Blog/(module) => module + 'Dir'/a.js"]
    ∧ "./module/Blog/BlogDir/a.js"
        ∉ fileKeys (scanArchitecture Example.blogProject [] Example.templatedParentTree
            (ArchitectureData.initial ["Blog"])).state := by
  have hscan : scanArchitecture Example.blogProject [] Example.templatedParentTree
      (ArchitectureData.initial ["Blog"])
      = .normal
          { modules := ["Blog"],
            directoriesToCreate :=
              ["./module/Blog/BlogDir", "./module/Blog/(module) => module + 'Dir'"],
            filesToCreate := [("./module/Blog/(module) => module + 'Dir'/a.js", .str "x")] } := by
    rw [scanArchitecture_eq]; rfl
  rw [hscan]
  exact ⟨by decide, rfl, rfl, rfl, by decide⟩

end Folia
